import Mathlib

/-!
# Verification of the project-structure Normalizer of COBOL-TO-JAVA

This file gives a shallow embedding, in Lean 4, of the heterogeneous-response
to file-tree normalization engine of the COBOL-TO-JAVA repository.  The
embedded code is the variant cited by the claims, the component file
`src/unnamed/part_000..004` (the functions `parseCodeToFileStructure` and
`parseCSharpStructure` of `src/unnamed/part_003`, lines 148-707).

JavaScript values reaching the Normalizer are modelled by the inductive type
`JSVal` (strings, numbers, booleans, `null`, `undefined`, arrays, objects as
association lists).  JavaScript semantics relevant to the source are modelled
explicitly: truthiness, the `||` operator, `typeof`, property access (which
throws on `null`/`undefined` receivers, hence the `Except String` monad),
string coercion in template literals, and the handful of regular expressions
used by the source, each implemented as an explicit scanning function.

The non-deterministic `generateGuid` (Math.random based) is modelled by an
explicit parameter `g : Nat -> String` supplying the generated identifiers in
call order.  Presentation-only record fields of the source (`name`,
`children`, the React bookkeeping) are not tracked; the `files` map and the
`expanded` directory set are.
-/

set_option maxHeartbeats 1600000
set_option maxRecDepth 100000

namespace CobolToJava

/-- A JavaScript value, as the Normalizer may receive it: the backend response
is untrusted JSON-ish data.  Objects are association lists in key order. -/
inductive JSVal where
  | undef : JSVal
  | null : JSVal
  | bool : Bool → JSVal
  | num : Int → JSVal
  | str : String → JSVal
  | arr : List JSVal → JSVal
  | obj : List (String × JSVal) → JSVal

namespace JSVal

/-- JavaScript truthiness of a value. -/
def truthy : JSVal → Bool
  | .undef => false
  | .null => false
  | .bool b => b
  | .num n => !(n == 0)
  | .str s => !(s == "")
  | .arr _ => true
  | .obj _ => true

/-- JavaScript `a || b`. -/
def jsOr (a b : JSVal) : JSVal := if truthy a then a else b

/-- JavaScript `typeof`. -/
def jsTypeof : JSVal → String
  | .undef => "undefined"
  | .null => "object"
  | .bool _ => "boolean"
  | .num _ => "number"
  | .str _ => "string"
  | .arr _ => "object"
  | .obj _ => "object"

/-- Property access `v[k]` for receivers that are not `null`/`undefined`:
objects yield the field (first occurrence) or `undefined`; primitive values
and arrays have none of the properties the source reads, so yield
`undefined`. -/
def getFieldD : JSVal → String → JSVal
  | .obj fs, k => (((fs.find? (fun p => p.1 == k)).map Prod.snd).getD .undef)
  | _, _ => JSVal.undef

/-- Property access `v[k]`: throws a `TypeError` when the receiver is
`null` or `undefined`, as JavaScript does. -/
def getFieldE (v : JSVal) (k : String) : Except String JSVal :=
  match v with
  | .undef => .error ("TypeError: cannot read properties of undefined (reading " ++ k ++ ")")
  | .null => .error ("TypeError: cannot read properties of null (reading " ++ k ++ ")")
  | w => .ok (getFieldD w k)

/-- String coercion (as in template literals), `String(v)`. -/
def jsToString : JSVal → String
  | .undef => "undefined"
  | .null => "null"
  | .bool b => if b then "true" else "false"
  | .num n => toString n
  | .str s => s
  | .arr xs => joinComma xs
  | .obj _ => "[object Object]"
where
  /-- `Array.prototype.toString`: elements joined by commas, with
  `null`/`undefined` elements rendered empty. -/
  joinComma : List JSVal → String
    | [] => ""
    | [x] =>
      match x with
      | .undef => ""
      | .null => ""
      | v => jsToString v
    | x :: xs =>
      (match x with
       | .undef => ""
       | .null => ""
       | v => jsToString v) ++ "," ++ joinComma xs

/-- `v.method` where the method must exist on strings only: returns the
string or throws the `TypeError` JavaScript raises when e.g. `.trim` or
`.match` is called on a non-string. -/
def asStringE (v : JSVal) (method : String) : Except String String :=
  match v with
  | .str s => .ok s
  | _ => .error ("TypeError: " ++ method ++ " is not a function")

/-- `Object.values(v)` as used at `part_003` line 197: arrays yield their
elements, strings their characters, other primitives nothing; throws on
`null`/`undefined`. -/
def jsValuesE : JSVal → Except String (List JSVal)
  | .undef => .error "TypeError: Object.values called on undefined"
  | .null => .error "TypeError: Object.values called on null"
  | .obj fs => .ok (fs.map Prod.snd)
  | .arr xs => .ok xs
  | .str s => .ok (s.data.map (fun c => .str (String.mk [c])))
  | _ => .ok []

end JSVal

open JSVal

/-! ## String utilities mirroring the JavaScript string/regex operations -/

/-- Characters matched by `\s` / trimmed by `String.prototype.trim` (ASCII). -/
def isWsChar (c : Char) : Bool :=
  c == ' ' || c == '\t' || c == '\n' || c == '\r' || c == '\x0b' || c == '\x0c'

/-- `String.prototype.trim` on the character list. -/
def jsTrimL (l : List Char) : List Char :=
  ((l.dropWhile isWsChar).reverse.dropWhile isWsChar).reverse

/-- `String.prototype.trim`. -/
def jsTrim (s : String) : String := String.mk (jsTrimL s.data)

/-- Truthiness of `s.trim()`: the trimmed string is non-empty exactly when
some character of `s` is not whitespace.  (`hasNonWs_iff` below proves the
equivalence; this short-circuiting form is the one the Normalizer's write
guard uses.) -/
def hasNonWs (s : String) : Bool := s.data.any (fun c => !(isWsChar c))

/-- Substring scan on character lists (the core of `String.prototype.includes`). -/
def containsL (needle : List Char) : List Char → Bool
  | [] => needle.isEmpty
  | c :: cs => needle.isPrefixOf (c :: cs) || containsL needle cs

/-- `hay.includes(needle)`. -/
def containsStr (hay needle : String) : Bool := containsL needle.data hay.data

/-- `String.prototype.toLowerCase` (ASCII letters suffice for the language
names compared by the source). -/
def lowerStr (s : String) : String := String.mk (s.data.map Char.toLower)

/-- One regex scan: at each position, try to match the literal `lit` followed
by at least one character satisfying `good`, capturing the maximal such run;
otherwise advance one position.  This is exactly the behaviour of first-match
`String.prototype.match` for patterns of the form `lit(good+)`. -/
def scanCapture (lit : List Char) (good : Char → Bool) : List Char → Option String
  | [] => none
  | c :: cs =>
    if lit.isPrefixOf (c :: cs) then
      if (((c :: cs).drop lit.length).takeWhile good).isEmpty then scanCapture lit good cs
      else some (String.mk (((c :: cs).drop lit.length).takeWhile good))
    else scanCapture lit good cs

/-- Regex `\w` character class. -/
def wordChar (c : Char) : Bool := c.isAlphanum || c == '_'

/-- Regex `[^\n\r{]` character class. -/
def nsChar (c : Char) : Bool := !(c == '\n') && !(c == '\r') && !(c == '\x7b')

/-- First match of `/public class (\w+)/`, returning the capture. -/
def matchPublicClass (s : String) : Option String :=
  scanCapture "public class ".data wordChar s.data

/-- First match of `/namespace ([^\n\r{]+)/`, returning the capture. -/
def matchNamespace (s : String) : Option String :=
  scanCapture "namespace ".data nsChar s.data

/-- `path.replace(/^\.\//, "")`: strip one leading `./`. -/
def stripLeadingDotSlash (s : String) : String :=
  if "./".data.isPrefixOf s.data then String.mk (s.data.drop 2) else s

/-- `path.replace(/\/$/, "")`: strip one trailing `/`. -/
def stripTrailingSlash (s : String) : String :=
  match s.data.reverse with
  | '/' :: rest => String.mk rest.reverse
  | _ => s

/-- `filePath.substring(0, filePath.lastIndexOf('/'))`: the directory part,
`""` when there is no slash (JS `substring(0, -1)` is `""`). -/
def dirOf (p : String) : String :=
  match (p.data.reverse.dropWhile (fun c => !(c == '/'))) with
  | [] => ""
  | _ :: rest => String.mk rest.reverse

/-- `projectName.split('.')[0]`. -/
def splitHeadDot (s : String) : String :=
  String.mk (s.data.takeWhile (fun c => !(c == '.')))

/-- Strip the opening code fence: `content.replace(/^ ```[a-zA-Z]*\s*/, '')`
(anchored: only applies when the string starts with three backticks). -/
def stripFenceStart (s : String) : String :=
  if "```".data.isPrefixOf s.data then
    String.mk (((s.data.drop 3).dropWhile (fun c => c.isAlpha)).dropWhile isWsChar)
  else s

/-- Strip the closing code fence: `content.replace(/\s*```$/, '')` (matches
the maximal run of whitespace followed by three final backticks). -/
def stripFenceEnd (s : String) : String :=
  match s.data.reverse with
  | '`' :: '`' :: '`' :: rest => String.mk ((rest.dropWhile isWsChar).reverse)
  | _ => s

/-! ## `JSON.stringify(v, null, 2)` -/

/-- One hexadecimal digit. -/
def hexDigit (n : Nat) : Char :=
  if n < 10 then Char.ofNat (48 + n) else Char.ofNat (87 + (n % 16))

/-- JSON escaping of one character, as `JSON.stringify` performs it. -/
def jsonEscapeChar (c : Char) : String :=
  if c == '"' then "\\\""
  else if c == '\\' then "\\\\"
  else if c == '\n' then "\\n"
  else if c == '\r' then "\\r"
  else if c == '\t' then "\\t"
  else if c == '\x08' then "\\b"
  else if c == '\x0c' then "\\f"
  else if c.toNat < 32 then
    "\\u00" ++ String.mk [hexDigit (c.toNat / 16), hexDigit (c.toNat % 16)]
  else String.mk [c]

/-- A JSON string literal. -/
def jsonQuote (s : String) : String :=
  "\"" ++ String.join (s.data.map jsonEscapeChar) ++ "\""

/-- Indentation produced by `JSON.stringify(v, null, 2)` at nesting level `lvl`. -/
def indentOf (lvl : Nat) : String := String.mk (List.replicate (2 * lvl) ' ')

/-- Lay out already-rendered members at level `lvl`. -/
def jsonJoinLines (items : List String) (lvl : Nat) : String :=
  String.intercalate ",\n" (items.map (fun s => indentOf lvl ++ s))

mutual

/-- `JSON.stringify(v, null, 2)`: `none` exactly when JavaScript returns
`undefined` (i.e. on `undefined` itself). -/
def jsonStr : JSVal → Nat → Option String
  | .undef, _ => none
  | .null, _ => some "null"
  | .bool b, _ => some (if b then "true" else "false")
  | .num n, _ => some (toString n)
  | .str s, _ => some (jsonQuote s)
  | .arr xs, lvl =>
    let items := jsonItems xs (lvl + 1)
    some (if items.isEmpty then "[]"
          else "[\n" ++ jsonJoinLines items (lvl + 1) ++ "\n" ++ indentOf lvl ++ "]")
  | .obj fs, lvl =>
    let items := jsonFields fs (lvl + 1)
    some (if items.isEmpty then "\x7b\x7d"
          else "\x7b\n" ++ jsonJoinLines items (lvl + 1) ++ "\n" ++ indentOf lvl ++ "\x7d")

/-- Array members: `undefined` elements are rendered as `null`. -/
def jsonItems : List JSVal → Nat → List String
  | [], _ => []
  | x :: xs, lvl => ((jsonStr x lvl).getD "null") :: jsonItems xs lvl

/-- Object members: fields with `undefined` values are dropped. -/
def jsonFields : List (String × JSVal) → Nat → List String
  | [], _ => []
  | (k, v) :: fs, lvl =>
    match jsonStr v lvl with
    | none => jsonFields fs lvl
    | some s => (jsonQuote k ++ ": " ++ s) :: jsonFields fs lvl

end

/-! ## The output structure

The source accumulates `structure.files` (a JS object mapping full path to
content: insertion-ordered, assignment overwrites in place) and
`structure.expanded` (a JS object used as a set of directory paths).  The
presentational fields `name`/`children` are not modelled. -/

/-- The FileTree under construction. -/
structure FileStruct where
  files : List (String × String)
  expanded : List String
  deriving Repr, DecidableEq

/-- JS object assignment `o[k] = v`: overwrite in place, else append. -/
def upsert (l : List (String × String)) (k v : String) : List (String × String) :=
  match l with
  | [] => [(k, v)]
  | (k', v') :: t => if k' = k then (k, v) :: t else (k', v') :: upsert t k v

/-- The keys of the files map, in order. -/
def keysOf (l : List (String × String)) : List String := l.map Prod.fst

/-- Lookup of `structure.files[k]` (first occurrence — keys are unique). -/
def lookupFile (l : List (String × String)) (k : String) : Option String :=
  match l with
  | [] => none
  | (k', v) :: t => if k' = k then some v else lookupFile t k

/-- JS set-style assignment `expanded[dir] = true`. -/
def insertExp (l : List String) (d : String) : List String :=
  if d ∈ l then l else l ++ [d]

/-- `addFileToStructure` (`part_003` lines 286-295): store only truthy content
that is non-empty after trimming; mark the parent directory expanded.  Calling
`.trim()` on truthy non-string content throws, as in JavaScript. -/
def addFileToStructure (projectName : String) (st : FileStruct) (filePath : String)
    (content : JSVal) : Except String FileStruct :=
  if truthy content then do
    let s ← asStringE content "content.trim"
    if hasNonWs s then
      let dir := dirOf filePath
      .ok { files := upsert st.files filePath s
            expanded := if dir ≠ "" ∧ dir ≠ projectName then insertExp st.expanded dir
                        else st.expanded }
    else .ok st
  else .ok st

/-- Truthiness of `structure.files[k]` (an absent key is `undefined`; stored
contents are strings). -/
def hasTruthyFile (st : FileStruct) (k : String) : Bool :=
  match lookupFile st.files k with
  | some s => !(s == "")
  | none => false

/-- Left fold of a state-transforming step over a list in the `Except` monad
(the shape of every `forEach` loop of the source that writes files). -/
def foldSt {α : Type} (f : FileStruct → α → Except String FileStruct) :
    FileStruct → List α → Except String FileStruct
  | st, [] => .ok st
  | st, a :: l => do
    let st' ← f st a
    foldSt f st' l

/-! ## Identity inference (`part_003` lines 179-231) -/

/-- One element of the `Object.values(codeObj).map(...)` at line 197:
`typeof item === 'object' && item.content ? item.content : ''`.  Accessing
`.content` on a `null` item throws (`typeof null === 'object'`). -/
def contentOrEmptyE (item : JSVal) : Except String JSVal :=
  if jsTypeof item == "object" then do
    let c ← getFieldE item "content"
    .ok (if truthy c then c else .str "")
  else .ok (.str "")

/-- `Array.prototype.join` coercion of one element. -/
def joinElemStr : JSVal → String
  | .undef => ""
  | .null => ""
  | v => jsToString v

/-- The pattern scan the identity inference performs (lines 184-209): on the
Entity branch (`codeObj.Entity && codeObj.Entity.content`) it matches the two
patterns against the Entity content (throwing when that content is a truthy
non-string); otherwise it matches them against the joined `Object.values`
contents.  Returns (class capture, namespace capture). -/
def scanResultE (codeObj ent entContent : JSVal) :
    Except String (Option String × Option String) :=
  if truthy ent && truthy entContent then do
    let s ← asStringE entContent "content.match"
    pure (matchPublicClass s, matchNamespace s)
  else do
    let vals ← jsValuesE codeObj
    let items ← vals.mapM contentOrEmptyE
    pure (matchPublicClass (String.intercalate "\n" (items.map joinElemStr)),
      matchNamespace (String.intercalate "\n" (items.map joinElemStr)))

/-- The sequential `className` / `projectName` updates of lines 180-231 as a
function of the scan result: the defaults, the namespace capture (trimmed),
the `"ConvertedApp"` branch (lines 213-216, applied when the current value is
still `"Company.Project"` and `backendResponse.sourceLanguage` is truthy),
and the duplicated Entity block (lines 218-229), which re-applies the Entity
scan and so reinstates the namespace capture on the Entity branch. -/
def identityFromScans (entityBranch : Bool) (scans : Option String × Option String)
    (hasSrcLang : Bool) : String × String :=
  let className := (scans.1).getD "Employee"
  let pn0 := match scans.2 with
    | some ns => jsTrim ns
    | none => "Company.Project"
  let pn1 := if pn0 == "Company.Project" && hasSrcLang then "ConvertedApp" else pn0
  let pn2 := if entityBranch then
      (match scans.2 with
       | some ns => jsTrim ns
       | none => pn1)
    else pn1
  (className, pn2)

/-- `codeObj.Entity && codeObj.Entity.content`: the right operand is only
evaluated (and can only throw) when `codeObj.Entity` is truthy. -/
def entContentE (ent : JSVal) : Except String JSVal :=
  if truthy ent then getFieldE ent "content" else pure JSVal.undef

/-- The class-name / project-name inference of `parseCSharpStructure`
(`part_003` lines 179-231). -/
def inferIdentityE (r : JSVal) : Except String (String × String) := do
  let cc ← getFieldE r "convertedCode"
  let ent ← getFieldE (jsOr cc r) "Entity"
  let entContent ← entContentE ent
  let scans ← scanResultE (jsOr cc r) ent entContent
  let srcLang ← getFieldE r "sourceLanguage"
  pure (identityFromScans (truthy ent && truthy entContent) scans (truthy srcLang))

/-- The scan outcome alone (no identity assembly): what the inference sees.
Used to state properties about responses "in which no pattern matches". -/
def identitySignalsE (r : JSVal) : Except String (Option String × Option String) := do
  let cc ← getFieldE r "convertedCode"
  let ent ← getFieldE (jsOr cc r) "Entity"
  let entContent ← entContentE ent
  scanResultE (jsOr cc r) ent entContent

/-! ## Per-section materialization (`part_003` lines 297-342) -/

/-- The static `fileTypeMapping` table (lines 298-323), in source order:
section key, default relative directory, default file name. -/
def fileTypeMapping (className : String) : List (String × String × String) :=
  [("Entity", "Models", className ++ ".cs"),
   ("Repository", "Repositories/Interfaces", "I" ++ className ++ "Repository.cs"),
   ("RepositoryImpl", "Repositories", className ++ "Repository.cs"),
   ("Service", "Services/Interfaces", "I" ++ className ++ "Service.cs"),
   ("ServiceImpl", "Services", className ++ "Service.cs"),
   ("Controller", "Controllers", className ++ "Controller.cs"),
   ("DbContext", "Data", "ApplicationDbContext.cs"),
   ("Program", "", "Program.cs"),
   ("Startup", "", "Startup.cs"),
   ("AppSettings", "", "appsettings.json"),
   ("AppSettingsDev", "", "appsettings.Development.json"),
   ("AppSettingsProd", "", "appsettings.Production.json"),
   ("DTO", "DTOs", className ++ "DTO.cs"),
   ("Validator", "Validators", className ++ "Validator.cs"),
   ("Mapper", "Mappers", className ++ "Mapper.cs"),
   ("Middleware", "Middleware", "CustomMiddleware.cs"),
   ("Extension", "Extensions", "ServiceExtensions.cs"),
   ("Helper", "Helpers", "ApplicationHelper.cs"),
   ("Configuration", "Configuration", "AppConfiguration.cs")]

/-- `getContent` (lines 256-261) for a truthy section value: the value itself
when it is a string, else its `content` field or `""`. -/
def sectContent (v : JSVal) : JSVal :=
  match v with
  | .str s => JSVal.str s
  | w => jsOr (getFieldD w "content") (.str "")

/-- The full path of line 334: `filePath ? pn/filePath/fileName : pn/fileName`
(the file name is template-coerced). -/
def fullPathOf (pn filePath : String) (fileName : JSVal) : String :=
  if filePath ≠ "" then pn ++ "/" ++ filePath ++ "/" ++ jsToString fileName
  else pn ++ "/" ++ jsToString fileName

/-- The body of the `forEach` over `fileTypeMapping` (lines 326-342), using
the helpers `getPath` (lines 270-276, with path normalization), `getFileName`
(lines 264-267) and `getContent` (lines 256-261).  A truthy non-string `Path`
makes `path.replace` throw, as in JavaScript. -/
def processSection (codeObj : JSVal) (pn : String) (st : FileStruct)
    (entry : String × String × String) : Except String FileStruct := do
  let v ← getFieldE codeObj entry.1
  if truthy v then
    let pathStr ← asStringE (jsOr (getFieldD v "Path") (.str entry.2.1)) "path.replace"
    if truthy (sectContent v) then
      addFileToStructure pn st
        (fullPathOf pn (stripTrailingSlash (stripLeadingDotSlash pathStr))
          (jsOr (getFieldD v "FileName") (.str entry.2.2)))
        (sectContent v)
    else .ok st
  else .ok st

/-! ## Plural-section expansion (`part_003` lines 344-416) -/

/-- The `Controllers`/`Models` handler (lines 344-388): both blocks are the
same code up to the derived names.  Member property accesses are unguarded,
so a `null` member throws. -/
def processPluralCM (codeObj : JSVal) (pn sectKey defPath : String)
    (arrName : Nat → String) (keyName : String → String) (st : FileStruct) :
    Except String FileStruct := do
  let v ← getFieldE codeObj sectKey
  if truthy v && (jsTypeof v == "object") then
    match v with
    | .arr items =>
      foldSt (fun st ia => do
          let fn ← getFieldE ia.2 "FileName"
          let pth ← getFieldE ia.2 "Path"
          let c ← getFieldE ia.2 "content"
          addFileToStructure pn st
            (pn ++ "/" ++ jsToString (jsOr pth (.str defPath)) ++ "/" ++
              jsToString (jsOr fn (.str (arrName ia.1)))) c)
        st items.enum
    | .obj fs =>
      foldSt (fun st kv => do
          let fn ← getFieldE kv.2 "FileName"
          let pth ← getFieldE kv.2 "Path"
          let c ← getFieldE kv.2 "content"
          addFileToStructure pn st
            (pn ++ "/" ++ jsToString (jsOr pth (.str defPath)) ++ "/" ++
              jsToString (jsOr fn (.str (keyName kv.1)))) c)
        st fs
    | _ => .ok st
  else .ok st

/-- The `Services`/`Repositories` handler (lines 390-416): iterates
`Object.keys` (so an array is traversed by numeric keys), and guards each
member with `if (item && item.content)`. -/
def srPairs (v : JSVal) : List (String × JSVal) :=
  match v with
  | .obj fs => fs
  | .arr xs => xs.enum.map (fun p => (toString p.1, p.2))
  | _ => []

def processSR (codeObj : JSVal) (pn sectKey defPath suffix : String)
    (st : FileStruct) : Except String FileStruct := do
  let v ← getFieldE codeObj sectKey
  if truthy v && (jsTypeof v == "object") then
    foldSt (fun st kv => do
        if truthy kv.2 then
          let c ← getFieldE kv.2 "content"
          if truthy c then
            addFileToStructure pn st
              (pn ++ "/" ++ jsToString (jsOr (getFieldD kv.2 "Path") (.str defPath)) ++ "/" ++
                jsToString (jsOr (getFieldD kv.2 "FileName") (.str (kv.1 ++ suffix)))) c
          else .ok st
        else .ok st)
      st (srPairs v)
  else .ok st

/-! ## Scaffolding defaults (`part_003` lines 418-514)

The three hard-coded templates, verbatim from the source (brace characters
are written with their `\x7b`/`\x7d` escapes). -/

/-- The default `Program.cs` template (lines 422-469). -/
def defaultProgramCs (className pn : String) : String :=
  "using Microsoft.AspNetCore.Builder;\nusing Microsoft.EntityFrameworkCore;\nusing Microsoft.Extensions.DependencyInjection;\nusing Microsoft.Extensions.Hosting;\nusing " ++ pn ++ ".Data;\nusing " ++ pn ++ ".Repositories;\nusing " ++ pn ++ ".Repositories.Interfaces;\nusing " ++ pn ++ ".Services;\nusing " ++ pn ++
  ".Services.Interfaces;\n\nvar builder = WebApplication.CreateBuilder(args);\n\n// Add services to the container\nbuilder.Services.AddControllers();\nbuilder.Services.AddEndpointsApiExplorer();\nbuilder.Services.AddSwaggerGen();\n\n// Configure Entity Framework\nvar connectionString = builder.Configuration.GetConnectionString(\"DefaultConnection\");\nbuilder.Services.AddDbContext<ApplicationDbContext>(options =>\n    options.UseSqlServer(connectionString));\n\n// Register repositories and services\nbuilder.Services.AddScoped<I" ++ className ++ "Repository, " ++ className ++ "Repository>();\nbuilder.Services.AddScoped<I" ++ className ++ "Service, " ++ className ++
  "Service>();\n\nvar app = builder.Build();\n\n// Configure the HTTP request pipeline\nif (app.Environment.IsDevelopment())\n\x7b\n    app.UseSwagger();\n    app.UseSwaggerUI();\n    app.UseDeveloperExceptionPage();\n\x7d\n\napp.UseHttpsRedirection();\napp.UseAuthorization();\napp.MapControllers();\n\n// Ensure database is created\nusing (var scope = app.Services.CreateScope())\n\x7b\n    var dbContext = scope.ServiceProvider.GetRequiredService<ApplicationDbContext>();\n    dbContext.Database.EnsureCreated();\n\x7d\n\napp.Run();"

/-- The default `.csproj` template (lines 475-494). -/
def defaultProjectFile : String :=
  "<Project Sdk=\"Microsoft.NET.Sdk.Web\">\n\n  <PropertyGroup>\n    <TargetFramework>net8.0</TargetFramework>\n    <Nullable>enable</Nullable>\n    <ImplicitUsings>enable</ImplicitUsings>\n  </PropertyGroup>\n\n  <ItemGroup>\n    <PackageReference Include=\"Microsoft.EntityFrameworkCore\" Version=\"8.0.0\" />\n    <PackageReference Include=\"Microsoft.EntityFrameworkCore.SqlServer\" Version=\"8.0.0\" />\n    <PackageReference Include=\"Microsoft.EntityFrameworkCore.Design\" Version=\"8.0.0\" />\n    <PackageReference Include=\"Microsoft.EntityFrameworkCore.Tools\" Version=\"8.0.0\" />\n    <PackageReference Include=\"Swashbuckle.AspNetCore\" Version=\"6.5.0\" />\n    <PackageReference Include=\"AutoMapper.Extensions.Microsoft.DependencyInjection\" Version=\"12.0.1\" />\n    <PackageReference Include=\"FluentValidation.AspNetCore\" Version=\"11.3.0\" />\n    <PackageReference Include=\"Serilog.AspNetCore\" Version=\"7.0.0\" />\n  </ItemGroup>\n\n</Project>"

/-- The default `appsettings.json` template (lines 500-512). -/
def defaultAppSettings (className : String) : String :=
  "\x7b\n  \"ConnectionStrings\": \x7b\n    \"DefaultConnection\": \"Server=localhost;Database=" ++ className ++ "DB;User Id=sa;Password=YourPassword123!;TrustServerCertificate=true;\"\n  \x7d,\n  \"Logging\": \x7b\n    \"LogLevel\": \x7b\n      \"Default\": \"Information\",\n      \"Microsoft.AspNetCore\": \"Warning\",\n      \"Microsoft.EntityFrameworkCore.Database.Command\": \"Warning\"\n    \x7d\n  \x7d,\n  \"AllowedHosts\": \"*\"\n\x7d"

/-- One scaffolding default: `if (!structure.files[k]) addFileToStructure(k, c)`. -/
def scafStep (pn : String) (k : String) (c : JSVal) (st : FileStruct) :
    Except String FileStruct :=
  if hasTruthyFile st k then .ok st else addFileToStructure pn st k c

/-- Scaffolding injection (lines 418-514): each of the three default files is
added only when its path is not already (truthily) present. -/
def addScaffolding (cn pn : String) (st : FileStruct) : Except String FileStruct := do
  let st1 ← scafStep pn (pn ++ "/Program.cs") (.str (defaultProgramCs cn pn)) st
  let st2 ← scafStep pn (pn ++ "/" ++ pn ++ ".csproj") (.str defaultProjectFile) st1
  scafStep pn (pn ++ "/appsettings.json") (.str (defaultAppSettings cn)) st2

/-! ## Unit-test handling (`part_003` lines 518-653) -/

/-- The test-project `.csproj` template (lines 537-561). -/
def testProjectFileContent (pn : String) : String :=
  "<Project Sdk=\"Microsoft.NET.Sdk\">\n\n  <PropertyGroup>\n    <TargetFramework>net8.0</TargetFramework>\n    <ImplicitUsings>enable</ImplicitUsings>\n    <Nullable>enable</Nullable>\n    <IsPackable>false</IsPackable>\n    <IsTestProject>true</IsTestProject>\n  </PropertyGroup>\n\n  <ItemGroup>\n    <PackageReference Include=\"NUnit\" Version=\"3.14.0\" />\n    <PackageReference Include=\"NUnit3TestAdapter\" Version=\"4.5.0\" />\n    <PackageReference Include=\"Microsoft.NET.Test.Sdk\" Version=\"17.8.0\" />\n    <PackageReference Include=\"Moq\" Version=\"4.20.69\" />\n    <PackageReference Include=\"FluentAssertions\" Version=\"6.12.0\" />\n    <PackageReference Include=\"Microsoft.EntityFrameworkCore.InMemory\" Version=\"8.0.0\" />\n    <PackageReference Include=\"Microsoft.AspNetCore.Mvc.Testing\" Version=\"8.0.0\" />\n  </ItemGroup>\n\n  <ItemGroup>\n    <ProjectReference Include=\"..\\" ++ pn ++ "\\" ++ pn ++ ".csproj\" />\n  </ItemGroup>\n\n</Project>"

/-- The `GlobalUsings.cs` template (lines 630-642). -/
def testGlobalUsings (pn : String) : String :=
  "global using NUnit.Framework;\nglobal using Moq;\nglobal using FluentAssertions;\nglobal using Microsoft.EntityFrameworkCore;\nglobal using Microsoft.Extensions.DependencyInjection;\nglobal using System;\nglobal using System.Collections.Generic;\nglobal using System.Linq;\nglobal using System.Threading.Tasks;\nglobal using " ++ pn ++ ".Models;\nglobal using " ++ pn ++ ".Services;\nglobal using " ++ pn ++ ".Repositories.Interfaces;\nglobal using " ++ pn ++ ".Data;"

/-- The `nuget.config` template (lines 646-651). -/
def nunitConfig : String :=
  "<?xml version=\"1.0\" encoding=\"utf-8\"?>\n<configuration>\n  <packageSources>\n    <add key=\"nuget.org\" value=\"https://api.nuget.org/v3/index.json\" protocolVersion=\"3\" />\n  </packageSources>\n</configuration>"

/-- `includeTests && (unitTestsData || backendResponse.unitTests)` (lines 519
and 666): short-circuit evaluation, so `backendResponse.unitTests` is read
only when `includeTests` is truthy and `unitTestsData` is not. -/
def testCondE (r it ut : JSVal) : Except String Bool :=
  if truthy it then
    if truthy ut then .ok true
    else do
      let rut ← getFieldE r "unitTests"
      .ok (truthy rut)
  else .ok false

/-- Shape analysis of a test source (lines 566-588): one blob for a plain
string or a `unitTestCode` object, one per member for an array or keyed map.
The `metadata` objects built alongside never reach the file map and are not
tracked. -/
def buildTestFiles (tests : JSVal) : Except String (List JSVal) :=
  match tests with
  | .str s => .ok [.str s]
  | _ => do
    let utc ← getFieldE tests "unitTestCode"
    if truthy utc then .ok [utc]
    else
      match tests with
      | .arr xs => xs.mapM (fun t => do
          let c ← getFieldE t "content"
          .ok (jsOr c t))
      | .obj fs => fs.mapM (fun kv => do
          let c ← getFieldE kv.2 "content"
          .ok (jsOr c kv.2))
      | _ => .ok []

/-- Line 591: strip the code fences and trim. -/
def cleanTestContent (raw : String) : String :=
  jsTrim (stripFenceEnd (stripFenceStart raw))

/-- Lines 594-604: the target folder of a test blob, from the first namespace
declaration of its content (trimmed; `{projectName}.Tests.Services` when
there is none), by the `.Controllers` / `.Repositories` substring checks. -/
def testFolderOf (pn : String) (content : String) : String :=
  let testNamespace := match matchNamespace content with
    | some ns => jsTrim ns
    | none => pn ++ ".Tests.Services"
  if containsStr testNamespace ".Controllers" then "Controllers"
  else if containsStr testNamespace ".Repositories" then "Repositories"
  else "Services"

/-- Lines 595, 606-609: the test class name, from the first `public class`
declaration (default `{className}ServiceTests`). -/
def testClassNameOf (cn : String) (content : String) : String :=
  match matchPublicClass content with
  | some c => c
  | none => cn ++ "ServiceTests"

/-- Placement of one test blob (lines 590-623): strip code fences and trim;
skip if empty; place at `{testPN}/{folder}/{class}.cs`. -/
def processTestFile (cn pn testPN : String) (st : FileStruct) (contentV : JSVal) :
    Except String FileStruct := do
  let raw ← asStringE contentV "content.replace"
  if cleanTestContent raw = "" then .ok st
  else
    addFileToStructure pn st
      (testPN ++ "/" ++ testFolderOf pn (cleanTestContent raw) ++ "/" ++
        testClassNameOf cn (cleanTestContent raw) ++ ".cs")
      (.str (cleanTestContent raw))

/-- `processUnitTests` (lines 565-624). -/
def processUnitTests (cn pn testPN : String) (tests : JSVal) (st : FileStruct) :
    Except String FileStruct :=
  if truthy tests = false then .ok st
  else do
    let blobs ← buildTestFiles tests
    foldSt (processTestFile cn pn testPN) st blobs

/-- Lines 530-534: the test-project directories marked expanded. -/
def testExpand (pn : String) (st : FileStruct) : FileStruct :=
  FileStruct.mk st.files
    (insertExp (insertExp (insertExp (insertExp st.expanded (pn ++ ".Tests"))
      (pn ++ ".Tests" ++ "/Services")) (pn ++ ".Tests" ++ "/Controllers"))
      (pn ++ ".Tests" ++ "/Repositories"))

/-- The whole unit-test block (lines 518-653): test-project expansion marks,
the test `.csproj`, both `processUnitTests` calls (the separately supplied
source first, then `backendResponse.unitTests`), `GlobalUsings.cs` and
`nuget.config`. -/
def processTestsBlock (r it ut : JSVal) (cn pn : String) (st : FileStruct) :
    Except String FileStruct := do
  let cond ← testCondE r it ut
  if cond then
    let st1 ← addFileToStructure pn (testExpand pn st)
      (pn ++ ".Tests" ++ "/" ++ (pn ++ ".Tests") ++ ".csproj")
      (.str (testProjectFileContent pn))
    let st2 ← processUnitTests cn pn (pn ++ ".Tests") ut st1
    let rut ← getFieldE r "unitTests"
    let st3 ← processUnitTests cn pn (pn ++ ".Tests") rut st2
    let st4 ← addFileToStructure pn st3 (pn ++ ".Tests" ++ "/GlobalUsings.cs")
      (.str (testGlobalUsings pn))
    addFileToStructure pn st4 (pn ++ ".Tests" ++ "/nuget.config") (.str nunitConfig)
  else .ok st

/-! ## Solution manifest synthesis (`part_003` lines 655-699) -/

/-- The `.sln` template (lines 668-697), with the conditional test-project
segments and the three generated identifiers spliced in. -/
def solutionContent (pn mainG : String) (testG : Option String) (solG : String) : String :=
  "Microsoft Visual Studio Solution File, Format Version 12.00\n# Visual Studio Version 17\nVisualStudioVersion = 17.0.31903.59\nMinimumVisualStudioVersion = 10.0.40219.1\nProject(\"\x7b9A19103F-16F7-4668-BE54-9A1E7A4F7556\x7d\") = \"" ++ pn ++ "\", \"" ++ pn ++ "\\" ++ pn ++ ".csproj\", \"\x7b" ++ mainG ++ "\x7d\"\nEndProject" ++
  (match testG with
   | some tg => "\nProject(\"\x7b9A19103F-16F7-4668-BE54-9A1E7A4F7556\x7d\") = \"" ++ pn ++ ".Tests\", \"" ++ pn ++ ".Tests\\" ++ pn ++ ".Tests.csproj\", \"\x7b" ++ tg ++ "\x7d\"\nEndProject"
   | none => "") ++
  "\nGlobal\n\tGlobalSection(SolutionConfigurationPlatforms) = preSolution\n\t\tDebug|Any CPU = Debug|Any CPU\n\t\tRelease|Any CPU = Release|Any CPU\n\tEndGlobalSection\n\tGlobalSection(ProjectConfigurationPlatforms) = postSolution\n\t\t\x7b" ++ mainG ++ "\x7d.Debug|Any CPU.ActiveCfg = Debug|Any CPU\n\t\t\x7b" ++ mainG ++ "\x7d.Debug|Any CPU.Build.0 = Debug|Any CPU\n\t\t\x7b" ++ mainG ++ "\x7d.Release|Any CPU.ActiveCfg = Release|Any CPU\n\t\t\x7b" ++ mainG ++ "\x7d.Release|Any CPU.Build.0 = Release|Any CPU" ++
  (match testG with
   | some tg => "\n\t\t\x7b" ++ tg ++ "\x7d.Debug|Any CPU.ActiveCfg = Debug|Any CPU\n\t\t\x7b" ++ tg ++ "\x7d.Debug|Any CPU.Build.0 = Debug|Any CPU\n\t\t\x7b" ++ tg ++ "\x7d.Release|Any CPU.ActiveCfg = Release|Any CPU\n\t\t\x7b" ++ tg ++ "\x7d.Release|Any CPU.Build.0 = Release|Any CPU"
   | none => "") ++
  "\n\tEndGlobalSection\n\tGlobalSection(SolutionProperties) = preSolution\n\t\tHideSolutionNode = FALSE\n\tEndGlobalSection\n\tGlobalSection(ExtensibilityGlobals) = postSolution\n\t\tSolutionGuid = \x7b" ++ solG ++ "\x7d\n\tEndGlobalSection\nEndGlobal"

/-- The path of the solution manifest: `projectName.split('.')[0] + ".sln"`. -/
def solutionKey (pn : String) : String := splitHeadDot pn ++ ".sln"

/-- Solution-file synthesis (lines 655-699).  `g` supplies the values of the
successive `generateGuid()` calls (`Math.random`-based in the source): the
main project identifier, the conditional test-project identifier, and the
`SolutionGuid` embedded in the template. -/
def addSolution (r it ut : JSVal) (pn : String) (g : Nat → String) (st : FileStruct) :
    Except String FileStruct := do
  let cond ← testCondE r it ut
  addFileToStructure pn st (solutionKey pn)
    (.str (solutionContent pn (g 0) (if cond then some (g 1) else none) (g 2)))

/-! ## The Normalizer (`part_003` lines 148-707) -/

/-- The initial structure (lines 233-253): empty file map, the fixed set of
pre-expanded directories. -/
def initStructure (pn : String) : FileStruct :=
  { files := []
    expanded := [pn, pn ++ "/Models", pn ++ "/Controllers", pn ++ "/Services",
      pn ++ "/Services/Interfaces", pn ++ "/Repositories", pn ++ "/Repositories/Interfaces",
      pn ++ "/Data", pn ++ "/DTOs", pn ++ "/Middleware", pn ++ "/Configuration",
      pn ++ "/Validators", pn ++ "/Helpers", pn ++ "/Extensions"] }

/-- Everything `parseCSharpStructure` does before the solution manifest:
identity inference, the mapping loop, plural sections, scaffolding defaults
and the unit-test block, in source order.  Returns the inferred identity with
the structure. -/
def normalizeCore (r it ut : JSVal) : Except String (String × String × FileStruct) := do
  let cc ← getFieldE r "convertedCode"
  let (cn, pn) ← inferIdentityE r
  let st1 ← foldSt (processSection (jsOr cc r) pn) (initStructure pn) (fileTypeMapping cn)
  let st2 ← processPluralCM (jsOr cc r) pn "Controllers" "Controllers"
    (fun i => "Controller" ++ toString (i + 1) ++ ".cs") (fun k => k ++ "Controller.cs") st1
  let st3 ← processPluralCM (jsOr cc r) pn "Models" "Models"
    (fun i => "Model" ++ toString (i + 1) ++ ".cs") (fun k => k ++ ".cs") st2
  let st4 ← processSR (jsOr cc r) pn "Services" "Services" "Service.cs" st3
  let st5 ← processSR (jsOr cc r) pn "Repositories" "Repositories" "Repository.cs" st4
  let st6 ← addScaffolding cn pn st5
  let st7 ← processTestsBlock r it ut cn pn st6
  .ok (cn, pn, st7)

/-- `parseCSharpStructure(backendResponse, includeTests)` (`part_003` lines
170-707).  `it` is the `includeTests` argument, `ut` the component
`unitTests` prop captured by the closure, `g` the `generateGuid` stream. -/
def parseCSharpStructure (r it ut : JSVal) (g : Nat → String) :
    Except String FileStruct := do
  let (_, pn, st) ← normalizeCore r it ut
  addSolution r it ut pn g st

/-- `language.toLowerCase()` containing `"c#"`, `"csharp"` or `".net"`
(lines 151-155). -/
def isCSharpLang (language : String) : Bool :=
  containsStr (lowerStr language) "c#" || containsStr (lowerStr language) "csharp" ||
    containsStr (lowerStr language) ".net"

/-- The `Main` content of the non-C# branch (line 164):
`typeof code === "string" ? code : JSON.stringify(code, null, 2)`. -/
def mainContent (code : JSVal) : String :=
  match code with
  | .str s => s
  | v => (jsonStr v 0).getD "undefined"

/-- `parseCodeToFileStructure(code, language, unitTests)` (`part_003` lines
148-168).  At line 156 the source passes the component `unitTests` prop as
`parseCSharpStructure`'s `includeTests` argument, and the closure variable
`unitTests` inside `parseCSharpStructure` is that same prop, so both receive
`unitTestsProp`. -/
def parseCodeToFileStructure (code : JSVal) (language : String) (unitTestsProp : JSVal)
    (g : Nat → String) : Except String FileStruct :=
  if truthy code = false then .ok { files := [], expanded := [] }
  else if isCSharpLang language then parseCSharpStructure code unitTestsProp unitTestsProp g
  else .ok { files := [("Main", mainContent code)], expanded := [] }

/-! ## Basic lemmas about the file map -/

theorem keysOf_nil : keysOf [] = [] := rfl

theorem keysOf_cons (p : String × String) (l : List (String × String)) :
    keysOf (p :: l) = p.1 :: keysOf l := rfl

theorem mem_keysOf_cons {p : String × String} {l : List (String × String)} {k : String} :
    k ∈ keysOf (p :: l) ↔ k = p.1 ∨ k ∈ keysOf l := by
  rw [keysOf_cons, List.mem_cons]

theorem upsert_cons_self {p : String × String} {t : List (String × String)} {k v : String}
    (hk : p.1 = k) : upsert (p :: t) k v = (k, v) :: t := by
  cases p; rw [upsert]; simp_all

theorem upsert_cons_ne {p : String × String} {t : List (String × String)} {k v : String}
    (hk : ¬p.1 = k) : upsert (p :: t) k v = p :: upsert t k v := by
  cases p; rw [upsert]; simp_all

theorem mem_keysOf_upsert {l : List (String × String)} {k v : String} (k' : String)
    (h : k' ∈ keysOf l) : k' ∈ keysOf (upsert l k v) := by
  induction l with
  | nil => cases h
  | cons p t ih =>
    rcases mem_keysOf_cons.mp h with h1 | h1
    · by_cases hk : p.1 = k
      · rw [upsert_cons_self hk, mem_keysOf_cons]
        exact Or.inl (h1.trans hk)
      · rw [upsert_cons_ne hk, mem_keysOf_cons]
        exact Or.inl h1
    · by_cases hk : p.1 = k
      · rw [upsert_cons_self hk, mem_keysOf_cons]
        exact Or.inr h1
      · rw [upsert_cons_ne hk, mem_keysOf_cons]
        exact Or.inr (ih h1)

theorem self_mem_keysOf_upsert (l : List (String × String)) (k v : String) :
    k ∈ keysOf (upsert l k v) := by
  induction l with
  | nil => rw [upsert, mem_keysOf_cons]; exact Or.inl rfl
  | cons p t ih =>
    by_cases hk : p.1 = k
    · rw [upsert_cons_self hk, mem_keysOf_cons]; exact Or.inl rfl
    · rw [upsert_cons_ne hk, mem_keysOf_cons]; exact Or.inr ih

theorem keysOf_upsert_subset {l : List (String × String)} {k v : String} (k' : String)
    (h : k' ∈ keysOf (upsert l k v)) : k' ∈ keysOf l ∨ k' = k := by
  induction l with
  | nil =>
    rw [upsert, mem_keysOf_cons] at h
    rcases h with h1 | h1
    · exact Or.inr h1
    · cases h1
  | cons p t ih =>
    by_cases hk : p.1 = k
    · rw [upsert_cons_self hk, mem_keysOf_cons] at h
      rcases h with h1 | h1
      · exact Or.inr h1
      · exact Or.inl (mem_keysOf_cons.mpr (Or.inr h1))
    · rw [upsert_cons_ne hk, mem_keysOf_cons] at h
      rcases h with h1 | h1
      · exact Or.inl (mem_keysOf_cons.mpr (Or.inl h1))
      · rcases ih h1 with h2 | h2
        · exact Or.inl (mem_keysOf_cons.mpr (Or.inr h2))
        · exact Or.inr h2

theorem nodup_keysOf_upsert {l : List (String × String)} {k v : String}
    (h : (keysOf l).Nodup) : (keysOf (upsert l k v)).Nodup := by
  induction l with
  | nil =>
    rw [upsert, keysOf_cons, keysOf_nil]
    exact List.nodup_singleton k
  | cons p t ih =>
    rw [keysOf_cons, List.nodup_cons] at h
    by_cases hk : p.1 = k
    · rw [upsert_cons_self hk, keysOf_cons, List.nodup_cons]
      exact ⟨by rw [← hk]; exact h.1, h.2⟩
    · rw [upsert_cons_ne hk, keysOf_cons, List.nodup_cons]
      refine ⟨fun hc => ?_, ih h.2⟩
      rcases keysOf_upsert_subset p.1 hc with h1 | h1
      · exact h.1 h1
      · exact hk h1

theorem lookupFile_upsert_self (l : List (String × String)) (k v : String) :
    lookupFile (upsert l k v) k = some v := by
  induction l with
  | nil => rw [upsert, lookupFile, if_pos rfl]
  | cons p t ih =>
    by_cases hk : p.1 = k
    · rw [upsert_cons_self hk, lookupFile, if_pos rfl]
    · rw [upsert_cons_ne hk, lookupFile, if_neg hk]
      exact ih

theorem lookupFile_upsert_ne (l : List (String × String)) {k k' : String} (v : String)
    (h : k' ≠ k) : lookupFile (upsert l k v) k' = lookupFile l k' := by
  induction l with
  | nil =>
    simp only [upsert, lookupFile]
    rw [if_neg (show ¬k = k' from fun hc => h hc.symm)]
  | cons p t ih =>
    by_cases hk : p.1 = k
    · rw [upsert_cons_self hk, lookupFile, if_neg (fun hc => h hc.symm), lookupFile,
        if_neg (by rw [hk]; exact fun hc => h hc.symm)]
    · by_cases hk' : p.1 = k'
      · rw [upsert_cons_ne hk, lookupFile, if_pos hk', lookupFile, if_pos hk']
      · rw [upsert_cons_ne hk, lookupFile, if_neg hk', lookupFile, if_neg hk']
        exact ih

theorem mem_upsert {l : List (String × String)} {k v : String} {p : String × String}
    (h : p ∈ upsert l k v) : p ∈ l ∨ p = (k, v) := by
  induction l with
  | nil =>
    rw [upsert, List.mem_cons] at h
    rcases h with h1 | h1
    · exact Or.inr h1
    · cases h1
  | cons q t ih =>
    by_cases hk : q.1 = k
    · rw [upsert_cons_self hk, List.mem_cons] at h
      rcases h with h1 | h1
      · exact Or.inr h1
      · exact Or.inl (List.mem_cons.mpr (Or.inr h1))
    · rw [upsert_cons_ne hk, List.mem_cons] at h
      rcases h with h1 | h1
      · exact Or.inl (List.mem_cons.mpr (Or.inl h1))
      · rcases ih h1 with h2 | h2
        · exact Or.inl (List.mem_cons.mpr (Or.inr h2))
        · exact Or.inr h2

/-- The invariant of the file map: unique paths, trim-non-empty contents. -/
def GoodFiles (l : List (String × String)) : Prop :=
  (keysOf l).Nodup ∧ ∀ p ∈ l, jsTrim p.2 ≠ ""

theorem goodFiles_nil : GoodFiles [] := ⟨List.nodup_nil, by simp⟩

theorem goodFiles_upsert {l : List (String × String)} {k v : String}
    (h : GoodFiles l) (hv : jsTrim v ≠ "") : GoodFiles (upsert l k v) := by
  refine ⟨nodup_keysOf_upsert h.1, fun p hp => ?_⟩
  rcases mem_upsert hp with h1 | h1
  · exact h.2 p h1
  · simpa [h1] using hv

/-! ## Inversion lemmas for the `Except` pipeline -/

theorem bind_ok_iff {α β : Type} {e : Except String α} {f : α → Except String β} {b : β} :
    (e >>= f) = .ok b ↔ ∃ a, e = .ok a ∧ f a = .ok b := by
  cases e <;> simp [Bind.bind, Except.bind]

theorem map_ok_iff {α β : Type} {e : Except String α} {f : α → β} {b : β} :
    (Except.map f e) = .ok b ↔ ∃ a, e = .ok a ∧ f a = b := by
  cases e <;> simp [Except.map]

theorem ok_bind {α β : Type} (a : α) (f : α → Except String β) :
    (Except.ok a >>= f) = f a := rfl

/-- Fold invariance: a property preserved by every successful step is
preserved by `foldSt`. -/
theorem foldSt_preserve {α : Type} {P : FileStruct → Prop}
    {f : FileStruct → α → Except String FileStruct}
    (hf : ∀ st a st', P st → f st a = .ok st' → P st') :
    ∀ (l : List α) (st st' : FileStruct), P st → foldSt f st l = .ok st' → P st' := by
  intro l
  induction l with
  | nil => intro st st' hP h; cases h; exact hP
  | cons a t ih =>
    intro st st' hP h
    rw [foldSt, bind_ok_iff] at h
    rcases h with ⟨st1, h1, h2⟩
    exact ih st1 st' (hf st a st1 hP h1) h2

/-- Fold totality: if every step succeeds from every state, the fold succeeds. -/
theorem foldSt_total {α : Type} {f : FileStruct → α → Except String FileStruct}
    (l : List α) (hf : ∀ st a, a ∈ l → ∃ st', f st a = .ok st') :
    ∀ st, ∃ st', foldSt f st l = .ok st' := by
  induction l with
  | nil => intro st; exact ⟨st, rfl⟩
  | cons a t ih =>
    intro st
    rcases hf st a (by simp) with ⟨st1, h1⟩
    rcases ih (fun st a ha => hf st a (by simp [ha])) st1 with ⟨st2, h2⟩
    exact ⟨st2, by rw [foldSt, h1]; simpa using h2⟩

/-! ## Characterization of `addFileToStructure` -/

/-- Non-emptiness of a string whose character data is given. -/
theorem str_ne_empty_of_data {s : String} {c : Char} {l : List Char}
    (h : s.data = c :: l) : s ≠ "" := by
  intro hc
  rw [hc] at h
  cases h

theorem mem_dropWhile_of_neg {α : Type} (p : α → Bool) {l : List α} {a : α}
    (ha : a ∈ l) (hp : p a = false) : a ∈ l.dropWhile p := by
  induction l with
  | nil => cases ha
  | cons b t ih =>
    rcases List.mem_cons.mp ha with h1 | h1
    · subst h1
      rw [List.dropWhile_cons, hp]
      simp
    · by_cases hb : p b = true
      · rw [List.dropWhile_cons, hb]
        exact ih h1
      · rw [List.dropWhile_cons, Bool.not_eq_true] at *
        rw [hb]
        simp [List.mem_cons, h1]

/-- A string holding any non-whitespace character does not trim to empty. -/
theorem jsTrim_ne_of_mem {s : String} {c : Char} (hc : isWsChar c = false)
    (hm : c ∈ s.data) : jsTrim s ≠ "" := by
  intro h
  have h1 : c ∈ jsTrimL s.data := by
    unfold jsTrimL
    have h2 : c ∈ s.data.dropWhile isWsChar := mem_dropWhile_of_neg _ hm hc
    have h3 : c ∈ (s.data.dropWhile isWsChar).reverse := List.mem_reverse.mpr h2
    have h4 : c ∈ (s.data.dropWhile isWsChar).reverse.dropWhile isWsChar :=
      mem_dropWhile_of_neg _ h3 hc
    exact List.mem_reverse.mpr h4
  have h2 : jsTrimL s.data = ([] : List Char) := congrArg String.data h
  rw [h2] at h1
  cases h1

theorem hasNonWs_iff {s : String} : hasNonWs s = true ↔ jsTrim s ≠ "" := by
  constructor
  · intro h
    rcases List.any_eq_true.mp h with ⟨c, hc, hnc⟩
    exact jsTrim_ne_of_mem (by simpa using hnc) hc
  · intro h
    by_contra hn
    have hall : ∀ c ∈ s.data, isWsChar c = true := by
      intro c hc
      by_cases hcn : isWsChar c = true
      · exact hcn
      · exfalso
        have hcf : isWsChar c = false := by simpa using hcn
        exact hn (List.any_eq_true.mpr ⟨c, hc, by simp [hcf]⟩)
    apply h
    have h1 : s.data.dropWhile isWsChar = [] :=
      List.dropWhile_eq_nil_iff.mpr (fun c hc => hall c hc)
    rw [jsTrim, jsTrimL, h1]
    rfl

/-- Every successful write either leaves the file map unchanged or upserts
one trim-non-empty string. -/
theorem addFile_files_cases {pn : String} {st : FileStruct} {k : String} {c : JSVal}
    {st' : FileStruct} (h : addFileToStructure pn st k c = .ok st') :
    st'.files = st.files ∨
      ∃ s, c = .str s ∧ hasNonWs s = true ∧ st'.files = upsert st.files k s := by
  unfold addFileToStructure at h
  by_cases ht : truthy c
  · rw [if_pos ht] at h
    cases c with
    | str s =>
      rw [bind_ok_iff] at h
      rcases h with ⟨a, ha, hb⟩
      cases ha
      by_cases hs : hasNonWs s = true
      · rw [if_pos hs] at hb
        cases hb
        exact Or.inr ⟨s, rfl, hs, rfl⟩
      · rw [if_neg hs] at hb
        cases hb
        exact Or.inl rfl
    | undef => simp [asStringE, Bind.bind, Except.bind] at h
    | null => simp [asStringE, Bind.bind, Except.bind] at h
    | bool b => simp [asStringE, Bind.bind, Except.bind] at h
    | num n => simp [asStringE, Bind.bind, Except.bind] at h
    | arr xs => simp [asStringE, Bind.bind, Except.bind] at h
    | obj fs => simp [asStringE, Bind.bind, Except.bind] at h
  · rw [if_neg ht] at h
    cases h
    exact Or.inl rfl

theorem addFile_good {pn : String} {st : FileStruct} {k : String} {c : JSVal}
    {st' : FileStruct} (h : addFileToStructure pn st k c = .ok st')
    (hg : GoodFiles st.files) : GoodFiles st'.files := by
  rcases addFile_files_cases h with h1 | ⟨s, _, hs, h1⟩
  · rwa [h1]
  · rw [h1]; exact goodFiles_upsert hg (hasNonWs_iff.mp hs)

theorem addFile_mono {pn : String} {st : FileStruct} {k : String} {c : JSVal}
    {st' : FileStruct} (h : addFileToStructure pn st k c = .ok st')
    (k' : String) (hk : k' ∈ keysOf st.files) : k' ∈ keysOf st'.files := by
  rcases addFile_files_cases h with h1 | ⟨s, _, _, h1⟩
  · rwa [h1]
  · rw [h1]; exact mem_keysOf_upsert k' hk

/-- A write of a trim-non-empty string always succeeds, and upserts. -/
theorem addFile_str_ok (pn : String) (st : FileStruct) (k s : String)
    (hs : hasNonWs s = true) :
    ∃ st', addFileToStructure pn st k (.str s) = .ok st' ∧
      st'.files = upsert st.files k s := by
  unfold addFileToStructure
  have hsne : s ≠ "" := fun hc => hasNonWs_iff.mp hs (by rw [hc]; rfl)
  have ht : truthy (.str s) = true := by
    simp only [truthy, Bool.not_eq_eq_eq_not, Bool.not_false, beq_iff_eq]
    simpa using hsne
  rw [if_pos ht]
  simp only [asStringE, Bind.bind, Except.bind, if_pos hs]
  exact ⟨_, rfl, rfl⟩

/-! ## Extension order on structures: every pipeline stage only adds files -/

/-- `st'` extends `st`: keys are preserved and `GoodFiles` is preserved. -/
def Extends (st st' : FileStruct) : Prop :=
  (∀ k, k ∈ keysOf st.files → k ∈ keysOf st'.files) ∧
    (GoodFiles st.files → GoodFiles st'.files)

theorem Extends.refl (st : FileStruct) : Extends st st := ⟨fun _ h => h, fun h => h⟩

theorem Extends.trans {s1 s2 s3 : FileStruct} (h1 : Extends s1 s2) (h2 : Extends s2 s3) :
    Extends s1 s3 :=
  ⟨fun k hk => h2.1 k (h1.1 k hk), fun hg => h2.2 (h1.2 hg)⟩

theorem addFile_extends {pn : String} {st : FileStruct} {k : String} {c : JSVal}
    {st' : FileStruct} (h : addFileToStructure pn st k c = .ok st') : Extends st st' :=
  ⟨fun k' hk => addFile_mono h k' hk, fun hg => addFile_good h hg⟩

theorem foldSt_extends {α : Type} {f : FileStruct → α → Except String FileStruct}
    (hf : ∀ st a st', f st a = .ok st' → Extends st st') :
    ∀ (l : List α) (st st' : FileStruct), foldSt f st l = .ok st' → Extends st st' := by
  intro l
  induction l with
  | nil => intro st st' h; cases h; exact Extends.refl st
  | cons a t ih =>
    intro st st' h
    rw [foldSt, bind_ok_iff] at h
    rcases h with ⟨st1, h1, h2⟩
    exact (hf st a st1 h1).trans (ih st1 st' h2)

theorem processSection_extends {codeObj : JSVal} {pn : String} {st : FileStruct}
    {e : String × String × String} {st' : FileStruct}
    (h : processSection codeObj pn st e = .ok st') : Extends st st' := by
  unfold processSection at h
  rw [bind_ok_iff] at h
  rcases h with ⟨v, _, h⟩
  split at h
  · rw [bind_ok_iff] at h
    rcases h with ⟨ps, _, h⟩
    split at h
    · exact addFile_extends h
    · cases h; exact Extends.refl st
  · cases h; exact Extends.refl st

theorem processPluralCM_extends {codeObj : JSVal} {pn sectKey defPath : String}
    {arrName : Nat → String} {keyName : String → String} {st st' : FileStruct}
    (h : processPluralCM codeObj pn sectKey defPath arrName keyName st = .ok st') :
    Extends st st' := by
  unfold processPluralCM at h
  rw [bind_ok_iff] at h
  rcases h with ⟨v, _, h⟩
  split at h
  · split at h
    · refine foldSt_extends (fun st a st' hstep => ?_) _ _ _ h
      rw [bind_ok_iff] at hstep
      rcases hstep with ⟨fn, _, hstep⟩
      rw [bind_ok_iff] at hstep
      rcases hstep with ⟨pth, _, hstep⟩
      rw [bind_ok_iff] at hstep
      rcases hstep with ⟨c, _, hstep⟩
      exact addFile_extends hstep
    · refine foldSt_extends (fun st a st' hstep => ?_) _ _ _ h
      rw [bind_ok_iff] at hstep
      rcases hstep with ⟨fn, _, hstep⟩
      rw [bind_ok_iff] at hstep
      rcases hstep with ⟨pth, _, hstep⟩
      rw [bind_ok_iff] at hstep
      rcases hstep with ⟨c, _, hstep⟩
      exact addFile_extends hstep
    · cases h; exact Extends.refl st
  · cases h; exact Extends.refl st

theorem processSR_extends {codeObj : JSVal} {pn sectKey defPath suffix : String}
    {st st' : FileStruct}
    (h : processSR codeObj pn sectKey defPath suffix st = .ok st') : Extends st st' := by
  unfold processSR at h
  rw [bind_ok_iff] at h
  rcases h with ⟨v, _, h⟩
  split at h
  · refine foldSt_extends (fun st a st' hstep => ?_) _ _ _ h
    split at hstep
    · rw [bind_ok_iff] at hstep
      rcases hstep with ⟨c, _, hstep⟩
      split at hstep
      · exact addFile_extends hstep
      · cases hstep; exact Extends.refl st
    · cases hstep; exact Extends.refl st
  · cases h; exact Extends.refl st

theorem scafStep_extends {pn k : String} {c : JSVal} {st st' : FileStruct}
    (h : scafStep pn k c st = .ok st') : Extends st st' := by
  unfold scafStep at h
  split at h
  · cases h; exact Extends.refl st
  · exact addFile_extends h

theorem addScaffolding_extends {cn pn : String} {st st' : FileStruct}
    (h : addScaffolding cn pn st = .ok st') : Extends st st' := by
  unfold addScaffolding at h
  rw [bind_ok_iff] at h
  rcases h with ⟨s1, h1, h⟩
  rw [bind_ok_iff] at h
  rcases h with ⟨s2, h2, h⟩
  exact ((scafStep_extends h1).trans (scafStep_extends h2)).trans (scafStep_extends h)

theorem processTestFile_extends {cn pn testPN : String} {st : FileStruct} {cv : JSVal}
    {st' : FileStruct} (h : processTestFile cn pn testPN st cv = .ok st') : Extends st st' := by
  unfold processTestFile at h
  rw [bind_ok_iff] at h
  rcases h with ⟨raw, _, h⟩
  split at h
  · cases h; exact Extends.refl st
  · exact addFile_extends h

theorem processUnitTests_extends {cn pn testPN : String} {tests : JSVal}
    {st st' : FileStruct} (h : processUnitTests cn pn testPN tests st = .ok st') :
    Extends st st' := by
  unfold processUnitTests at h
  split at h
  · cases h; exact Extends.refl st
  · rw [bind_ok_iff] at h
    rcases h with ⟨blobs, _, h⟩
    exact foldSt_extends (fun st a st' hstep => processTestFile_extends hstep) _ _ _ h

theorem testExpand_extends (pn : String) (st : FileStruct) :
    Extends st (testExpand pn st) := ⟨fun _ hk => hk, fun hg => hg⟩

theorem processTestsBlock_extends {r it ut : JSVal} {cn pn : String} {st st' : FileStruct}
    (h : processTestsBlock r it ut cn pn st = .ok st') : Extends st st' := by
  unfold processTestsBlock at h
  rw [bind_ok_iff] at h
  rcases h with ⟨cond, _, h⟩
  split at h
  · rw [bind_ok_iff] at h
    rcases h with ⟨s1, h1, h⟩
    rw [bind_ok_iff] at h
    rcases h with ⟨s2, h2, h⟩
    rw [bind_ok_iff] at h
    rcases h with ⟨rut, _, h⟩
    rw [bind_ok_iff] at h
    rcases h with ⟨s3, h3, h⟩
    rw [bind_ok_iff] at h
    rcases h with ⟨s4, h4, h⟩
    exact (((((testExpand_extends pn st).trans (addFile_extends h1)).trans
      (processUnitTests_extends h2)).trans (processUnitTests_extends h3)).trans
      (addFile_extends h4)).trans (addFile_extends h)
  · cases h; exact Extends.refl st

theorem addSolution_extends {r it ut : JSVal} {pn : String} {g : Nat → String}
    {st st' : FileStruct} (h : addSolution r it ut pn g st = .ok st') : Extends st st' := by
  unfold addSolution at h
  rw [bind_ok_iff] at h
  rcases h with ⟨cond, _, h⟩
  exact addFile_extends h

theorem getFieldE_ok_all {v : JSVal} {k : String} {w : JSVal}
    (h : getFieldE v k = .ok w) (k' : String) :
    getFieldE v k' = .ok (getFieldD v k') := by
  cases v <;> simp [getFieldE] at h ⊢

theorem normalizeCore_extends {r it ut : JSVal} {cn pn : String} {st : FileStruct}
    (h : normalizeCore r it ut = .ok (cn, pn, st)) :
    Extends (initStructure pn) st := by
  unfold normalizeCore at h
  rw [bind_ok_iff] at h
  rcases h with ⟨cc, _, h⟩
  rw [bind_ok_iff] at h
  rcases h with ⟨⟨cn', pn'⟩, hid, h⟩
  rw [bind_ok_iff] at h
  rcases h with ⟨s1, h1, h⟩
  rw [bind_ok_iff] at h
  rcases h with ⟨s2, h2, h⟩
  rw [bind_ok_iff] at h
  rcases h with ⟨s3, h3, h⟩
  rw [bind_ok_iff] at h
  rcases h with ⟨s4, h4, h⟩
  rw [bind_ok_iff] at h
  rcases h with ⟨s5, h5, h⟩
  rw [bind_ok_iff] at h
  rcases h with ⟨s6, h6, h⟩
  rw [bind_ok_iff] at h
  rcases h with ⟨s7, h7, h⟩
  cases h
  exact ((((((foldSt_extends (fun st a st' hs => processSection_extends hs) _ _ _ h1).trans
    (processPluralCM_extends h2)).trans (processPluralCM_extends h3)).trans
    (processSR_extends h4)).trans (processSR_extends h5)).trans
    (addScaffolding_extends h6)).trans (processTestsBlock_extends h7)

/-! ## Presence and determinism lemmas -/

theorem lookupFile_some_mem {l : List (String × String)} {k v : String}
    (h : lookupFile l k = some v) : k ∈ keysOf l := by
  induction l with
  | nil => cases h
  | cons p t ih =>
    rw [lookupFile] at h
    by_cases hk : p.1 = k
    · exact mem_keysOf_cons.mpr (Or.inl hk.symm)
    · rw [if_neg hk] at h
      exact mem_keysOf_cons.mpr (Or.inr (ih h))

theorem hasTruthyFile_mem {st : FileStruct} {k : String}
    (h : hasTruthyFile st k = true) : k ∈ keysOf st.files := by
  unfold hasTruthyFile at h
  cases hl : lookupFile st.files k with
  | none => rw [hl] at h; cases h
  | some v => exact lookupFile_some_mem hl

/-- A scaffolding step always leaves its target key present when the default
content is trim-non-empty. -/
theorem scafStep_ensures {pn k s : String} {st st' : FileStruct}
    (hs : hasNonWs s = true) (h : scafStep pn k (.str s) st = .ok st') :
    k ∈ keysOf st'.files := by
  unfold scafStep at h
  split at h
  · cases h
    next hp => exact hasTruthyFile_mem hp
  · rcases addFile_str_ok pn st k s hs with ⟨st'', h'', hf⟩
    rw [h''] at h
    cases h
    rw [hf]
    exact self_mem_keysOf_upsert st.files k s

theorem hasNonWs_append_left {a b : String} (h : hasNonWs a = true) :
    hasNonWs (a ++ b) = true := by
  unfold hasNonWs at *
  rw [String.data_append, List.any_append, h]
  rfl

theorem hasNonWs_defaultProgramCs (cn pn : String) :
    hasNonWs (defaultProgramCs cn pn) = true := by
  unfold defaultProgramCs
  repeat apply hasNonWs_append_left
  decide

theorem hasNonWs_defaultProjectFile : hasNonWs defaultProjectFile = true := by decide

theorem hasNonWs_defaultAppSettings (cn : String) :
    hasNonWs (defaultAppSettings cn) = true := by
  unfold defaultAppSettings
  repeat apply hasNonWs_append_left
  decide

theorem hasNonWs_solutionContent (pn mainG : String) (testG : Option String)
    (solG : String) : hasNonWs (solutionContent pn mainG testG solG) = true := by
  unfold solutionContent
  repeat apply hasNonWs_append_left
  decide

theorem hasNonWs_testProjectFileContent (pn : String) :
    hasNonWs (testProjectFileContent pn) = true := by
  unfold testProjectFileContent
  repeat apply hasNonWs_append_left
  decide

theorem hasNonWs_testGlobalUsings (pn : String) :
    hasNonWs (testGlobalUsings pn) = true := by
  unfold testGlobalUsings
  repeat apply hasNonWs_append_left
  decide

theorem hasNonWs_nunitConfig : hasNonWs nunitConfig = true := by decide

/-- After scaffolding injection, the three scaffolding paths are present. -/
theorem addScaffolding_ensures {cn pn : String} {st st' : FileStruct}
    (h : addScaffolding cn pn st = .ok st') :
    (pn ++ "/Program.cs") ∈ keysOf st'.files ∧
    (pn ++ "/" ++ pn ++ ".csproj") ∈ keysOf st'.files ∧
    (pn ++ "/appsettings.json") ∈ keysOf st'.files := by
  unfold addScaffolding at h
  rw [bind_ok_iff] at h
  rcases h with ⟨s1, h1, h⟩
  rw [bind_ok_iff] at h
  rcases h with ⟨s2, h2, h⟩
  refine ⟨?_, ?_, ?_⟩
  · exact (scafStep_extends h).1 _ ((scafStep_extends h2).1 _
      (scafStep_ensures (hasNonWs_defaultProgramCs cn pn) h1))
  · exact (scafStep_extends h).1 _ (scafStep_ensures hasNonWs_defaultProjectFile h2)
  · exact scafStep_ensures (hasNonWs_defaultAppSettings cn) h

theorem keysOf_upsert_congr (l : List (String × String)) (k v1 v2 : String) :
    keysOf (upsert l k v1) = keysOf (upsert l k v2) := by
  induction l with
  | nil => rfl
  | cons p t ih =>
    by_cases hk : p.1 = k
    · rw [upsert_cons_self hk, upsert_cons_self hk, keysOf_cons, keysOf_cons]
    · rw [upsert_cons_ne hk, upsert_cons_ne hk, keysOf_cons, keysOf_cons, ih]

/-- Run a structure-producing computation, with the empty structure as the
(unreached, for the witnesses below) error default. -/
def okOr (e : Except String FileStruct) : FileStruct :=
  match e with
  | .ok st => st
  | .error _ => FileStruct.mk [] []

/-! # The claims -/

/-- A malformed section whose `.content` is a number (claim C1's malformed
shape). -/
def c1Input : JSVal := .obj [("Service", .obj [("content", .num 1)])]

/-- C1 (counterexample): the Normalizer is not exception-free on malformed
sections.  On a response whose `Service` section carries a numeric `.content`,
`parseCSharpStructure` throws a `TypeError` (the source calls `content.trim()`
on the number at `part_003` line 287), rather than merely omitting the file. -/
theorem c1_counterexample :
    parseCSharpStructure c1Input .undef .undef (fun _ => "") =
      .error "TypeError: content.trim is not a function" := rfl

/-- C2 (counterexample): an *empty* raw response — the empty object, which is
truthy in JavaScript — does not yield an empty FileTree: the three scaffolding
files and the solution manifest are injected even though no real section was
materialized.  Scaffolding injection is unconditional, not conditioned on a
section having succeeded. -/
theorem c2_counterexample :
    (parseCodeToFileStructure (.obj []) "C#" .undef (fun _ => "")).map
      (fun st => keysOf st.files) =
      .ok ["Company.Project/Program.cs", "Company.Project/Company.Project.csproj",
        "Company.Project/appsettings.json", "Company.sln"] ∧
    (["Company.Project/Program.cs", "Company.Project/Company.Project.csproj",
      "Company.Project/appsettings.json", "Company.sln"] : List String) ≠ [] :=
  ⟨rfl, by decide⟩

/-- C2 (amended): a *falsy* top-level response yields an empty FileTree with
no entries; but for any truthy response routed to the C# Normalizer — even
the empty object, with no real section materialized — the three scaffolding
files and the solution manifest are injected unconditionally. -/
theorem c2_amended (code : JSVal) (language : String) (ut : JSVal) (g : Nat → String)
    (h : truthy code = false) :
    parseCodeToFileStructure code language ut g = .ok (FileStruct.mk [] []) ∧
    (parseCodeToFileStructure (.obj []) "C#" .undef g).map (fun st => keysOf st.files) =
      .ok ["Company.Project/Program.cs", "Company.Project/Company.Project.csproj",
        "Company.Project/appsettings.json", "Company.sln"] := by
  constructor
  · simp [parseCodeToFileStructure, h]
  · rfl

/-- Witness for C2 (amended) at the falsy response `undefined`. -/
theorem c2_amended_witness :
    truthy JSVal.undef = false ∧
    parseCodeToFileStructure JSVal.undef "C#" JSVal.undef (fun _ => "") = .ok (FileStruct.mk [] []) :=
  ⟨rfl, (c2_amended JSVal.undef "C#" JSVal.undef (fun _ => "") rfl).1⟩

/-- A response with a `sourceLanguage` tag and one pattern-free section. -/
def c5Input : JSVal :=
  .obj [("sourceLanguage", .str "COBOL"), ("Service", .obj [("content", .str "x")])]

/-- C5 (counterexample): with no type-declaration and no namespace-declaration
match anywhere, the inferred identity is *not* always the fixed defaults: when
the response carries a truthy `sourceLanguage`, the project name becomes
`"ConvertedApp"` (`part_003` lines 213-216), and the whole output tree is
rooted there. -/
theorem c5_counterexample :
    identitySignalsE c5Input = .ok (none, none) ∧
    inferIdentityE c5Input = .ok ("Employee", "ConvertedApp") ∧
    ("ConvertedApp" : String) ≠ "Company.Project" ∧
    (parseCSharpStructure c5Input .undef .undef (fun _ => "")).map
      (fun st => keysOf st.files) =
      .ok ["ConvertedApp/Services/Interfaces/IEmployeeService.cs", "ConvertedApp/Program.cs",
        "ConvertedApp/ConvertedApp.csproj", "ConvertedApp/appsettings.json",
        "ConvertedApp.sln"] :=
  ⟨rfl, rfl, by decide, rfl⟩

/-- C5 (amended): when the identity scan finds no `public class` capture and
no `namespace` capture, *and* the response has no truthy `sourceLanguage`
field, the inferred identity is exactly the fixed defaults
`("Employee", "Company.Project")`. -/
theorem c5_amended (r : JSVal)
    (h : identitySignalsE r = .ok (none, none))
    (hs : truthy (getFieldD r "sourceLanguage") = false) :
    inferIdentityE r = .ok ("Employee", "Company.Project") := by
  unfold identitySignalsE at h
  rw [bind_ok_iff] at h
  rcases h with ⟨cc, hcc, h⟩
  rw [bind_ok_iff] at h
  rcases h with ⟨ent, hent, h⟩
  rw [bind_ok_iff] at h
  rcases h with ⟨entC, hentC, h⟩
  have hr : getFieldE r "sourceLanguage" = .ok (getFieldD r "sourceLanguage") :=
    getFieldE_ok_all hcc "sourceLanguage"
  unfold inferIdentityE
  simp only [hcc, hent, hentC, h, hr, Bind.bind, Except.bind, hs]
  simp [identityFromScans, pure, Except.pure]

/-- Witness for C5 (amended) at a pattern-free single-section response. -/
def c5WitnessInput : JSVal := .obj [("Service", .obj [("content", .str "hello")])]

theorem c5_amended_witness :
    identitySignalsE c5WitnessInput = .ok (none, none) ∧
    truthy (getFieldD c5WitnessInput "sourceLanguage") = false ∧
    inferIdentityE c5WitnessInput = .ok ("Employee", "Company.Project") :=
  ⟨rfl, rfl, c5_amended c5WitnessInput rfl rfl⟩

/-- The plural `Controllers` mapping of claim C8. -/
def c8Input : JSVal :=
  .obj [("Controllers", .obj
    [("Orders", .obj [("content", .str "X"), ("FileName", .str "OrdersController.cs")]),
     ("Users", .obj [("content", .str "Y")])])]

/-- C8: a plural `Controllers` section given as a keyed mapping
`{Orders: {content:"X", FileName:"OrdersController.cs"}, Users: {content:"Y"}}`
yields exactly two distinct controller entries, one named by the explicit
`FileName`, one derived from the key `Users` (`UsersController.cs`), both
under the default `Controllers` directory; the remaining entries are the
scaffolding and the solution manifest. -/
theorem c8_plural_controllers (g : Nat → String) :
    (parseCSharpStructure c8Input .undef .undef g).map (fun st =>
      (lookupFile st.files "Company.Project/Controllers/OrdersController.cs",
       lookupFile st.files "Company.Project/Controllers/UsersController.cs",
       keysOf st.files)) =
    .ok (some "X", some "Y",
      ["Company.Project/Controllers/OrdersController.cs",
       "Company.Project/Controllers/UsersController.cs",
       "Company.Project/Program.cs", "Company.Project/Company.Project.csproj",
       "Company.Project/appsettings.json", "Company.sln"]) := rfl

/-- C10: for every truthy response and every target language whose lowercase
name contains none of `"c#"`, `"csharp"`, `".net"`, the C# normalization
pipeline is bypassed: the output holds exactly one file, `Main`, whose
content is the raw response itself when it is a string and its pretty-printed
(2-space) JSON serialization otherwise — no inference, no scaffolding, no
manifest. -/
theorem c10_non_csharp_single_file (code : JSVal) (language : String) (ut : JSVal)
    (g : Nat → String) (hc : truthy code = true) (hl : isCSharpLang language = false) :
    parseCodeToFileStructure code language ut g =
      .ok (FileStruct.mk [("Main",
        match code with
        | .str s => s
        | v => (jsonStr v 0).getD "undefined")] []) := by
  unfold parseCodeToFileStructure mainContent
  rw [hc, hl]
  cases code <;> simp

/-- Witness for C10 at a JSON-object response and the target language `java`. -/
theorem c10_witness :
    truthy (JSVal.obj [("k", .str "v")]) = true ∧ isCSharpLang "java" = false ∧
    parseCodeToFileStructure (.obj [("k", .str "v")]) "java" .undef (fun _ => "") =
      .ok (FileStruct.mk [("Main", "\x7b\n  \"k\": \"v\"\n\x7d")] []) := by
  refine ⟨rfl, by decide, ?_⟩
  have h := c10_non_csharp_single_file (.obj [("k", .str "v")]) "java" .undef
    (fun _ => "") rfl (by decide)
  simpa using h

/-- C9: invariant of the FileTree under every write of a successful
normalization pass: paths are unique (duplicate writes overwrite in place —
last write wins, so the association list never holds a key twice) and every
stored path maps to content that is non-empty after trimming. -/
theorem c9_files_invariant (r it ut : JSVal) (g : Nat → String) (st : FileStruct)
    (h : parseCSharpStructure r it ut g = .ok st) :
    (keysOf st.files).Nodup ∧ ∀ p ∈ st.files, jsTrim p.2 ≠ "" := by
  unfold parseCSharpStructure at h
  rw [bind_ok_iff] at h
  rcases h with ⟨⟨cn, pn, st0⟩, hc, hs⟩
  have e1 : Extends (initStructure pn) st0 := normalizeCore_extends hc
  have e2 : Extends st0 st := addSolution_extends hs
  exact (e1.trans e2).2 goodFiles_nil

/-- Witness input for C9: a response exercising a section write, a plural
write and an overwrite of the same path. -/
def c9Input : JSVal :=
  .obj [("Entity", .str "entity body"),
        ("Controllers", .obj [("A", .obj [("content", .str "Z"),
          ("Path", .str "Models"), ("FileName", .str "Employee.cs")])])]

theorem c9_witness :
    (keysOf (okOr (parseCSharpStructure c9Input .undef .undef (fun _ => "G"))).files).Nodup ∧
    ∀ p ∈ (okOr (parseCSharpStructure c9Input .undef .undef (fun _ => "G"))).files,
      jsTrim p.2 ≠ "" :=
  c9_files_invariant c9Input .undef .undef (fun _ => "G") _ rfl

/-- C3: whenever a normalization pass succeeds — whatever subset of
recognized sections the response carries — the output contains the three
scaffolding paths `{pn}/Program.cs`, `{pn}/{pn}.csproj` and
`{pn}/appsettings.json` for the inferred project name `pn`, each exactly once
(the path list is duplicate-free), whether supplied by the backend or
injected as defaults. -/
theorem c3_scaffolding_complete (r it ut : JSVal) (g : Nat → String) (st : FileStruct)
    (cn pn : String)
    (hid : inferIdentityE r = .ok (cn, pn))
    (h : parseCSharpStructure r it ut g = .ok st) :
    (pn ++ "/Program.cs") ∈ keysOf st.files ∧
    (pn ++ "/" ++ pn ++ ".csproj") ∈ keysOf st.files ∧
    (pn ++ "/appsettings.json") ∈ keysOf st.files ∧
    (keysOf st.files).Nodup := by
  unfold parseCSharpStructure at h
  rw [bind_ok_iff] at h
  rcases h with ⟨⟨cn0, pn0, st0⟩, hcore, hsol⟩
  have hnodup : (keysOf st.files).Nodup :=
    (((normalizeCore_extends hcore).trans (addSolution_extends hsol)).2 goodFiles_nil).1
  unfold normalizeCore at hcore
  rw [bind_ok_iff] at hcore
  rcases hcore with ⟨cc, hcc, hcore⟩
  rw [bind_ok_iff] at hcore
  rcases hcore with ⟨⟨cn1, pn1⟩, hid1, hcore⟩
  rw [hid] at hid1
  have hpair : (cn, pn) = (cn1, pn1) := Except.ok.inj hid1
  cases hpair
  rw [bind_ok_iff] at hcore
  rcases hcore with ⟨s1, _, hcore⟩
  rw [bind_ok_iff] at hcore
  rcases hcore with ⟨s2, _, hcore⟩
  rw [bind_ok_iff] at hcore
  rcases hcore with ⟨s3, _, hcore⟩
  rw [bind_ok_iff] at hcore
  rcases hcore with ⟨s4, _, hcore⟩
  rw [bind_ok_iff] at hcore
  rcases hcore with ⟨s5, _, hcore⟩
  rw [bind_ok_iff] at hcore
  rcases hcore with ⟨s6, h6, hcore⟩
  rw [bind_ok_iff] at hcore
  rcases hcore with ⟨s7, h7, hcore⟩
  have htrip := Except.ok.inj hcore
  injection htrip with hA htrip
  injection htrip with hB hC
  subst hA
  subst hB
  subst hC
  have hmem := addScaffolding_ensures h6
  have etail : Extends s6 st :=
    (processTestsBlock_extends h7).trans (addSolution_extends hsol)
  exact ⟨etail.1 _ hmem.1, etail.1 _ hmem.2.1, etail.1 _ hmem.2.2, hnodup⟩

/-- Witness input for C3: one real section present. -/
def c3Input : JSVal := .obj [("Service", .obj [("content", .str "service body")])]

theorem c3_witness :
    ("Company.Project" ++ "/Program.cs") ∈
      keysOf (okOr (parseCSharpStructure c3Input .undef .undef (fun _ => "G"))).files ∧
    ("Company.Project" ++ "/" ++ "Company.Project" ++ ".csproj") ∈
      keysOf (okOr (parseCSharpStructure c3Input .undef .undef (fun _ => "G"))).files ∧
    ("Company.Project" ++ "/appsettings.json") ∈
      keysOf (okOr (parseCSharpStructure c3Input .undef .undef (fun _ => "G"))).files ∧
    (keysOf (okOr (parseCSharpStructure c3Input .undef .undef (fun _ => "G"))).files).Nodup :=
  c3_scaffolding_complete c3Input .undef .undef (fun _ => "G") _ "Employee" "Company.Project"
    rfl rfl

/-- C4: normalization is deterministic up to the generated identifiers of the
solution manifest: two runs on the same inputs with different identifier
streams produce the same set of paths, and identical content at every path
other than the manifest's. -/
theorem c4_deterministic_mod_manifest (r it ut : JSVal) (g1 g2 : Nat → String)
    (st1 st2 : FileStruct)
    (h1 : parseCSharpStructure r it ut g1 = .ok st1)
    (h2 : parseCSharpStructure r it ut g2 = .ok st2) :
    keysOf st1.files = keysOf st2.files ∧
    ∃ manifestPath, ∀ k, k ≠ manifestPath →
      lookupFile st1.files k = lookupFile st2.files k := by
  unfold parseCSharpStructure at h1 h2
  rw [bind_ok_iff] at h1 h2
  rcases h1 with ⟨⟨cn1, pn1, s1⟩, hc1, hs1⟩
  rcases h2 with ⟨⟨cn2, pn2, s2⟩, hc2, hs2⟩
  rw [hc1] at hc2
  have htrip := Except.ok.inj hc2
  injection htrip with hcn htrip
  injection htrip with hpn hst
  subst hcn
  subst hpn
  subst hst
  unfold addSolution at hs1 hs2
  rw [bind_ok_iff] at hs1 hs2
  rcases hs1 with ⟨cond1, hcond1, hs1⟩
  rcases hs2 with ⟨cond2, hcond2, hs2⟩
  rw [hcond1] at hcond2
  have hcond : cond1 = cond2 := Except.ok.inj hcond2
  subst hcond
  rcases addFile_str_ok pn1 s1 (solutionKey pn1)
      (solutionContent pn1 (g1 0) (if cond1 then some (g1 1) else none) (g1 2))
      (hasNonWs_solutionContent _ _ _ _) with ⟨t1, ht1, hf1⟩
  rcases addFile_str_ok pn1 s1 (solutionKey pn1)
      (solutionContent pn1 (g2 0) (if cond1 then some (g2 1) else none) (g2 2))
      (hasNonWs_solutionContent _ _ _ _) with ⟨t2, ht2, hf2⟩
  rw [ht1] at hs1
  rw [ht2] at hs2
  have e1 : t1 = st1 := Except.ok.inj hs1
  have e2 : t2 = st2 := Except.ok.inj hs2
  subst e1
  subst e2
  rw [hf1, hf2]
  refine ⟨keysOf_upsert_congr _ _ _ _, solutionKey pn1, fun k hk => ?_⟩
  rw [lookupFile_upsert_ne _ _ hk, lookupFile_upsert_ne _ _ hk]

/-- Witness input for C4: a response with a section and a test source. -/
def c4Input : JSVal := .obj [("Entity", .obj [("content", .str "public class Order")])]

/-! ## Support for the test-placement claim (C7) -/

theorem containsL_append_right {needle b : List Char} (h : containsL needle b = true) :
    ∀ a, containsL needle (a ++ b) = true := by
  intro a
  induction a with
  | nil => simpa using h
  | cons x xs ih =>
    rw [List.cons_append, containsL, ih]
    simp

theorem containsStr_append_pre {pre lit : String} (h : containsStr lit lit = true) :
    containsStr (pre ++ lit) lit = true := by
  unfold containsStr at *
  rw [String.data_append]
  exact containsL_append_right h pre.data

theorem scanCapture_head_mem {c0 : Char} {lit : List Char} {good : Char → Bool} :
    ∀ {l : List Char} {w : String}, scanCapture (c0 :: lit) good l = some w → c0 ∈ l := by
  intro l
  induction l with
  | nil => intro w h; cases h
  | cons x xs ih =>
    intro w h
    rw [scanCapture] at h
    split at h
    · next hpre =>
      have hx : c0 = x := by
        simp only [List.isPrefixOf, Bool.and_eq_true, beq_iff_eq] at hpre
        exact hpre.1
      split at h
      · exact List.mem_cons.mpr (Or.inr (ih h))
      · exact List.mem_cons.mpr (Or.inl hx)
    · exact List.mem_cons.mpr (Or.inr (ih h))

/-- A string in which the namespace pattern matched holds the non-whitespace
character `n`, hence trims non-empty. -/
theorem matchNamespace_hasNonWs {s ns : String} (h : matchNamespace s = some ns) :
    hasNonWs s = true := by
  unfold matchNamespace at h
  rw [show "namespace ".data = 'n' :: "amespace ".data from rfl] at h
  exact List.any_eq_true.mpr ⟨'n', scanCapture_head_mem h, by decide⟩

/-- Appending to a string that is not a prefix of `q` cannot produce `q`. -/
theorem ne_of_isPrefixOf_false {p q : String} (hp : p.data.isPrefixOf q.data = false)
    (x : String) : p ++ x ≠ q := by
  intro he
  have hq : p.data.isPrefixOf q.data = true := by
    rw [← he, String.data_append]
    exact List.isPrefixOf_iff_prefix.mpr (List.prefix_append _ _)
  rw [hq] at hp
  cases hp

theorem addFile_ok_files {pn : String} {st : FileStruct} {k s : String} {st' : FileStruct}
    (hs : hasNonWs s = true) (h : addFileToStructure pn st k (.str s) = .ok st') :
    st'.files = upsert st.files k s := by
  rcases addFile_str_ok pn st k s hs with ⟨t1, ht1, hf⟩
  rw [ht1] at h
  rw [← Except.ok.inj h]
  exact hf

/-- The FileTree state after identity inference, the (empty) section loops and
scaffolding injection for the empty response: the base of the test-placement
runs. -/
def c7BaseState : FileStruct :=
  okOr (addScaffolding "Employee" "Company.Project" (initStructure "Company.Project"))

/-- Test content whose *first* namespace declaration is a Services one, even
though a `.Controllers`-ending namespace declaration and the class
`FooControllerTests` both occur in it. -/
def c7CxContent : String :=
  "namespace Acme.Tests.Services\npublic class FooControllerTests\nnamespace Acme.Tests.Controllers\nx"

/-- C7 (counterexample): a supplied unit-test source that *contains* a
namespace declaration ending in `.Controllers` and the type declaration
`public class FooControllerTests` is not necessarily placed under
`Controllers`: the Normalizer keys the folder off the *first* namespace
declaration, so this content lands at
`Company.Project.Tests/Services/FooControllerTests.cs` and the claimed
`.../Controllers/FooControllerTests.cs` path is absent. -/
theorem c7_counterexample :
    containsStr c7CxContent "namespace Acme.Tests.Controllers" = true ∧
    matchPublicClass c7CxContent = some "FooControllerTests" ∧
    (parseCSharpStructure (.obj []) (.str c7CxContent) (.str c7CxContent)
        (fun _ => "")).map (fun st =>
      (lookupFile st.files "Company.Project.Tests/Controllers/FooControllerTests.cs",
       lookupFile st.files "Company.Project.Tests/Services/FooControllerTests.cs")) =
      .ok (none, some c7CxContent) :=
  ⟨by decide, rfl, rfl⟩

/-- C7 (amended): for every supplied unit-test source whose content, after
fence-stripping and trimming, has its *first* namespace declaration capture
(trimmed) ending in `.Controllers` and its *first* type declaration capture
equal to `tc`, the Normalizer writes exactly one test file at
`{projectName}.Tests/Controllers/{tc}.cs` holding the stripped content
(stated over the empty response, whose inferred project name is the default). -/
theorem c7_amended (t ns tc : String) (g : Nat → String) (st : FileStruct)
    (hns : matchNamespace (cleanTestContent t) = some ns)
    (hend : ∃ pre, jsTrim ns = pre ++ ".Controllers")
    (hcl : matchPublicClass (cleanTestContent t) = some tc)
    (h : parseCSharpStructure (.obj []) (.str t) (.str t) g = .ok st) :
    lookupFile st.files ("Company.Project.Tests/Controllers/" ++ tc ++ ".cs") =
      some (cleanTestContent t) ∧ (keysOf st.files).Nodup := by
  have hct : cleanTestContent t ≠ "" := by
    intro he
    rw [he] at hns
    exact Option.noConfusion (show (none : Option String) = some ns from hns)
  have htne : t ≠ "" := by
    intro he
    rw [he] at hns
    exact Option.noConfusion (show (none : Option String) = some ns from hns)
  have htt : truthy (.str t) = true := by simp [truthy, htne]
  have hcontains : containsStr (jsTrim ns) ".Controllers" = true := by
    rcases hend with ⟨pre, hpre⟩
    rw [hpre]
    exact containsStr_append_pre (by decide)
  have hfolder : testFolderOf "Company.Project" (cleanTestContent t) = "Controllers" := by
    simp [testFolderOf, hns, hcontains]
  have hclass : testClassNameOf "Employee" (cleanTestContent t) = tc := by
    simp [testClassNameOf, hcl]
  have hctW : hasNonWs (cleanTestContent t) = true := matchNamespace_hasNonWs hns
  have hnodup : (keysOf st.files).Nodup := by
    have h' := h
    unfold parseCSharpStructure at h'
    rw [bind_ok_iff] at h'
    rcases h' with ⟨⟨cnx, pnx, stx⟩, hcx, hsx⟩
    exact (((normalizeCore_extends hcx).trans (addSolution_extends hsx)).2 goodFiles_nil).1
  have hcond : testCondE (.obj []) (.str t) (.str t) = .ok true := by
    simp [testCondE, htt]
  unfold parseCSharpStructure at h
  rw [bind_ok_iff] at h
  rcases h with ⟨⟨cn0, pn0, st0⟩, hcore, hsol⟩
  rw [show normalizeCore (.obj []) (.str t) (.str t) =
      Bind.bind (processTestsBlock (.obj []) (.str t) (.str t) "Employee" "Company.Project"
        c7BaseState) (fun st7 => Except.ok ("Employee", "Company.Project", st7)) from rfl]
    at hcore
  rw [bind_ok_iff] at hcore
  rcases hcore with ⟨st7, hptb, hfin⟩
  have htrip := Except.ok.inj hfin
  injection htrip with hA htrip
  injection htrip with hB hC
  subst hA
  subst hB
  subst hC
  unfold processTestsBlock at hptb
  rw [hcond, ok_bind, if_pos rfl] at hptb
  rw [bind_ok_iff] at hptb
  rcases hptb with ⟨s1, hw1, hptb⟩
  rw [bind_ok_iff] at hptb
  rcases hptb with ⟨s2, hw2, hptb⟩
  rw [bind_ok_iff] at hptb
  rcases hptb with ⟨rut, hrut, hptb⟩
  have hrutv : JSVal.undef = rut := by
    have hr0 : getFieldE (JSVal.obj []) "unitTests" = .ok JSVal.undef := rfl
    rw [hr0] at hrut
    exact Except.ok.inj hrut
  rw [bind_ok_iff] at hptb
  rcases hptb with ⟨s3, hw3, hptb⟩
  rw [bind_ok_iff] at hptb
  rcases hptb with ⟨s4, hw4, hptb⟩
  -- characterize each write
  have hf1 : s1.files = upsert (testExpand "Company.Project" c7BaseState).files
      ("Company.Project" ++ ".Tests" ++ "/" ++ ("Company.Project" ++ ".Tests") ++ ".csproj")
      (testProjectFileContent "Company.Project") :=
    addFile_ok_files (hasNonWs_testProjectFileContent _) hw1
  -- the first processUnitTests call places the test file
  rw [processUnitTests] at hw2
  split at hw2
  · next hcontra =>
    rw [htt] at hcontra
    cases hcontra
  · rw [show buildTestFiles (.str t) = .ok [JSVal.str t] from rfl, ok_bind] at hw2
    rw [foldSt, bind_ok_iff] at hw2
    rcases hw2 with ⟨sMid, hpf, hfold⟩
    rw [foldSt] at hfold
    have hMid : sMid = s2 := Except.ok.inj hfold
    rw [processTestFile] at hpf
    rw [show asStringE (JSVal.str t) "content.replace" = .ok t from rfl, ok_bind] at hpf
    rw [if_neg hct, hfolder, hclass] at hpf
    have hf2 : s2.files = upsert s1.files
        ("Company.Project" ++ ".Tests" ++ "/" ++ "Controllers" ++ "/" ++ tc ++ ".cs")
        (cleanTestContent t) := by
      rw [← hMid]
      exact addFile_ok_files hctW hpf
    -- the second processUnitTests call is a no-op
    have hs3 : s2 = s3 := by
      rw [← hrutv] at hw3
      rw [show processUnitTests "Employee" "Company.Project" ("Company.Project" ++ ".Tests")
          JSVal.undef s2 = .ok s2 from rfl] at hw3
      exact Except.ok.inj hw3
    have hf3 : s4.files = upsert s2.files ("Company.Project" ++ ".Tests" ++ "/GlobalUsings.cs")
        (testGlobalUsings "Company.Project") := by
      rw [hs3]
      exact addFile_ok_files (hasNonWs_testGlobalUsings _) hw4
    have hf4 : st7.files = upsert s4.files ("Company.Project" ++ ".Tests" ++ "/nuget.config")
        nunitConfig := addFile_ok_files hasNonWs_nunitConfig hptb
    -- the solution write
    change addSolution (JSVal.obj []) (.str t) (.str t) "Company.Project" g st7 = .ok st
      at hsol
    unfold addSolution at hsol
    rw [hcond, ok_bind] at hsol
    have hf5 : st.files = upsert st7.files (solutionKey "Company.Project")
        (solutionContent "Company.Project" (g 0) (if true then some (g 1) else none) (g 2)) :=
      addFile_ok_files (hasNonWs_solutionContent _ _ _ _) hsol
    -- read the test file back
    have hkeyEq : ("Company.Project" ++ ".Tests" ++ "/" ++ "Controllers" ++ "/" ++ tc ++ ".cs"
        : String) = "Company.Project.Tests/Controllers/" ++ tc ++ ".cs" := by
      rw [show ("Company.Project" ++ ".Tests" ++ "/" ++ "Controllers" ++ "/" : String) =
        "Company.Project.Tests/Controllers/" from rfl]
    have hne1 : ("Company.Project.Tests/Controllers/" ++ tc ++ ".cs" : String) ≠
        solutionKey "Company.Project" := by
      rw [String.append_assoc]
      exact ne_of_isPrefixOf_false (by decide) _
    have hne2 : ("Company.Project.Tests/Controllers/" ++ tc ++ ".cs" : String) ≠
        "Company.Project" ++ ".Tests" ++ "/nuget.config" := by
      rw [String.append_assoc]
      exact ne_of_isPrefixOf_false (by decide) _
    have hne3 : ("Company.Project.Tests/Controllers/" ++ tc ++ ".cs" : String) ≠
        "Company.Project" ++ ".Tests" ++ "/GlobalUsings.cs" := by
      rw [String.append_assoc]
      exact ne_of_isPrefixOf_false (by decide) _
    refine ⟨?_, hnodup⟩
    rw [hf5, hf4, hf3, hf2, hkeyEq]
    rw [lookupFile_upsert_ne _ _ hne1, lookupFile_upsert_ne _ _ hne2,
      lookupFile_upsert_ne _ _ hne3, lookupFile_upsert_self]

/-- Witness content for C7: first namespace ends in `.Controllers`. -/
def c7WitnessContent : String :=
  "namespace Acme.Tests.Controllers\npublic class FooControllerTests : Base \x7b \x7d"

theorem c7_witness :
    matchNamespace (cleanTestContent c7WitnessContent) = some "Acme.Tests.Controllers" ∧
    jsTrim "Acme.Tests.Controllers" = "Acme.Tests" ++ ".Controllers" ∧
    matchPublicClass (cleanTestContent c7WitnessContent) = some "FooControllerTests" ∧
    lookupFile (okOr (parseCSharpStructure (.obj []) (.str c7WitnessContent)
        (.str c7WitnessContent) (fun _ => "G"))).files
      ("Company.Project.Tests/Controllers/" ++ "FooControllerTests" ++ ".cs") =
      some (cleanTestContent c7WitnessContent) := by
  refine ⟨rfl, by decide, rfl, ?_⟩
  exact (c7_amended c7WitnessContent "Acme.Tests.Controllers" "FooControllerTests"
    (fun _ => "G") _ rfl ⟨"Acme.Tests", by decide⟩ rfl rfl).1

theorem c4_witness :
    keysOf (okOr (parseCSharpStructure c4Input .undef .undef (fun _ => "A"))).files =
      keysOf (okOr (parseCSharpStructure c4Input .undef .undef (fun _ => "B"))).files ∧
    ∃ manifestPath, ∀ k, k ≠ manifestPath →
      lookupFile (okOr (parseCSharpStructure c4Input .undef .undef (fun _ => "A"))).files k =
      lookupFile (okOr (parseCSharpStructure c4Input .undef .undef (fun _ => "B"))).files k :=
  c4_deterministic_mod_manifest c4Input .undef .undef (fun _ => "A") (fun _ => "B") _ _ rfl rfl

/-! ## String disequalities used for C6: comparing file-map keys that share
the symbolic project-name prefix -/

theorem listAppend_cancel_left {α : Type} :
    ∀ (a : List α) {b c : List α}, a ++ b = a ++ c → b = c
  | [], _, _, h => h
  | _ :: xs, _, _, h => listAppend_cancel_left xs (List.cons.inj h).2

theorem strAppend_ne_of_ne (pn : String) {a b : String} (h : a ≠ b) :
    pn ++ a ≠ pn ++ b := by
  intro he
  apply h
  have hd := congrArg String.data he
  rw [String.data_append, String.data_append] at hd
  exact String.ext (listAppend_cancel_left pn.data hd)

theorem strData_append_ne_nil_right (x : String) {s : String} (hs : s.data ≠ []) :
    (x ++ s).data ≠ [] := by
  rw [String.data_append]
  intro he
  exact hs (List.append_eq_nil.mp he).2

/-- The last character of `x ++ s` is that of `s` when `s` is non-empty. -/
theorem strData_getLast_append (x : String) {s : String} (hs : s.data ≠ []) :
    (x ++ s).data.getLast? = s.data.getLast? := by
  rw [String.data_append]
  exact List.getLast?_append_of_ne_nil x.data hs

/-- Two strings whose final characters differ are different. -/
theorem ne_of_getLast {a b : String} {ca cb : Char}
    (ha : a.data.getLast? = some ca) (hb : b.data.getLast? = some cb)
    (h : ca ≠ cb) : a ≠ b := by
  intro he
  rw [he] at ha
  rw [hb] at ha
  exact h (Option.some.inj ha).symm

theorem takeWhile_append_dropWhile_eq {α : Type} (p : α → Bool) :
    ∀ l : List α, l.takeWhile p ++ l.dropWhile p = l := by
  intro l
  induction l with
  | nil => rfl
  | cons x xs ih =>
    cases hx : p x with
    | true =>
      simp only [List.takeWhile, List.dropWhile, hx, List.cons_append]
      rw [ih]
    | false => simp only [List.takeWhile, List.dropWhile, hx, List.nil_append]

/-- `dropWhile` only stops at an element falsifying the predicate. -/
theorem dropWhile_head_false {α : Type} {p : α → Bool} :
    ∀ {l : List α} {c : α} {t : List α}, l.dropWhile p = c :: t → p c = false := by
  intro l
  induction l with
  | nil => intro c t h; simp [List.dropWhile] at h
  | cons x xs ih =>
    intro c t h
    cases hx : p x with
    | true =>
      simp only [List.dropWhile, hx] at h
      exact ih h
    | false =>
      simp only [List.dropWhile, hx] at h
      cases h
      exact hx

/-- The solution manifest's path `pn.split('.')[0] + ".sln"` differs from
every path of the form `pn ++ X` with `X` starting in a slash: after the
common head of `pn`, the manifest path continues with a dot. -/
theorem solutionKey_ne_slash {pn X : String} (hX : X.data.head? = some '/') :
    pn ++ X ≠ solutionKey pn := by
  intro he
  have hd := congrArg String.data he
  rw [String.data_append] at hd
  have hsd : (solutionKey pn).data =
      pn.data.takeWhile (fun c => !(c == '.')) ++ ".sln".data := by
    show (splitHeadDot pn ++ ".sln").data = _
    rw [String.data_append]
    rfl
  rw [hsd] at hd
  have hpn : pn.data = pn.data.takeWhile (fun c => !(c == '.')) ++
      pn.data.dropWhile (fun c => !(c == '.')) :=
    (takeWhile_append_dropWhile_eq _ pn.data).symm
  nth_rewrite 1 [hpn] at hd
  rw [List.append_assoc] at hd
  have hc := listAppend_cancel_left _ hd
  have hmem : '/' ∈ X.data := by
    cases hXd : X.data with
    | nil => rw [hXd] at hX; cases hX
    | cons y ys =>
      rw [hXd] at hX
      have hy : y = '/' := Option.some.inj hX
      rw [hy]
      exact List.mem_cons_self _ _
  cases hdw : pn.data.dropWhile (fun c => !(c == '.')) with
  | nil =>
    rw [hdw, List.nil_append] at hc
    have hheads := congrArg List.head? hc
    rw [hX] at hheads
    exact absurd hheads (by decide)
  | cons c bt =>
    have hcd : c = '.' := by
      have hpf := dropWhile_head_false hdw
      simpa using hpf
    rw [hdw, hcd, List.cons_append,
      show (".sln".data : List Char) = '.' :: "sln".data from rfl] at hc
    have htail := (List.cons.inj hc).2
    have h2 : '/' ∈ bt ++ X.data := List.mem_append.mpr (Or.inr hmem)
    rw [htail] at h2
    exact absurd h2 (by decide)

theorem progKey_getLast (pn : String) :
    (pn ++ "/Program.cs").data.getLast? = some 's' := by
  rw [strData_getLast_append pn (by decide)]
  decide

theorem csprojKey_getLast (pn : String) :
    (pn ++ "/" ++ pn ++ ".csproj").data.getLast? = some 'j' := by
  rw [strData_getLast_append (pn ++ "/" ++ pn) (by decide)]
  decide

theorem appKey_getLast (pn : String) :
    (pn ++ "/appsettings.json").data.getLast? = some 'n' := by
  rw [strData_getLast_append pn (by decide)]
  decide

theorem solKey_getLast (pn : String) :
    (solutionKey pn).data.getLast? = some 'n' := by
  show (splitHeadDot pn ++ ".sln").data.getLast? = some 'n'
  rw [strData_getLast_append (splitHeadDot pn) (by decide)]
  decide

/-! ## Reduction lemmas for a single-section response (C6) -/

theorem lookupFile_singleton_ne {K s k : String} (h : K ≠ k) :
    lookupFile [(K, s)] k = none := by
  rw [lookupFile, if_neg h]
  rfl

/-- A mapping entry whose key is absent from a one-field response leaves the
structure unchanged. -/
theorem processSection_skip {sect q : String} {v : JSVal} {pn : String} {st : FileStruct}
    {dp dn : String} (hq : (sect == q) = false) :
    processSection (.obj [(sect, v)]) pn st (q, dp, dn) = .ok st := by
  have hg : getFieldE (.obj [(sect, v)]) q = .ok .undef := by
    simp [getFieldE, getFieldD, List.find?, hq]
  unfold processSection
  rw [hg, ok_bind]
  rfl

theorem processMapping_skips {sect : String} {v : JSVal} {pn : String} :
    ∀ (entries : List (String × String × String)) (st : FileStruct),
      (∀ e ∈ entries, (sect == e.1) = false) →
      foldSt (processSection (.obj [(sect, v)]) pn) st entries = .ok st := by
  intro entries
  induction entries with
  | nil => intro st _; rfl
  | cons a t ih =>
    intro st hall
    rw [foldSt]
    have ha : processSection (.obj [(sect, v)]) pn st (a.1, a.2.1, a.2.2) = .ok st :=
      processSection_skip (hall a (List.mem_cons_self a t))
    rw [ha, ok_bind]
    exact ih st (fun e he => hall e (List.mem_cons_of_mem a he))

/-- The matching mapping entry of a one-field response materializes the
section at its (default) path. -/
theorem processSection_hit {sect dp dn : String} {v : JSVal} {pn : String} (st : FileStruct)
    {s : String}
    (hvt : truthy v = true) (hvc : sectContent v = .str s)
    (hst : truthy (JSVal.str s) = true)
    (hvp : getFieldD v "Path" = .undef) (hvf : getFieldD v "FileName" = .undef) :
    processSection (.obj [(sect, v)]) pn st (sect, dp, dn) =
      addFileToStructure pn st
        (fullPathOf pn (stripTrailingSlash (stripLeadingDotSlash dp)) (.str dn))
        (.str s) := by
  have hg : getFieldE (.obj [(sect, v)]) sect = .ok v := by
    simp [getFieldE, getFieldD, List.find?]
  unfold processSection
  rw [hg, ok_bind, if_pos hvt, hvp,
    show jsOr JSVal.undef (.str dp) = .str dp from rfl,
    show asStringE (JSVal.str dp) "path.replace" = .ok dp from rfl, ok_bind,
    hvc, if_pos hst, hvf,
    show jsOr JSVal.undef (.str dn) = .str dn from rfl]

theorem foldSt_append {α : Type} (f : FileStruct → α → Except String FileStruct)
    (a b : List α) : ∀ st,
      foldSt f st (a ++ b) = foldSt f st a >>= fun st' => foldSt f st' b := by
  induction a with
  | nil => intro st; rw [List.nil_append, foldSt, ok_bind]
  | cons x xs ih =>
    intro st
    simp only [List.cons_append, foldSt]
    cases hfx : f st x with
    | error e => rfl
    | ok st1 =>
      simp only [ok_bind]
      exact ih st1

/-- The mapping loop over a table containing exactly one entry keyed by the
response's single section: the loop writes exactly that file. -/
theorem processMapping_single {sect dp dn : String} {v : JSVal} {pn : String} {s : String}
    (l1 l2 : List (String × String × String))
    (h1 : ∀ e ∈ l1, (sect == e.1) = false) (h2 : ∀ e ∈ l2, (sect == e.1) = false)
    (hvt : truthy v = true) (hvc : sectContent v = .str s)
    (hst : truthy (JSVal.str s) = true)
    (hvp : getFieldD v "Path" = .undef) (hvf : getFieldD v "FileName" = .undef)
    (hs : hasNonWs s = true) (st : FileStruct) :
    ∃ st', foldSt (processSection (.obj [(sect, v)]) pn) st
        (l1 ++ (sect, dp, dn) :: l2) = .ok st' ∧
      st'.files = upsert st.files
        (fullPathOf pn (stripTrailingSlash (stripLeadingDotSlash dp)) (.str dn)) s := by
  rcases addFile_str_ok pn st
    (fullPathOf pn (stripTrailingSlash (stripLeadingDotSlash dp)) (.str dn)) s hs with
    ⟨stW, hW, hWf⟩
  refine ⟨stW, ?_, hWf⟩
  rw [foldSt_append, processMapping_skips l1 st h1, ok_bind, foldSt,
    processSection_hit st hvt hvc hst hvp hvf, hW, ok_bind]
  exact processMapping_skips l2 stW h2

/-- A plural `Controllers`/`Models` handler keyed off an absent section leaves
the structure unchanged. -/
theorem processPluralCM_skip {sect key : String} {v : JSVal} {pn defPath : String}
    {arrName : Nat → String} {keyName : String → String} {st : FileStruct}
    (hk : (sect == key) = false) :
    processPluralCM (.obj [(sect, v)]) pn key defPath arrName keyName st = .ok st := by
  have hg : getFieldE (.obj [(sect, v)]) key = .ok .undef := by
    simp [getFieldE, getFieldD, List.find?, hk]
  unfold processPluralCM
  rw [hg, ok_bind]
  rfl

/-- A `Services`/`Repositories` handler keyed off an absent section leaves the
structure unchanged. -/
theorem processSR_skip {sect key : String} {v : JSVal} {pn defPath suffix : String}
    {st : FileStruct} (hk : (sect == key) = false) :
    processSR (.obj [(sect, v)]) pn key defPath suffix st = .ok st := by
  have hg : getFieldE (.obj [(sect, v)]) key = .ok .undef := by
    simp [getFieldE, getFieldD, List.find?, hk]
  unfold processSR
  rw [hg, ok_bind]
  rfl

/-- With a falsy `includeTests` argument the whole unit-test block is a
no-op. -/
theorem processTestsBlock_noTests (r : JSVal) (cn pn : String) (st : FileStruct) :
    processTestsBlock r .undef .undef cn pn st = .ok st := rfl

/-- With a falsy `includeTests` argument the solution manifest is written
without test-project segments. -/
theorem addSolution_noTests (r : JSVal) (pn : String) (g : Nat → String)
    (st : FileStruct) :
    addSolution r .undef .undef pn g st =
      addFileToStructure pn st (solutionKey pn)
        (.str (solutionContent pn (g 0) none (g 2))) := by
  unfold addSolution
  rw [show testCondE r .undef .undef = .ok false from rfl, ok_bind,
    if_neg (by decide : ¬(false = true))]

theorem scafStep_absent {pn k : String} {c : JSVal} {st : FileStruct}
    (h : hasTruthyFile st k = false) :
    scafStep pn k c st = addFileToStructure pn st k c := by
  unfold scafStep
  rw [h, if_neg (by decide : ¬(false = true))]

theorem scafStep_present {pn k : String} {c : JSVal} {st : FileStruct}
    (h : hasTruthyFile st k = true) : scafStep pn k c st = .ok st := by
  unfold scafStep
  rw [h, if_pos rfl]

/-- Scaffolding injection and the solution manifest on a file map holding the
single entry `K ↦ s`, when `K` collides with none of the injected paths: the
entry survives untouched. -/
theorem c6_finish {cn pn K s : String} {st2 st6 st : FileStruct} {r : JSVal}
    {g : Nat → String}
    (hf2 : st2.files = [(K, s)])
    (hscaf : addScaffolding cn pn st2 = .ok st6)
    (hsol : addSolution r .undef .undef pn g st6 = .ok st)
    (hne1 : K ≠ pn ++ "/Program.cs")
    (hne2 : K ≠ pn ++ "/" ++ pn ++ ".csproj")
    (hne3 : K ≠ pn ++ "/appsettings.json")
    (hneS : K ≠ solutionKey pn) :
    lookupFile st.files K = some s := by
  have hCP : (pn ++ "/" ++ pn ++ ".csproj" : String) ≠ pn ++ "/Program.cs" :=
    ne_of_getLast (csprojKey_getLast pn) (progKey_getLast pn) (by decide)
  have hAC : (pn ++ "/appsettings.json" : String) ≠ pn ++ "/" ++ pn ++ ".csproj" :=
    ne_of_getLast (appKey_getLast pn) (csprojKey_getLast pn) (by decide)
  have hAP : (pn ++ "/appsettings.json" : String) ≠ pn ++ "/Program.cs" :=
    ne_of_getLast (appKey_getLast pn) (progKey_getLast pn) (by decide)
  unfold addScaffolding at hscaf
  rw [bind_ok_iff] at hscaf
  rcases hscaf with ⟨s3, h3, hscaf⟩
  rw [bind_ok_iff] at hscaf
  rcases hscaf with ⟨s4, h4, h5⟩
  have ht1 : hasTruthyFile st2 (pn ++ "/Program.cs") = false := by
    unfold hasTruthyFile
    rw [hf2, lookupFile_singleton_ne hne1]
  rw [scafStep_absent ht1] at h3
  have hf3 : s3.files = upsert st2.files (pn ++ "/Program.cs") (defaultProgramCs cn pn) :=
    addFile_ok_files (hasNonWs_defaultProgramCs cn pn) h3
  have ht2 : hasTruthyFile s3 (pn ++ "/" ++ pn ++ ".csproj") = false := by
    unfold hasTruthyFile
    rw [hf3, lookupFile_upsert_ne _ _ hCP, hf2, lookupFile_singleton_ne hne2]
  rw [scafStep_absent ht2] at h4
  have hf4 : s4.files = upsert s3.files (pn ++ "/" ++ pn ++ ".csproj")
      defaultProjectFile :=
    addFile_ok_files hasNonWs_defaultProjectFile h4
  have ht3 : hasTruthyFile s4 (pn ++ "/appsettings.json") = false := by
    unfold hasTruthyFile
    rw [hf4, lookupFile_upsert_ne _ _ hAC, hf3, lookupFile_upsert_ne _ _ hAP, hf2,
      lookupFile_singleton_ne hne3]
  rw [scafStep_absent ht3] at h5
  have hf6 : st6.files = upsert s4.files (pn ++ "/appsettings.json")
      (defaultAppSettings cn) :=
    addFile_ok_files (hasNonWs_defaultAppSettings cn) h5
  rw [addSolution_noTests] at hsol
  have hfS : st.files = upsert st6.files (solutionKey pn)
      (solutionContent pn (g 0) none (g 2)) :=
    addFile_ok_files (hasNonWs_solutionContent pn _ none _) hsol
  rw [hfS, lookupFile_upsert_ne _ _ hneS, hf6, lookupFile_upsert_ne _ _ hne3, hf4,
    lookupFile_upsert_ne _ _ hne2, hf3, lookupFile_upsert_ne _ _ hne1, hf2,
    lookupFile, if_pos rfl]

/-- The `Program` variant of `c6_finish`: the section landed exactly at the
`Program.cs` scaffolding path, so that injection is skipped and the backend
content survives. -/
theorem c6_finish_program {cn pn s : String} {st2 st6 st : FileStruct} {r : JSVal}
    {g : Nat → String}
    (hsne : s ≠ "")
    (hf2 : st2.files = [(pn ++ "/Program.cs", s)])
    (hscaf : addScaffolding cn pn st2 = .ok st6)
    (hsol : addSolution r .undef .undef pn g st6 = .ok st) :
    lookupFile st.files (pn ++ "/Program.cs") = some s := by
  have hCP : (pn ++ "/" ++ pn ++ ".csproj" : String) ≠ pn ++ "/Program.cs" :=
    ne_of_getLast (csprojKey_getLast pn) (progKey_getLast pn) (by decide)
  have hAC : (pn ++ "/appsettings.json" : String) ≠ pn ++ "/" ++ pn ++ ".csproj" :=
    ne_of_getLast (appKey_getLast pn) (csprojKey_getLast pn) (by decide)
  have hAP : (pn ++ "/appsettings.json" : String) ≠ pn ++ "/Program.cs" :=
    ne_of_getLast (appKey_getLast pn) (progKey_getLast pn) (by decide)
  have hPS : (pn ++ "/Program.cs" : String) ≠ solutionKey pn :=
    ne_of_getLast (progKey_getLast pn) (solKey_getLast pn) (by decide)
  unfold addScaffolding at hscaf
  rw [bind_ok_iff] at hscaf
  rcases hscaf with ⟨s3, h3, hscaf⟩
  rw [bind_ok_iff] at hscaf
  rcases hscaf with ⟨s4, h4, h5⟩
  have ht1 : hasTruthyFile st2 (pn ++ "/Program.cs") = true := by
    unfold hasTruthyFile
    rw [hf2, lookupFile, if_pos rfl]
    show truthy (JSVal.str s) = true
    rw [truthy, beq_eq_false_iff_ne.mpr hsne]
    rfl
  rw [scafStep_present ht1] at h3
  have hs3 : s3 = st2 := (Except.ok.inj h3).symm
  have ht2 : hasTruthyFile s3 (pn ++ "/" ++ pn ++ ".csproj") = false := by
    unfold hasTruthyFile
    rw [hs3, hf2, lookupFile_singleton_ne hCP.symm]
  rw [scafStep_absent ht2] at h4
  have hf4 : s4.files = upsert s3.files (pn ++ "/" ++ pn ++ ".csproj")
      defaultProjectFile :=
    addFile_ok_files hasNonWs_defaultProjectFile h4
  have ht3 : hasTruthyFile s4 (pn ++ "/appsettings.json") = false := by
    unfold hasTruthyFile
    rw [hf4, lookupFile_upsert_ne _ _ hAC, hs3, hf2, lookupFile_singleton_ne hAP.symm]
  rw [scafStep_absent ht3] at h5
  have hf6 : st6.files = upsert s4.files (pn ++ "/appsettings.json")
      (defaultAppSettings cn) :=
    addFile_ok_files (hasNonWs_defaultAppSettings cn) h5
  rw [addSolution_noTests] at hsol
  have hfS : st.files = upsert st6.files (solutionKey pn)
      (solutionContent pn (g 0) none (g 2)) :=
    addFile_ok_files (hasNonWs_solutionContent pn _ none _) hsol
  rw [hfS, lookupFile_upsert_ne _ _ hPS, hf6, lookupFile_upsert_ne _ _ hAP.symm, hf4,
    lookupFile_upsert_ne _ _ hCP.symm, hs3, hf2, lookupFile, if_pos rfl]

/-- The `AppSettings` variant of `c6_finish`: the section landed exactly at
the `appsettings.json` scaffolding path, so that injection is skipped and the
backend content survives. -/
theorem c6_finish_appsettings {cn pn s : String} {st2 st6 st : FileStruct} {r : JSVal}
    {g : Nat → String}
    (hsne : s ≠ "")
    (hf2 : st2.files = [(pn ++ "/appsettings.json", s)])
    (hscaf : addScaffolding cn pn st2 = .ok st6)
    (hsol : addSolution r .undef .undef pn g st6 = .ok st) :
    lookupFile st.files (pn ++ "/appsettings.json") = some s := by
  have hCP : (pn ++ "/" ++ pn ++ ".csproj" : String) ≠ pn ++ "/Program.cs" :=
    ne_of_getLast (csprojKey_getLast pn) (progKey_getLast pn) (by decide)
  have hAC : (pn ++ "/appsettings.json" : String) ≠ pn ++ "/" ++ pn ++ ".csproj" :=
    ne_of_getLast (appKey_getLast pn) (csprojKey_getLast pn) (by decide)
  have hAP : (pn ++ "/appsettings.json" : String) ≠ pn ++ "/Program.cs" :=
    ne_of_getLast (appKey_getLast pn) (progKey_getLast pn) (by decide)
  have hAS : (pn ++ "/appsettings.json" : String) ≠ solutionKey pn :=
    solutionKey_ne_slash (by decide)
  unfold addScaffolding at hscaf
  rw [bind_ok_iff] at hscaf
  rcases hscaf with ⟨s3, h3, hscaf⟩
  rw [bind_ok_iff] at hscaf
  rcases hscaf with ⟨s4, h4, h5⟩
  have ht1 : hasTruthyFile st2 (pn ++ "/Program.cs") = false := by
    unfold hasTruthyFile
    rw [hf2, lookupFile_singleton_ne hAP]
  rw [scafStep_absent ht1] at h3
  have hf3 : s3.files = upsert st2.files (pn ++ "/Program.cs") (defaultProgramCs cn pn) :=
    addFile_ok_files (hasNonWs_defaultProgramCs cn pn) h3
  have ht2 : hasTruthyFile s3 (pn ++ "/" ++ pn ++ ".csproj") = false := by
    unfold hasTruthyFile
    rw [hf3, lookupFile_upsert_ne _ _ hCP, hf2, lookupFile_singleton_ne hAC]
  rw [scafStep_absent ht2] at h4
  have hf4 : s4.files = upsert s3.files (pn ++ "/" ++ pn ++ ".csproj")
      defaultProjectFile :=
    addFile_ok_files hasNonWs_defaultProjectFile h4
  have ht3 : hasTruthyFile s4 (pn ++ "/appsettings.json") = true := by
    unfold hasTruthyFile
    rw [hf4, lookupFile_upsert_ne _ _ hAC, hf3, lookupFile_upsert_ne _ _ hAP, hf2,
      lookupFile, if_pos rfl]
    show truthy (JSVal.str s) = true
    rw [truthy, beq_eq_false_iff_ne.mpr hsne]
    rfl
  rw [scafStep_present ht3] at h5
  have hs6 : st6 = s4 := (Except.ok.inj h5).symm
  rw [addSolution_noTests] at hsol
  have hfS : st.files = upsert st6.files (solutionKey pn)
      (solutionContent pn (g 0) none (g 2)) :=
    addFile_ok_files (hasNonWs_solutionContent pn _ none _) hsol
  rw [hfS, lookupFile_upsert_ne _ _ hAS, hs6, hf4, lookupFile_upsert_ne _ _ hAC, hf3,
    lookupFile_upsert_ne _ _ hAP, hf2, lookupFile, if_pos rfl]


/-! ## Claim C6: materialization of a recognized section -/

/-- A response whose `Entity` section is a plain string and whose
`Controllers` map routes a member to the same default path: the later write
overwrites the Entity entry. -/
def c6CxInput : JSVal :=
  .obj [("Entity", .str "e-content"),
        ("Controllers", .obj [("A", .obj [("content", .str "Z"), ("Path", .str "Models"),
          ("FileName", .str "Employee.cs")])])]

/-- C6 (counterexample): the `Entity` section is a non-whitespace string, yet
the single FileTree entry at its default path
`Company.Project/Models/Employee.cs` holds `"Z"` — the content of a later
`Controllers` member steered to the same path — not the section's input
string `"e-content"`: writes are last-write-wins upserts. -/
theorem c6_counterexample :
    getFieldD c6CxInput "Entity" = .str "e-content" ∧
    hasNonWs "e-content" = true ∧
    (parseCSharpStructure c6CxInput .undef .undef (fun _ => "")).map
      (fun stx => lookupFile stx.files "Company.Project/Models/Employee.cs") =
      .ok (some "Z") :=
  ⟨rfl, by decide, rfl⟩

/-- Key-disjointness of a mapping-table segment against a section key, read
off the (closed) list of table keys. -/
theorem skip_of_keys {sect : String} {l : List (String × String × String)}
    (ks : List String) (hk : l.map (fun x => x.1) = ks)
    (hq : ∀ q ∈ ks, (sect == q) = false) :
    ∀ e' ∈ l, (sect == e'.1) = false := fun e' he' =>
  hq e'.1 (hk ▸ List.mem_map_of_mem (fun x => x.1) he')

/-- The generic single-section run whose materialized path collides with no
scaffolding path and not with the solution manifest. -/
theorem c6_case_normal {sect dp dn cn pn : String} {v : JSVal} {s : String}
    {g : Nat → String} {st1 st6 st : FileStruct} {r : JSVal}
    (l1 l2 : List (String × String × String))
    (hsplit : fileTypeMapping cn = l1 ++ (sect, dp, dn) :: l2)
    (h1 : ∀ e' ∈ l1, (sect == e'.1) = false)
    (h2 : ∀ e' ∈ l2, (sect == e'.1) = false)
    (hvt : truthy v = true) (hvc : sectContent v = .str s)
    (hst : truthy (JSVal.str s) = true)
    (hvp : getFieldD v "Path" = .undef) (hvf : getFieldD v "FileName" = .undef)
    (hs : hasNonWs s = true)
    (hm1 : foldSt (processSection (.obj [(sect, v)]) pn) (initStructure pn)
      (fileTypeMapping cn) = .ok st1)
    (hscaf : addScaffolding cn pn st1 = .ok st6)
    (hsol : addSolution r .undef .undef pn g st6 = .ok st)
    (K : String)
    (hK : fullPathOf pn (stripTrailingSlash (stripLeadingDotSlash dp)) (.str dn) = K)
    (hne1 : K ≠ pn ++ "/Program.cs")
    (hne2 : K ≠ pn ++ "/" ++ pn ++ ".csproj")
    (hne3 : K ≠ pn ++ "/appsettings.json")
    (hneS : K ≠ solutionKey pn) :
    lookupFile st.files K = some s := by
  rw [hsplit] at hm1
  obtain ⟨stW, hW, hWf⟩ := processMapping_single l1 l2 h1 h2 hvt hvc hst hvp hvf hs
    (initStructure pn)
  rw [hW] at hm1
  have hst1 : stW = st1 := Except.ok.inj hm1
  rw [hK] at hWf
  have hf2 : st1.files = [(K, s)] := by
    rw [← hst1, hWf]
    rfl
  exact c6_finish hf2 hscaf hsol hne1 hne2 hne3 hneS

/-- The `Program` section run: the materialized path *is* the `Program.cs`
scaffolding path, so the default injection is skipped. -/
theorem c6_case_program {cn pn : String} {v : JSVal} {s : String}
    {g : Nat → String} {st1 st6 st : FileStruct} {r : JSVal}
    (l1 l2 : List (String × String × String))
    (hsplit : fileTypeMapping cn = l1 ++ ("Program", "", "Program.cs") :: l2)
    (h1 : ∀ e' ∈ l1, (("Program" : String) == e'.1) = false)
    (h2 : ∀ e' ∈ l2, (("Program" : String) == e'.1) = false)
    (hvt : truthy v = true) (hvc : sectContent v = .str s)
    (hst : truthy (JSVal.str s) = true)
    (hvp : getFieldD v "Path" = .undef) (hvf : getFieldD v "FileName" = .undef)
    (hs : hasNonWs s = true) (hsne : s ≠ "")
    (hm1 : foldSt (processSection (.obj [("Program", v)]) pn) (initStructure pn)
      (fileTypeMapping cn) = .ok st1)
    (hscaf : addScaffolding cn pn st1 = .ok st6)
    (hsol : addSolution r .undef .undef pn g st6 = .ok st) :
    lookupFile st.files (pn ++ "/Program.cs") = some s := by
  rw [hsplit] at hm1
  obtain ⟨stW, hW, hWf⟩ := processMapping_single l1 l2 h1 h2 hvt hvc hst hvp hvf hs
    (initStructure pn)
  rw [hW] at hm1
  have hst1 : stW = st1 := Except.ok.inj hm1
  have hK : fullPathOf pn (stripTrailingSlash (stripLeadingDotSlash ""))
      (.str "Program.cs") = pn ++ "/Program.cs" := by
    show pn ++ "/" ++ "Program.cs" = _
    rw [String.append_assoc]
    rfl
  rw [hK] at hWf
  have hf2 : st1.files = [(pn ++ "/Program.cs", s)] := by
    rw [← hst1, hWf]
    rfl
  exact c6_finish_program hsne hf2 hscaf hsol

/-- The `AppSettings` section run: the materialized path *is* the
`appsettings.json` scaffolding path, so the default injection is skipped. -/
theorem c6_case_appsettings {cn pn : String} {v : JSVal} {s : String}
    {g : Nat → String} {st1 st6 st : FileStruct} {r : JSVal}
    (l1 l2 : List (String × String × String))
    (hsplit : fileTypeMapping cn = l1 ++ ("AppSettings", "", "appsettings.json") :: l2)
    (h1 : ∀ e' ∈ l1, (("AppSettings" : String) == e'.1) = false)
    (h2 : ∀ e' ∈ l2, (("AppSettings" : String) == e'.1) = false)
    (hvt : truthy v = true) (hvc : sectContent v = .str s)
    (hst : truthy (JSVal.str s) = true)
    (hvp : getFieldD v "Path" = .undef) (hvf : getFieldD v "FileName" = .undef)
    (hs : hasNonWs s = true) (hsne : s ≠ "")
    (hm1 : foldSt (processSection (.obj [("AppSettings", v)]) pn) (initStructure pn)
      (fileTypeMapping cn) = .ok st1)
    (hscaf : addScaffolding cn pn st1 = .ok st6)
    (hsol : addSolution r .undef .undef pn g st6 = .ok st) :
    lookupFile st.files (pn ++ "/appsettings.json") = some s := by
  rw [hsplit] at hm1
  obtain ⟨stW, hW, hWf⟩ := processMapping_single l1 l2 h1 h2 hvt hvc hst hvp hvf hs
    (initStructure pn)
  rw [hW] at hm1
  have hst1 : stW = st1 := Except.ok.inj hm1
  have hK : fullPathOf pn (stripTrailingSlash (stripLeadingDotSlash ""))
      (.str "appsettings.json") = pn ++ "/appsettings.json" := by
    show pn ++ "/" ++ "appsettings.json" = _
    rw [String.append_assoc]
    rfl
  rw [hK] at hWf
  have hf2 : st1.files = [(pn ++ "/appsettings.json", s)] := by
    rw [← hst1, hWf]
    rfl
  exact c6_finish_appsettings hsne hf2 hscaf hsol

/-- C6 (amended): for a response carrying exactly one recognized section,
whose value is a non-whitespace string or an object with a non-whitespace
string `content` (and no `Path`/`FileName` overrides), a successful pass of
the C# Normalizer stores that section at its default path — derived from the
inferred class and project names — with the input string as content, entirely
unmodified, and the FileTree's paths are duplicate-free.  (The end-to-end
claim fails for responses with several sections because the file map is a
last-write-wins upsert; see the counterexample.) -/
theorem c6_amended (cn pn : String) (e : String × String × String) (v : JSVal)
    (s : String) (g : Nat → String) (st : FileStruct)
    (he : e ∈ fileTypeMapping cn)
    (hv : v = .str s ∨ v = .obj [("content", .str s)])
    (hs : hasNonWs s = true)
    (hid : inferIdentityE (.obj [(e.1, v)]) = .ok (cn, pn))
    (h : parseCSharpStructure (.obj [(e.1, v)]) .undef .undef g = .ok st) :
    lookupFile st.files
      (fullPathOf pn (stripTrailingSlash (stripLeadingDotSlash e.2.1)) (.str e.2.2)) =
      some s ∧ (keysOf st.files).Nodup := by
  obtain ⟨sect, dp, dn⟩ := e
  dsimp only at hid h ⊢
  have hsne : s ≠ "" := by
    intro hc
    rw [hc] at hs
    exact absurd hs (by decide)
  have hst : truthy (JSVal.str s) = true := by
    rw [truthy, beq_eq_false_iff_ne.mpr hsne]
    rfl
  obtain ⟨hvt, hvc, hvp, hvf⟩ :
      truthy v = true ∧ sectContent v = .str s ∧
        getFieldD v "Path" = .undef ∧ getFieldD v "FileName" = .undef := by
    rcases hv with hv | hv <;> subst hv
    · exact ⟨hst, rfl, rfl, rfl⟩
    · refine ⟨rfl, ?_, rfl, rfl⟩
      show jsOr (.str s) (.str "") = .str s
      rw [jsOr, if_pos hst]
  have hsmem : sect ∈ ["Entity", "Repository", "RepositoryImpl", "Service", "ServiceImpl",
      "Controller", "DbContext", "Program", "Startup", "AppSettings", "AppSettingsDev",
      "AppSettingsProd", "DTO", "Validator", "Mapper", "Middleware", "Extension",
      "Helper", "Configuration"] := by
    have hm := List.mem_map_of_mem (fun x : String × String × String => x.1) he
    rw [show (fileTypeMapping cn).map (fun x : String × String × String => x.1) =
      ["Entity", "Repository", "RepositoryImpl", "Service", "ServiceImpl",
       "Controller", "DbContext", "Program", "Startup", "AppSettings", "AppSettingsDev",
       "AppSettingsProd", "DTO", "Validator", "Mapper", "Middleware", "Extension",
       "Helper", "Configuration"] from rfl] at hm
    exact hm
  have hkey : ∀ q : String,
      q ∉ (["Entity", "Repository", "RepositoryImpl", "Service", "ServiceImpl",
        "Controller", "DbContext", "Program", "Startup", "AppSettings", "AppSettingsDev",
        "AppSettingsProd", "DTO", "Validator", "Mapper", "Middleware", "Extension",
        "Helper", "Configuration"] : List String) → (sect == q) = false := by
    intro q hq
    refine beq_eq_false_iff_ne.mpr ?_
    intro hqe
    rw [hqe] at hsmem
    exact hq hsmem
  have hcc : (sect == "convertedCode") = false := hkey _ (by decide)
  have hctr : (sect == "Controllers") = false := hkey _ (by decide)
  have hmod : (sect == "Models") = false := hkey _ (by decide)
  have hsrv : (sect == "Services") = false := hkey _ (by decide)
  have hrep : (sect == "Repositories") = false := hkey _ (by decide)
  unfold parseCSharpStructure at h
  rw [bind_ok_iff] at h
  rcases h with ⟨⟨cnx, pnx, st7⟩, hcore, hsol⟩
  have hnodup : (keysOf st.files).Nodup :=
    (((normalizeCore_extends hcore).trans (addSolution_extends hsol)).2 goodFiles_nil).1
  unfold normalizeCore at hcore
  rw [bind_ok_iff] at hcore
  rcases hcore with ⟨cc, hccE, hcore⟩
  have hccv : cc = JSVal.undef := by
    have hcv : getFieldE (.obj [(sect, v)]) "convertedCode" = .ok JSVal.undef := by
      simp [getFieldE, getFieldD, List.find?, hcc]
    rw [hcv] at hccE
    exact (Except.ok.inj hccE).symm
  subst hccv
  rw [show jsOr JSVal.undef (JSVal.obj [(sect, v)]) = JSVal.obj [(sect, v)] from rfl] at hcore
  rw [bind_ok_iff] at hcore
  rcases hcore with ⟨⟨cny, pny⟩, hid2, hcore⟩
  rw [hid] at hid2
  have hpair := Except.ok.inj hid2
  injection hpair with hc1 hc2
  subst hc1
  subst hc2
  rw [bind_ok_iff] at hcore
  rcases hcore with ⟨st1, hm1, hcore⟩
  rw [bind_ok_iff] at hcore
  rcases hcore with ⟨st2, hp1, hcore⟩
  rw [processPluralCM_skip hctr] at hp1
  have h21 : st1 = st2 := Except.ok.inj hp1
  subst h21
  rw [bind_ok_iff] at hcore
  rcases hcore with ⟨st3, hp2, hcore⟩
  rw [processPluralCM_skip hmod] at hp2
  have h32 : st1 = st3 := Except.ok.inj hp2
  subst h32
  rw [bind_ok_iff] at hcore
  rcases hcore with ⟨st4, hq1, hcore⟩
  rw [processSR_skip hsrv] at hq1
  have h43 : st1 = st4 := Except.ok.inj hq1
  subst h43
  rw [bind_ok_iff] at hcore
  rcases hcore with ⟨st5, hq2, hcore⟩
  rw [processSR_skip hrep] at hq2
  have h54 : st1 = st5 := Except.ok.inj hq2
  subst h54
  rw [bind_ok_iff] at hcore
  rcases hcore with ⟨st6, hscaf, hcore⟩
  rw [bind_ok_iff] at hcore
  rcases hcore with ⟨st7x, htb, hcore⟩
  rw [processTestsBlock_noTests] at htb
  have h76 : st6 = st7x := Except.ok.inj htb
  subst h76
  have htrip := Except.ok.inj hcore
  injection htrip with hA htrip
  injection htrip with hB hC
  subst hA
  subst hB
  subst hC
  refine ⟨?_, hnodup⟩
  fin_cases he
  · have hK : fullPathOf pn (stripTrailingSlash (stripLeadingDotSlash "Models"))
        (.str (cn ++ ".cs")) = pn ++ ("/Models/" ++ (cn ++ ".cs")) := by
      show pn ++ "/" ++ "Models" ++ "/" ++ (cn ++ ".cs") = _
      rw [String.append_assoc, String.append_assoc, String.append_assoc]
      rfl
    have hnn : ((cn ++ ".cs") : String).data ≠ [] := strData_append_ne_nil_right cn (by decide)
    have hlast : (pn ++ ("/Models/" ++ (cn ++ ".cs"))).data.getLast? = some 's' := by
      rw [strData_getLast_append pn (strData_append_ne_nil_right "/Models/" hnn),
        strData_getLast_append "/Models/" hnn, strData_getLast_append cn (by decide)]
      decide
    rw [hK]
    exact c6_case_normal []
      [("Repository", "Repositories/Interfaces", "I" ++ cn ++ "Repository.cs"),
        ("RepositoryImpl", "Repositories", cn ++ "Repository.cs"),
        ("Service", "Services/Interfaces", "I" ++ cn ++ "Service.cs"),
        ("ServiceImpl", "Services", cn ++ "Service.cs"),
        ("Controller", "Controllers", cn ++ "Controller.cs"),
        ("DbContext", "Data", "ApplicationDbContext.cs"),
        ("Program", "", "Program.cs"),
        ("Startup", "", "Startup.cs"),
        ("AppSettings", "", "appsettings.json"),
        ("AppSettingsDev", "", "appsettings.Development.json"),
        ("AppSettingsProd", "", "appsettings.Production.json"),
        ("DTO", "DTOs", cn ++ "DTO.cs"),
        ("Validator", "Validators", cn ++ "Validator.cs"),
        ("Mapper", "Mappers", cn ++ "Mapper.cs"),
        ("Middleware", "Middleware", "CustomMiddleware.cs"),
        ("Extension", "Extensions", "ServiceExtensions.cs"),
        ("Helper", "Helpers", "ApplicationHelper.cs"),
        ("Configuration", "Configuration", "AppConfiguration.cs")]
      rfl (skip_of_keys ([] : List String) rfl (by decide))
      (skip_of_keys ["Repository", "RepositoryImpl", "Service", "ServiceImpl", "Controller", "DbContext", "Program", "Startup", "AppSettings", "AppSettingsDev", "AppSettingsProd", "DTO", "Validator", "Mapper", "Middleware", "Extension", "Helper", "Configuration"]
        rfl (by decide))
      hvt hvc hst hvp hvf hs hm1 hscaf hsol _ hK
      (strAppend_ne_of_ne pn (ne_of_isPrefixOf_false (by decide) _))
      (ne_of_getLast hlast (csprojKey_getLast pn) (by decide))
      (strAppend_ne_of_ne pn (ne_of_isPrefixOf_false (by decide) _))
      (ne_of_getLast hlast (solKey_getLast pn) (by decide))
  · have hK : fullPathOf pn (stripTrailingSlash (stripLeadingDotSlash "Repositories/Interfaces"))
        (.str ("I" ++ cn ++ "Repository.cs")) = pn ++ ("/Repositories/Interfaces/" ++ ("I" ++ cn ++ "Repository.cs")) := by
      show pn ++ "/" ++ "Repositories/Interfaces" ++ "/" ++ ("I" ++ cn ++ "Repository.cs") = _
      rw [String.append_assoc, String.append_assoc, String.append_assoc]
      rfl
    have hnn : (("I" ++ cn ++ "Repository.cs") : String).data ≠ [] := strData_append_ne_nil_right ("I" ++ cn) (by decide)
    have hlast : (pn ++ ("/Repositories/Interfaces/" ++ ("I" ++ cn ++ "Repository.cs"))).data.getLast? = some 's' := by
      rw [strData_getLast_append pn (strData_append_ne_nil_right "/Repositories/Interfaces/" hnn),
        strData_getLast_append "/Repositories/Interfaces/" hnn, strData_getLast_append ("I" ++ cn) (by decide)]
      decide
    rw [hK]
    exact c6_case_normal [("Entity", "Models", cn ++ ".cs")]
      [("RepositoryImpl", "Repositories", cn ++ "Repository.cs"),
        ("Service", "Services/Interfaces", "I" ++ cn ++ "Service.cs"),
        ("ServiceImpl", "Services", cn ++ "Service.cs"),
        ("Controller", "Controllers", cn ++ "Controller.cs"),
        ("DbContext", "Data", "ApplicationDbContext.cs"),
        ("Program", "", "Program.cs"),
        ("Startup", "", "Startup.cs"),
        ("AppSettings", "", "appsettings.json"),
        ("AppSettingsDev", "", "appsettings.Development.json"),
        ("AppSettingsProd", "", "appsettings.Production.json"),
        ("DTO", "DTOs", cn ++ "DTO.cs"),
        ("Validator", "Validators", cn ++ "Validator.cs"),
        ("Mapper", "Mappers", cn ++ "Mapper.cs"),
        ("Middleware", "Middleware", "CustomMiddleware.cs"),
        ("Extension", "Extensions", "ServiceExtensions.cs"),
        ("Helper", "Helpers", "ApplicationHelper.cs"),
        ("Configuration", "Configuration", "AppConfiguration.cs")]
      rfl (skip_of_keys ["Entity"] rfl (by decide))
      (skip_of_keys ["RepositoryImpl", "Service", "ServiceImpl", "Controller", "DbContext", "Program", "Startup", "AppSettings", "AppSettingsDev", "AppSettingsProd", "DTO", "Validator", "Mapper", "Middleware", "Extension", "Helper", "Configuration"]
        rfl (by decide))
      hvt hvc hst hvp hvf hs hm1 hscaf hsol _ hK
      (strAppend_ne_of_ne pn (ne_of_isPrefixOf_false (by decide) _))
      (ne_of_getLast hlast (csprojKey_getLast pn) (by decide))
      (strAppend_ne_of_ne pn (ne_of_isPrefixOf_false (by decide) _))
      (ne_of_getLast hlast (solKey_getLast pn) (by decide))
  · have hK : fullPathOf pn (stripTrailingSlash (stripLeadingDotSlash "Repositories"))
        (.str (cn ++ "Repository.cs")) = pn ++ ("/Repositories/" ++ (cn ++ "Repository.cs")) := by
      show pn ++ "/" ++ "Repositories" ++ "/" ++ (cn ++ "Repository.cs") = _
      rw [String.append_assoc, String.append_assoc, String.append_assoc]
      rfl
    have hnn : ((cn ++ "Repository.cs") : String).data ≠ [] := strData_append_ne_nil_right cn (by decide)
    have hlast : (pn ++ ("/Repositories/" ++ (cn ++ "Repository.cs"))).data.getLast? = some 's' := by
      rw [strData_getLast_append pn (strData_append_ne_nil_right "/Repositories/" hnn),
        strData_getLast_append "/Repositories/" hnn, strData_getLast_append cn (by decide)]
      decide
    rw [hK]
    exact c6_case_normal [("Entity", "Models", cn ++ ".cs"),
        ("Repository", "Repositories/Interfaces", "I" ++ cn ++ "Repository.cs")]
      [("Service", "Services/Interfaces", "I" ++ cn ++ "Service.cs"),
        ("ServiceImpl", "Services", cn ++ "Service.cs"),
        ("Controller", "Controllers", cn ++ "Controller.cs"),
        ("DbContext", "Data", "ApplicationDbContext.cs"),
        ("Program", "", "Program.cs"),
        ("Startup", "", "Startup.cs"),
        ("AppSettings", "", "appsettings.json"),
        ("AppSettingsDev", "", "appsettings.Development.json"),
        ("AppSettingsProd", "", "appsettings.Production.json"),
        ("DTO", "DTOs", cn ++ "DTO.cs"),
        ("Validator", "Validators", cn ++ "Validator.cs"),
        ("Mapper", "Mappers", cn ++ "Mapper.cs"),
        ("Middleware", "Middleware", "CustomMiddleware.cs"),
        ("Extension", "Extensions", "ServiceExtensions.cs"),
        ("Helper", "Helpers", "ApplicationHelper.cs"),
        ("Configuration", "Configuration", "AppConfiguration.cs")]
      rfl (skip_of_keys ["Entity", "Repository"] rfl (by decide))
      (skip_of_keys ["Service", "ServiceImpl", "Controller", "DbContext", "Program", "Startup", "AppSettings", "AppSettingsDev", "AppSettingsProd", "DTO", "Validator", "Mapper", "Middleware", "Extension", "Helper", "Configuration"]
        rfl (by decide))
      hvt hvc hst hvp hvf hs hm1 hscaf hsol _ hK
      (strAppend_ne_of_ne pn (ne_of_isPrefixOf_false (by decide) _))
      (ne_of_getLast hlast (csprojKey_getLast pn) (by decide))
      (strAppend_ne_of_ne pn (ne_of_isPrefixOf_false (by decide) _))
      (ne_of_getLast hlast (solKey_getLast pn) (by decide))
  · have hK : fullPathOf pn (stripTrailingSlash (stripLeadingDotSlash "Services/Interfaces"))
        (.str ("I" ++ cn ++ "Service.cs")) = pn ++ ("/Services/Interfaces/" ++ ("I" ++ cn ++ "Service.cs")) := by
      show pn ++ "/" ++ "Services/Interfaces" ++ "/" ++ ("I" ++ cn ++ "Service.cs") = _
      rw [String.append_assoc, String.append_assoc, String.append_assoc]
      rfl
    have hnn : (("I" ++ cn ++ "Service.cs") : String).data ≠ [] := strData_append_ne_nil_right ("I" ++ cn) (by decide)
    have hlast : (pn ++ ("/Services/Interfaces/" ++ ("I" ++ cn ++ "Service.cs"))).data.getLast? = some 's' := by
      rw [strData_getLast_append pn (strData_append_ne_nil_right "/Services/Interfaces/" hnn),
        strData_getLast_append "/Services/Interfaces/" hnn, strData_getLast_append ("I" ++ cn) (by decide)]
      decide
    rw [hK]
    exact c6_case_normal [("Entity", "Models", cn ++ ".cs"),
        ("Repository", "Repositories/Interfaces", "I" ++ cn ++ "Repository.cs"),
        ("RepositoryImpl", "Repositories", cn ++ "Repository.cs")]
      [("ServiceImpl", "Services", cn ++ "Service.cs"),
        ("Controller", "Controllers", cn ++ "Controller.cs"),
        ("DbContext", "Data", "ApplicationDbContext.cs"),
        ("Program", "", "Program.cs"),
        ("Startup", "", "Startup.cs"),
        ("AppSettings", "", "appsettings.json"),
        ("AppSettingsDev", "", "appsettings.Development.json"),
        ("AppSettingsProd", "", "appsettings.Production.json"),
        ("DTO", "DTOs", cn ++ "DTO.cs"),
        ("Validator", "Validators", cn ++ "Validator.cs"),
        ("Mapper", "Mappers", cn ++ "Mapper.cs"),
        ("Middleware", "Middleware", "CustomMiddleware.cs"),
        ("Extension", "Extensions", "ServiceExtensions.cs"),
        ("Helper", "Helpers", "ApplicationHelper.cs"),
        ("Configuration", "Configuration", "AppConfiguration.cs")]
      rfl (skip_of_keys ["Entity", "Repository", "RepositoryImpl"] rfl (by decide))
      (skip_of_keys ["ServiceImpl", "Controller", "DbContext", "Program", "Startup", "AppSettings", "AppSettingsDev", "AppSettingsProd", "DTO", "Validator", "Mapper", "Middleware", "Extension", "Helper", "Configuration"]
        rfl (by decide))
      hvt hvc hst hvp hvf hs hm1 hscaf hsol _ hK
      (strAppend_ne_of_ne pn (ne_of_isPrefixOf_false (by decide) _))
      (ne_of_getLast hlast (csprojKey_getLast pn) (by decide))
      (strAppend_ne_of_ne pn (ne_of_isPrefixOf_false (by decide) _))
      (ne_of_getLast hlast (solKey_getLast pn) (by decide))
  · have hK : fullPathOf pn (stripTrailingSlash (stripLeadingDotSlash "Services"))
        (.str (cn ++ "Service.cs")) = pn ++ ("/Services/" ++ (cn ++ "Service.cs")) := by
      show pn ++ "/" ++ "Services" ++ "/" ++ (cn ++ "Service.cs") = _
      rw [String.append_assoc, String.append_assoc, String.append_assoc]
      rfl
    have hnn : ((cn ++ "Service.cs") : String).data ≠ [] := strData_append_ne_nil_right cn (by decide)
    have hlast : (pn ++ ("/Services/" ++ (cn ++ "Service.cs"))).data.getLast? = some 's' := by
      rw [strData_getLast_append pn (strData_append_ne_nil_right "/Services/" hnn),
        strData_getLast_append "/Services/" hnn, strData_getLast_append cn (by decide)]
      decide
    rw [hK]
    exact c6_case_normal [("Entity", "Models", cn ++ ".cs"),
        ("Repository", "Repositories/Interfaces", "I" ++ cn ++ "Repository.cs"),
        ("RepositoryImpl", "Repositories", cn ++ "Repository.cs"),
        ("Service", "Services/Interfaces", "I" ++ cn ++ "Service.cs")]
      [("Controller", "Controllers", cn ++ "Controller.cs"),
        ("DbContext", "Data", "ApplicationDbContext.cs"),
        ("Program", "", "Program.cs"),
        ("Startup", "", "Startup.cs"),
        ("AppSettings", "", "appsettings.json"),
        ("AppSettingsDev", "", "appsettings.Development.json"),
        ("AppSettingsProd", "", "appsettings.Production.json"),
        ("DTO", "DTOs", cn ++ "DTO.cs"),
        ("Validator", "Validators", cn ++ "Validator.cs"),
        ("Mapper", "Mappers", cn ++ "Mapper.cs"),
        ("Middleware", "Middleware", "CustomMiddleware.cs"),
        ("Extension", "Extensions", "ServiceExtensions.cs"),
        ("Helper", "Helpers", "ApplicationHelper.cs"),
        ("Configuration", "Configuration", "AppConfiguration.cs")]
      rfl (skip_of_keys ["Entity", "Repository", "RepositoryImpl", "Service"] rfl (by decide))
      (skip_of_keys ["Controller", "DbContext", "Program", "Startup", "AppSettings", "AppSettingsDev", "AppSettingsProd", "DTO", "Validator", "Mapper", "Middleware", "Extension", "Helper", "Configuration"]
        rfl (by decide))
      hvt hvc hst hvp hvf hs hm1 hscaf hsol _ hK
      (strAppend_ne_of_ne pn (ne_of_isPrefixOf_false (by decide) _))
      (ne_of_getLast hlast (csprojKey_getLast pn) (by decide))
      (strAppend_ne_of_ne pn (ne_of_isPrefixOf_false (by decide) _))
      (ne_of_getLast hlast (solKey_getLast pn) (by decide))
  · have hK : fullPathOf pn (stripTrailingSlash (stripLeadingDotSlash "Controllers"))
        (.str (cn ++ "Controller.cs")) = pn ++ ("/Controllers/" ++ (cn ++ "Controller.cs")) := by
      show pn ++ "/" ++ "Controllers" ++ "/" ++ (cn ++ "Controller.cs") = _
      rw [String.append_assoc, String.append_assoc, String.append_assoc]
      rfl
    have hnn : ((cn ++ "Controller.cs") : String).data ≠ [] := strData_append_ne_nil_right cn (by decide)
    have hlast : (pn ++ ("/Controllers/" ++ (cn ++ "Controller.cs"))).data.getLast? = some 's' := by
      rw [strData_getLast_append pn (strData_append_ne_nil_right "/Controllers/" hnn),
        strData_getLast_append "/Controllers/" hnn, strData_getLast_append cn (by decide)]
      decide
    rw [hK]
    exact c6_case_normal [("Entity", "Models", cn ++ ".cs"),
        ("Repository", "Repositories/Interfaces", "I" ++ cn ++ "Repository.cs"),
        ("RepositoryImpl", "Repositories", cn ++ "Repository.cs"),
        ("Service", "Services/Interfaces", "I" ++ cn ++ "Service.cs"),
        ("ServiceImpl", "Services", cn ++ "Service.cs")]
      [("DbContext", "Data", "ApplicationDbContext.cs"),
        ("Program", "", "Program.cs"),
        ("Startup", "", "Startup.cs"),
        ("AppSettings", "", "appsettings.json"),
        ("AppSettingsDev", "", "appsettings.Development.json"),
        ("AppSettingsProd", "", "appsettings.Production.json"),
        ("DTO", "DTOs", cn ++ "DTO.cs"),
        ("Validator", "Validators", cn ++ "Validator.cs"),
        ("Mapper", "Mappers", cn ++ "Mapper.cs"),
        ("Middleware", "Middleware", "CustomMiddleware.cs"),
        ("Extension", "Extensions", "ServiceExtensions.cs"),
        ("Helper", "Helpers", "ApplicationHelper.cs"),
        ("Configuration", "Configuration", "AppConfiguration.cs")]
      rfl (skip_of_keys ["Entity", "Repository", "RepositoryImpl", "Service", "ServiceImpl"] rfl (by decide))
      (skip_of_keys ["DbContext", "Program", "Startup", "AppSettings", "AppSettingsDev", "AppSettingsProd", "DTO", "Validator", "Mapper", "Middleware", "Extension", "Helper", "Configuration"]
        rfl (by decide))
      hvt hvc hst hvp hvf hs hm1 hscaf hsol _ hK
      (strAppend_ne_of_ne pn (ne_of_isPrefixOf_false (by decide) _))
      (ne_of_getLast hlast (csprojKey_getLast pn) (by decide))
      (strAppend_ne_of_ne pn (ne_of_isPrefixOf_false (by decide) _))
      (ne_of_getLast hlast (solKey_getLast pn) (by decide))
  · have hK : fullPathOf pn (stripTrailingSlash (stripLeadingDotSlash "Data"))
        (.str "ApplicationDbContext.cs") = pn ++ "/Data/ApplicationDbContext.cs" := by
      show pn ++ "/" ++ "Data" ++ "/" ++ "ApplicationDbContext.cs" = _
      rw [String.append_assoc, String.append_assoc, String.append_assoc]
      rfl
    have hlast : (pn ++ "/Data/ApplicationDbContext.cs").data.getLast? = some 's' := by
      rw [strData_getLast_append pn (by decide)]
      decide
    rw [hK]
    exact c6_case_normal [("Entity", "Models", cn ++ ".cs"),
        ("Repository", "Repositories/Interfaces", "I" ++ cn ++ "Repository.cs"),
        ("RepositoryImpl", "Repositories", cn ++ "Repository.cs"),
        ("Service", "Services/Interfaces", "I" ++ cn ++ "Service.cs"),
        ("ServiceImpl", "Services", cn ++ "Service.cs"),
        ("Controller", "Controllers", cn ++ "Controller.cs")]
      [("Program", "", "Program.cs"),
        ("Startup", "", "Startup.cs"),
        ("AppSettings", "", "appsettings.json"),
        ("AppSettingsDev", "", "appsettings.Development.json"),
        ("AppSettingsProd", "", "appsettings.Production.json"),
        ("DTO", "DTOs", cn ++ "DTO.cs"),
        ("Validator", "Validators", cn ++ "Validator.cs"),
        ("Mapper", "Mappers", cn ++ "Mapper.cs"),
        ("Middleware", "Middleware", "CustomMiddleware.cs"),
        ("Extension", "Extensions", "ServiceExtensions.cs"),
        ("Helper", "Helpers", "ApplicationHelper.cs"),
        ("Configuration", "Configuration", "AppConfiguration.cs")]
      rfl (skip_of_keys ["Entity", "Repository", "RepositoryImpl", "Service", "ServiceImpl", "Controller"] rfl (by decide))
      (skip_of_keys ["Program", "Startup", "AppSettings", "AppSettingsDev", "AppSettingsProd", "DTO", "Validator", "Mapper", "Middleware", "Extension", "Helper", "Configuration"]
        rfl (by decide))
      hvt hvc hst hvp hvf hs hm1 hscaf hsol _ hK
      (strAppend_ne_of_ne pn (by decide))
      (ne_of_getLast hlast (csprojKey_getLast pn) (by decide))
      (strAppend_ne_of_ne pn (by decide))
      (ne_of_getLast hlast (solKey_getLast pn) (by decide))
  · have hK : fullPathOf pn (stripTrailingSlash (stripLeadingDotSlash ""))
        (.str "Program.cs") = pn ++ "/Program.cs" := by
      show pn ++ "/" ++ "Program.cs" = _
      rw [String.append_assoc]
      rfl
    rw [hK]
    exact c6_case_program [("Entity", "Models", cn ++ ".cs"),
        ("Repository", "Repositories/Interfaces", "I" ++ cn ++ "Repository.cs"),
        ("RepositoryImpl", "Repositories", cn ++ "Repository.cs"),
        ("Service", "Services/Interfaces", "I" ++ cn ++ "Service.cs"),
        ("ServiceImpl", "Services", cn ++ "Service.cs"),
        ("Controller", "Controllers", cn ++ "Controller.cs"),
        ("DbContext", "Data", "ApplicationDbContext.cs")]
      [("Startup", "", "Startup.cs"),
        ("AppSettings", "", "appsettings.json"),
        ("AppSettingsDev", "", "appsettings.Development.json"),
        ("AppSettingsProd", "", "appsettings.Production.json"),
        ("DTO", "DTOs", cn ++ "DTO.cs"),
        ("Validator", "Validators", cn ++ "Validator.cs"),
        ("Mapper", "Mappers", cn ++ "Mapper.cs"),
        ("Middleware", "Middleware", "CustomMiddleware.cs"),
        ("Extension", "Extensions", "ServiceExtensions.cs"),
        ("Helper", "Helpers", "ApplicationHelper.cs"),
        ("Configuration", "Configuration", "AppConfiguration.cs")]
      rfl (skip_of_keys ["Entity", "Repository", "RepositoryImpl", "Service", "ServiceImpl", "Controller", "DbContext"] rfl (by decide))
      (skip_of_keys ["Startup", "AppSettings", "AppSettingsDev", "AppSettingsProd", "DTO", "Validator", "Mapper", "Middleware", "Extension", "Helper", "Configuration"]
        rfl (by decide))
      hvt hvc hst hvp hvf hs hsne hm1 hscaf hsol
  · have hK : fullPathOf pn (stripTrailingSlash (stripLeadingDotSlash ""))
        (.str "Startup.cs") = pn ++ "/Startup.cs" := by
      show pn ++ "/" ++ "Startup.cs" = _
      rw [String.append_assoc]
      rfl
    have hlast : (pn ++ "/Startup.cs").data.getLast? = some 's' := by
      rw [strData_getLast_append pn (by decide)]
      decide
    rw [hK]
    exact c6_case_normal [("Entity", "Models", cn ++ ".cs"),
        ("Repository", "Repositories/Interfaces", "I" ++ cn ++ "Repository.cs"),
        ("RepositoryImpl", "Repositories", cn ++ "Repository.cs"),
        ("Service", "Services/Interfaces", "I" ++ cn ++ "Service.cs"),
        ("ServiceImpl", "Services", cn ++ "Service.cs"),
        ("Controller", "Controllers", cn ++ "Controller.cs"),
        ("DbContext", "Data", "ApplicationDbContext.cs"),
        ("Program", "", "Program.cs")]
      [("AppSettings", "", "appsettings.json"),
        ("AppSettingsDev", "", "appsettings.Development.json"),
        ("AppSettingsProd", "", "appsettings.Production.json"),
        ("DTO", "DTOs", cn ++ "DTO.cs"),
        ("Validator", "Validators", cn ++ "Validator.cs"),
        ("Mapper", "Mappers", cn ++ "Mapper.cs"),
        ("Middleware", "Middleware", "CustomMiddleware.cs"),
        ("Extension", "Extensions", "ServiceExtensions.cs"),
        ("Helper", "Helpers", "ApplicationHelper.cs"),
        ("Configuration", "Configuration", "AppConfiguration.cs")]
      rfl (skip_of_keys ["Entity", "Repository", "RepositoryImpl", "Service", "ServiceImpl", "Controller", "DbContext", "Program"] rfl (by decide))
      (skip_of_keys ["AppSettings", "AppSettingsDev", "AppSettingsProd", "DTO", "Validator", "Mapper", "Middleware", "Extension", "Helper", "Configuration"]
        rfl (by decide))
      hvt hvc hst hvp hvf hs hm1 hscaf hsol _ hK
      (strAppend_ne_of_ne pn (by decide))
      (ne_of_getLast hlast (csprojKey_getLast pn) (by decide))
      (strAppend_ne_of_ne pn (by decide))
      (ne_of_getLast hlast (solKey_getLast pn) (by decide))
  · have hK : fullPathOf pn (stripTrailingSlash (stripLeadingDotSlash ""))
        (.str "appsettings.json") = pn ++ "/appsettings.json" := by
      show pn ++ "/" ++ "appsettings.json" = _
      rw [String.append_assoc]
      rfl
    rw [hK]
    exact c6_case_appsettings [("Entity", "Models", cn ++ ".cs"),
        ("Repository", "Repositories/Interfaces", "I" ++ cn ++ "Repository.cs"),
        ("RepositoryImpl", "Repositories", cn ++ "Repository.cs"),
        ("Service", "Services/Interfaces", "I" ++ cn ++ "Service.cs"),
        ("ServiceImpl", "Services", cn ++ "Service.cs"),
        ("Controller", "Controllers", cn ++ "Controller.cs"),
        ("DbContext", "Data", "ApplicationDbContext.cs"),
        ("Program", "", "Program.cs"),
        ("Startup", "", "Startup.cs")]
      [("AppSettingsDev", "", "appsettings.Development.json"),
        ("AppSettingsProd", "", "appsettings.Production.json"),
        ("DTO", "DTOs", cn ++ "DTO.cs"),
        ("Validator", "Validators", cn ++ "Validator.cs"),
        ("Mapper", "Mappers", cn ++ "Mapper.cs"),
        ("Middleware", "Middleware", "CustomMiddleware.cs"),
        ("Extension", "Extensions", "ServiceExtensions.cs"),
        ("Helper", "Helpers", "ApplicationHelper.cs"),
        ("Configuration", "Configuration", "AppConfiguration.cs")]
      rfl (skip_of_keys ["Entity", "Repository", "RepositoryImpl", "Service", "ServiceImpl", "Controller", "DbContext", "Program", "Startup"] rfl (by decide))
      (skip_of_keys ["AppSettingsDev", "AppSettingsProd", "DTO", "Validator", "Mapper", "Middleware", "Extension", "Helper", "Configuration"]
        rfl (by decide))
      hvt hvc hst hvp hvf hs hsne hm1 hscaf hsol
  · have hK : fullPathOf pn (stripTrailingSlash (stripLeadingDotSlash ""))
        (.str "appsettings.Development.json") = pn ++ "/appsettings.Development.json" := by
      show pn ++ "/" ++ "appsettings.Development.json" = _
      rw [String.append_assoc]
      rfl
    have hlast : (pn ++ "/appsettings.Development.json").data.getLast? = some 'n' := by
      rw [strData_getLast_append pn (by decide)]
      decide
    rw [hK]
    exact c6_case_normal [("Entity", "Models", cn ++ ".cs"),
        ("Repository", "Repositories/Interfaces", "I" ++ cn ++ "Repository.cs"),
        ("RepositoryImpl", "Repositories", cn ++ "Repository.cs"),
        ("Service", "Services/Interfaces", "I" ++ cn ++ "Service.cs"),
        ("ServiceImpl", "Services", cn ++ "Service.cs"),
        ("Controller", "Controllers", cn ++ "Controller.cs"),
        ("DbContext", "Data", "ApplicationDbContext.cs"),
        ("Program", "", "Program.cs"),
        ("Startup", "", "Startup.cs"),
        ("AppSettings", "", "appsettings.json")]
      [("AppSettingsProd", "", "appsettings.Production.json"),
        ("DTO", "DTOs", cn ++ "DTO.cs"),
        ("Validator", "Validators", cn ++ "Validator.cs"),
        ("Mapper", "Mappers", cn ++ "Mapper.cs"),
        ("Middleware", "Middleware", "CustomMiddleware.cs"),
        ("Extension", "Extensions", "ServiceExtensions.cs"),
        ("Helper", "Helpers", "ApplicationHelper.cs"),
        ("Configuration", "Configuration", "AppConfiguration.cs")]
      rfl (skip_of_keys ["Entity", "Repository", "RepositoryImpl", "Service", "ServiceImpl", "Controller", "DbContext", "Program", "Startup", "AppSettings"] rfl (by decide))
      (skip_of_keys ["AppSettingsProd", "DTO", "Validator", "Mapper", "Middleware", "Extension", "Helper", "Configuration"]
        rfl (by decide))
      hvt hvc hst hvp hvf hs hm1 hscaf hsol _ hK
      (strAppend_ne_of_ne pn (by decide))
      (ne_of_getLast hlast (csprojKey_getLast pn) (by decide))
      (strAppend_ne_of_ne pn (by decide))
      (solutionKey_ne_slash (by decide))
  · have hK : fullPathOf pn (stripTrailingSlash (stripLeadingDotSlash ""))
        (.str "appsettings.Production.json") = pn ++ "/appsettings.Production.json" := by
      show pn ++ "/" ++ "appsettings.Production.json" = _
      rw [String.append_assoc]
      rfl
    have hlast : (pn ++ "/appsettings.Production.json").data.getLast? = some 'n' := by
      rw [strData_getLast_append pn (by decide)]
      decide
    rw [hK]
    exact c6_case_normal [("Entity", "Models", cn ++ ".cs"),
        ("Repository", "Repositories/Interfaces", "I" ++ cn ++ "Repository.cs"),
        ("RepositoryImpl", "Repositories", cn ++ "Repository.cs"),
        ("Service", "Services/Interfaces", "I" ++ cn ++ "Service.cs"),
        ("ServiceImpl", "Services", cn ++ "Service.cs"),
        ("Controller", "Controllers", cn ++ "Controller.cs"),
        ("DbContext", "Data", "ApplicationDbContext.cs"),
        ("Program", "", "Program.cs"),
        ("Startup", "", "Startup.cs"),
        ("AppSettings", "", "appsettings.json"),
        ("AppSettingsDev", "", "appsettings.Development.json")]
      [("DTO", "DTOs", cn ++ "DTO.cs"),
        ("Validator", "Validators", cn ++ "Validator.cs"),
        ("Mapper", "Mappers", cn ++ "Mapper.cs"),
        ("Middleware", "Middleware", "CustomMiddleware.cs"),
        ("Extension", "Extensions", "ServiceExtensions.cs"),
        ("Helper", "Helpers", "ApplicationHelper.cs"),
        ("Configuration", "Configuration", "AppConfiguration.cs")]
      rfl (skip_of_keys ["Entity", "Repository", "RepositoryImpl", "Service", "ServiceImpl", "Controller", "DbContext", "Program", "Startup", "AppSettings", "AppSettingsDev"] rfl (by decide))
      (skip_of_keys ["DTO", "Validator", "Mapper", "Middleware", "Extension", "Helper", "Configuration"]
        rfl (by decide))
      hvt hvc hst hvp hvf hs hm1 hscaf hsol _ hK
      (strAppend_ne_of_ne pn (by decide))
      (ne_of_getLast hlast (csprojKey_getLast pn) (by decide))
      (strAppend_ne_of_ne pn (by decide))
      (solutionKey_ne_slash (by decide))
  · have hK : fullPathOf pn (stripTrailingSlash (stripLeadingDotSlash "DTOs"))
        (.str (cn ++ "DTO.cs")) = pn ++ ("/DTOs/" ++ (cn ++ "DTO.cs")) := by
      show pn ++ "/" ++ "DTOs" ++ "/" ++ (cn ++ "DTO.cs") = _
      rw [String.append_assoc, String.append_assoc, String.append_assoc]
      rfl
    have hnn : ((cn ++ "DTO.cs") : String).data ≠ [] := strData_append_ne_nil_right cn (by decide)
    have hlast : (pn ++ ("/DTOs/" ++ (cn ++ "DTO.cs"))).data.getLast? = some 's' := by
      rw [strData_getLast_append pn (strData_append_ne_nil_right "/DTOs/" hnn),
        strData_getLast_append "/DTOs/" hnn, strData_getLast_append cn (by decide)]
      decide
    rw [hK]
    exact c6_case_normal [("Entity", "Models", cn ++ ".cs"),
        ("Repository", "Repositories/Interfaces", "I" ++ cn ++ "Repository.cs"),
        ("RepositoryImpl", "Repositories", cn ++ "Repository.cs"),
        ("Service", "Services/Interfaces", "I" ++ cn ++ "Service.cs"),
        ("ServiceImpl", "Services", cn ++ "Service.cs"),
        ("Controller", "Controllers", cn ++ "Controller.cs"),
        ("DbContext", "Data", "ApplicationDbContext.cs"),
        ("Program", "", "Program.cs"),
        ("Startup", "", "Startup.cs"),
        ("AppSettings", "", "appsettings.json"),
        ("AppSettingsDev", "", "appsettings.Development.json"),
        ("AppSettingsProd", "", "appsettings.Production.json")]
      [("Validator", "Validators", cn ++ "Validator.cs"),
        ("Mapper", "Mappers", cn ++ "Mapper.cs"),
        ("Middleware", "Middleware", "CustomMiddleware.cs"),
        ("Extension", "Extensions", "ServiceExtensions.cs"),
        ("Helper", "Helpers", "ApplicationHelper.cs"),
        ("Configuration", "Configuration", "AppConfiguration.cs")]
      rfl (skip_of_keys ["Entity", "Repository", "RepositoryImpl", "Service", "ServiceImpl", "Controller", "DbContext", "Program", "Startup", "AppSettings", "AppSettingsDev", "AppSettingsProd"] rfl (by decide))
      (skip_of_keys ["Validator", "Mapper", "Middleware", "Extension", "Helper", "Configuration"]
        rfl (by decide))
      hvt hvc hst hvp hvf hs hm1 hscaf hsol _ hK
      (strAppend_ne_of_ne pn (ne_of_isPrefixOf_false (by decide) _))
      (ne_of_getLast hlast (csprojKey_getLast pn) (by decide))
      (strAppend_ne_of_ne pn (ne_of_isPrefixOf_false (by decide) _))
      (ne_of_getLast hlast (solKey_getLast pn) (by decide))
  · have hK : fullPathOf pn (stripTrailingSlash (stripLeadingDotSlash "Validators"))
        (.str (cn ++ "Validator.cs")) = pn ++ ("/Validators/" ++ (cn ++ "Validator.cs")) := by
      show pn ++ "/" ++ "Validators" ++ "/" ++ (cn ++ "Validator.cs") = _
      rw [String.append_assoc, String.append_assoc, String.append_assoc]
      rfl
    have hnn : ((cn ++ "Validator.cs") : String).data ≠ [] := strData_append_ne_nil_right cn (by decide)
    have hlast : (pn ++ ("/Validators/" ++ (cn ++ "Validator.cs"))).data.getLast? = some 's' := by
      rw [strData_getLast_append pn (strData_append_ne_nil_right "/Validators/" hnn),
        strData_getLast_append "/Validators/" hnn, strData_getLast_append cn (by decide)]
      decide
    rw [hK]
    exact c6_case_normal [("Entity", "Models", cn ++ ".cs"),
        ("Repository", "Repositories/Interfaces", "I" ++ cn ++ "Repository.cs"),
        ("RepositoryImpl", "Repositories", cn ++ "Repository.cs"),
        ("Service", "Services/Interfaces", "I" ++ cn ++ "Service.cs"),
        ("ServiceImpl", "Services", cn ++ "Service.cs"),
        ("Controller", "Controllers", cn ++ "Controller.cs"),
        ("DbContext", "Data", "ApplicationDbContext.cs"),
        ("Program", "", "Program.cs"),
        ("Startup", "", "Startup.cs"),
        ("AppSettings", "", "appsettings.json"),
        ("AppSettingsDev", "", "appsettings.Development.json"),
        ("AppSettingsProd", "", "appsettings.Production.json"),
        ("DTO", "DTOs", cn ++ "DTO.cs")]
      [("Mapper", "Mappers", cn ++ "Mapper.cs"),
        ("Middleware", "Middleware", "CustomMiddleware.cs"),
        ("Extension", "Extensions", "ServiceExtensions.cs"),
        ("Helper", "Helpers", "ApplicationHelper.cs"),
        ("Configuration", "Configuration", "AppConfiguration.cs")]
      rfl (skip_of_keys ["Entity", "Repository", "RepositoryImpl", "Service", "ServiceImpl", "Controller", "DbContext", "Program", "Startup", "AppSettings", "AppSettingsDev", "AppSettingsProd", "DTO"] rfl (by decide))
      (skip_of_keys ["Mapper", "Middleware", "Extension", "Helper", "Configuration"]
        rfl (by decide))
      hvt hvc hst hvp hvf hs hm1 hscaf hsol _ hK
      (strAppend_ne_of_ne pn (ne_of_isPrefixOf_false (by decide) _))
      (ne_of_getLast hlast (csprojKey_getLast pn) (by decide))
      (strAppend_ne_of_ne pn (ne_of_isPrefixOf_false (by decide) _))
      (ne_of_getLast hlast (solKey_getLast pn) (by decide))
  · have hK : fullPathOf pn (stripTrailingSlash (stripLeadingDotSlash "Mappers"))
        (.str (cn ++ "Mapper.cs")) = pn ++ ("/Mappers/" ++ (cn ++ "Mapper.cs")) := by
      show pn ++ "/" ++ "Mappers" ++ "/" ++ (cn ++ "Mapper.cs") = _
      rw [String.append_assoc, String.append_assoc, String.append_assoc]
      rfl
    have hnn : ((cn ++ "Mapper.cs") : String).data ≠ [] := strData_append_ne_nil_right cn (by decide)
    have hlast : (pn ++ ("/Mappers/" ++ (cn ++ "Mapper.cs"))).data.getLast? = some 's' := by
      rw [strData_getLast_append pn (strData_append_ne_nil_right "/Mappers/" hnn),
        strData_getLast_append "/Mappers/" hnn, strData_getLast_append cn (by decide)]
      decide
    rw [hK]
    exact c6_case_normal [("Entity", "Models", cn ++ ".cs"),
        ("Repository", "Repositories/Interfaces", "I" ++ cn ++ "Repository.cs"),
        ("RepositoryImpl", "Repositories", cn ++ "Repository.cs"),
        ("Service", "Services/Interfaces", "I" ++ cn ++ "Service.cs"),
        ("ServiceImpl", "Services", cn ++ "Service.cs"),
        ("Controller", "Controllers", cn ++ "Controller.cs"),
        ("DbContext", "Data", "ApplicationDbContext.cs"),
        ("Program", "", "Program.cs"),
        ("Startup", "", "Startup.cs"),
        ("AppSettings", "", "appsettings.json"),
        ("AppSettingsDev", "", "appsettings.Development.json"),
        ("AppSettingsProd", "", "appsettings.Production.json"),
        ("DTO", "DTOs", cn ++ "DTO.cs"),
        ("Validator", "Validators", cn ++ "Validator.cs")]
      [("Middleware", "Middleware", "CustomMiddleware.cs"),
        ("Extension", "Extensions", "ServiceExtensions.cs"),
        ("Helper", "Helpers", "ApplicationHelper.cs"),
        ("Configuration", "Configuration", "AppConfiguration.cs")]
      rfl (skip_of_keys ["Entity", "Repository", "RepositoryImpl", "Service", "ServiceImpl", "Controller", "DbContext", "Program", "Startup", "AppSettings", "AppSettingsDev", "AppSettingsProd", "DTO", "Validator"] rfl (by decide))
      (skip_of_keys ["Middleware", "Extension", "Helper", "Configuration"]
        rfl (by decide))
      hvt hvc hst hvp hvf hs hm1 hscaf hsol _ hK
      (strAppend_ne_of_ne pn (ne_of_isPrefixOf_false (by decide) _))
      (ne_of_getLast hlast (csprojKey_getLast pn) (by decide))
      (strAppend_ne_of_ne pn (ne_of_isPrefixOf_false (by decide) _))
      (ne_of_getLast hlast (solKey_getLast pn) (by decide))
  · have hK : fullPathOf pn (stripTrailingSlash (stripLeadingDotSlash "Middleware"))
        (.str "CustomMiddleware.cs") = pn ++ "/Middleware/CustomMiddleware.cs" := by
      show pn ++ "/" ++ "Middleware" ++ "/" ++ "CustomMiddleware.cs" = _
      rw [String.append_assoc, String.append_assoc, String.append_assoc]
      rfl
    have hlast : (pn ++ "/Middleware/CustomMiddleware.cs").data.getLast? = some 's' := by
      rw [strData_getLast_append pn (by decide)]
      decide
    rw [hK]
    exact c6_case_normal [("Entity", "Models", cn ++ ".cs"),
        ("Repository", "Repositories/Interfaces", "I" ++ cn ++ "Repository.cs"),
        ("RepositoryImpl", "Repositories", cn ++ "Repository.cs"),
        ("Service", "Services/Interfaces", "I" ++ cn ++ "Service.cs"),
        ("ServiceImpl", "Services", cn ++ "Service.cs"),
        ("Controller", "Controllers", cn ++ "Controller.cs"),
        ("DbContext", "Data", "ApplicationDbContext.cs"),
        ("Program", "", "Program.cs"),
        ("Startup", "", "Startup.cs"),
        ("AppSettings", "", "appsettings.json"),
        ("AppSettingsDev", "", "appsettings.Development.json"),
        ("AppSettingsProd", "", "appsettings.Production.json"),
        ("DTO", "DTOs", cn ++ "DTO.cs"),
        ("Validator", "Validators", cn ++ "Validator.cs"),
        ("Mapper", "Mappers", cn ++ "Mapper.cs")]
      [("Extension", "Extensions", "ServiceExtensions.cs"),
        ("Helper", "Helpers", "ApplicationHelper.cs"),
        ("Configuration", "Configuration", "AppConfiguration.cs")]
      rfl (skip_of_keys ["Entity", "Repository", "RepositoryImpl", "Service", "ServiceImpl", "Controller", "DbContext", "Program", "Startup", "AppSettings", "AppSettingsDev", "AppSettingsProd", "DTO", "Validator", "Mapper"] rfl (by decide))
      (skip_of_keys ["Extension", "Helper", "Configuration"]
        rfl (by decide))
      hvt hvc hst hvp hvf hs hm1 hscaf hsol _ hK
      (strAppend_ne_of_ne pn (by decide))
      (ne_of_getLast hlast (csprojKey_getLast pn) (by decide))
      (strAppend_ne_of_ne pn (by decide))
      (ne_of_getLast hlast (solKey_getLast pn) (by decide))
  · have hK : fullPathOf pn (stripTrailingSlash (stripLeadingDotSlash "Extensions"))
        (.str "ServiceExtensions.cs") = pn ++ "/Extensions/ServiceExtensions.cs" := by
      show pn ++ "/" ++ "Extensions" ++ "/" ++ "ServiceExtensions.cs" = _
      rw [String.append_assoc, String.append_assoc, String.append_assoc]
      rfl
    have hlast : (pn ++ "/Extensions/ServiceExtensions.cs").data.getLast? = some 's' := by
      rw [strData_getLast_append pn (by decide)]
      decide
    rw [hK]
    exact c6_case_normal [("Entity", "Models", cn ++ ".cs"),
        ("Repository", "Repositories/Interfaces", "I" ++ cn ++ "Repository.cs"),
        ("RepositoryImpl", "Repositories", cn ++ "Repository.cs"),
        ("Service", "Services/Interfaces", "I" ++ cn ++ "Service.cs"),
        ("ServiceImpl", "Services", cn ++ "Service.cs"),
        ("Controller", "Controllers", cn ++ "Controller.cs"),
        ("DbContext", "Data", "ApplicationDbContext.cs"),
        ("Program", "", "Program.cs"),
        ("Startup", "", "Startup.cs"),
        ("AppSettings", "", "appsettings.json"),
        ("AppSettingsDev", "", "appsettings.Development.json"),
        ("AppSettingsProd", "", "appsettings.Production.json"),
        ("DTO", "DTOs", cn ++ "DTO.cs"),
        ("Validator", "Validators", cn ++ "Validator.cs"),
        ("Mapper", "Mappers", cn ++ "Mapper.cs"),
        ("Middleware", "Middleware", "CustomMiddleware.cs")]
      [("Helper", "Helpers", "ApplicationHelper.cs"),
        ("Configuration", "Configuration", "AppConfiguration.cs")]
      rfl (skip_of_keys ["Entity", "Repository", "RepositoryImpl", "Service", "ServiceImpl", "Controller", "DbContext", "Program", "Startup", "AppSettings", "AppSettingsDev", "AppSettingsProd", "DTO", "Validator", "Mapper", "Middleware"] rfl (by decide))
      (skip_of_keys ["Helper", "Configuration"]
        rfl (by decide))
      hvt hvc hst hvp hvf hs hm1 hscaf hsol _ hK
      (strAppend_ne_of_ne pn (by decide))
      (ne_of_getLast hlast (csprojKey_getLast pn) (by decide))
      (strAppend_ne_of_ne pn (by decide))
      (ne_of_getLast hlast (solKey_getLast pn) (by decide))
  · have hK : fullPathOf pn (stripTrailingSlash (stripLeadingDotSlash "Helpers"))
        (.str "ApplicationHelper.cs") = pn ++ "/Helpers/ApplicationHelper.cs" := by
      show pn ++ "/" ++ "Helpers" ++ "/" ++ "ApplicationHelper.cs" = _
      rw [String.append_assoc, String.append_assoc, String.append_assoc]
      rfl
    have hlast : (pn ++ "/Helpers/ApplicationHelper.cs").data.getLast? = some 's' := by
      rw [strData_getLast_append pn (by decide)]
      decide
    rw [hK]
    exact c6_case_normal [("Entity", "Models", cn ++ ".cs"),
        ("Repository", "Repositories/Interfaces", "I" ++ cn ++ "Repository.cs"),
        ("RepositoryImpl", "Repositories", cn ++ "Repository.cs"),
        ("Service", "Services/Interfaces", "I" ++ cn ++ "Service.cs"),
        ("ServiceImpl", "Services", cn ++ "Service.cs"),
        ("Controller", "Controllers", cn ++ "Controller.cs"),
        ("DbContext", "Data", "ApplicationDbContext.cs"),
        ("Program", "", "Program.cs"),
        ("Startup", "", "Startup.cs"),
        ("AppSettings", "", "appsettings.json"),
        ("AppSettingsDev", "", "appsettings.Development.json"),
        ("AppSettingsProd", "", "appsettings.Production.json"),
        ("DTO", "DTOs", cn ++ "DTO.cs"),
        ("Validator", "Validators", cn ++ "Validator.cs"),
        ("Mapper", "Mappers", cn ++ "Mapper.cs"),
        ("Middleware", "Middleware", "CustomMiddleware.cs"),
        ("Extension", "Extensions", "ServiceExtensions.cs")]
      [("Configuration", "Configuration", "AppConfiguration.cs")]
      rfl (skip_of_keys ["Entity", "Repository", "RepositoryImpl", "Service", "ServiceImpl", "Controller", "DbContext", "Program", "Startup", "AppSettings", "AppSettingsDev", "AppSettingsProd", "DTO", "Validator", "Mapper", "Middleware", "Extension"] rfl (by decide))
      (skip_of_keys ["Configuration"]
        rfl (by decide))
      hvt hvc hst hvp hvf hs hm1 hscaf hsol _ hK
      (strAppend_ne_of_ne pn (by decide))
      (ne_of_getLast hlast (csprojKey_getLast pn) (by decide))
      (strAppend_ne_of_ne pn (by decide))
      (ne_of_getLast hlast (solKey_getLast pn) (by decide))
  · have hK : fullPathOf pn (stripTrailingSlash (stripLeadingDotSlash "Configuration"))
        (.str "AppConfiguration.cs") = pn ++ "/Configuration/AppConfiguration.cs" := by
      show pn ++ "/" ++ "Configuration" ++ "/" ++ "AppConfiguration.cs" = _
      rw [String.append_assoc, String.append_assoc, String.append_assoc]
      rfl
    have hlast : (pn ++ "/Configuration/AppConfiguration.cs").data.getLast? = some 's' := by
      rw [strData_getLast_append pn (by decide)]
      decide
    rw [hK]
    exact c6_case_normal [("Entity", "Models", cn ++ ".cs"),
        ("Repository", "Repositories/Interfaces", "I" ++ cn ++ "Repository.cs"),
        ("RepositoryImpl", "Repositories", cn ++ "Repository.cs"),
        ("Service", "Services/Interfaces", "I" ++ cn ++ "Service.cs"),
        ("ServiceImpl", "Services", cn ++ "Service.cs"),
        ("Controller", "Controllers", cn ++ "Controller.cs"),
        ("DbContext", "Data", "ApplicationDbContext.cs"),
        ("Program", "", "Program.cs"),
        ("Startup", "", "Startup.cs"),
        ("AppSettings", "", "appsettings.json"),
        ("AppSettingsDev", "", "appsettings.Development.json"),
        ("AppSettingsProd", "", "appsettings.Production.json"),
        ("DTO", "DTOs", cn ++ "DTO.cs"),
        ("Validator", "Validators", cn ++ "Validator.cs"),
        ("Mapper", "Mappers", cn ++ "Mapper.cs"),
        ("Middleware", "Middleware", "CustomMiddleware.cs"),
        ("Extension", "Extensions", "ServiceExtensions.cs"),
        ("Helper", "Helpers", "ApplicationHelper.cs")]
      []
      rfl (skip_of_keys ["Entity", "Repository", "RepositoryImpl", "Service", "ServiceImpl", "Controller", "DbContext", "Program", "Startup", "AppSettings", "AppSettingsDev", "AppSettingsProd", "DTO", "Validator", "Mapper", "Middleware", "Extension", "Helper"] rfl (by decide))
      (skip_of_keys ([] : List String)
        rfl (by decide))
      hvt hvc hst hvp hvf hs hm1 hscaf hsol _ hK
      (strAppend_ne_of_ne pn (by decide))
      (ne_of_getLast hlast (csprojKey_getLast pn) (by decide))
      (strAppend_ne_of_ne pn (by decide))
      (ne_of_getLast hlast (solKey_getLast pn) (by decide))

/-- Witness for the amended C6 theorem: a lone `Service` section given as a
plain string lands (only) at
`Company.Project/Services/Interfaces/IEmployeeService.cs`, unmodified. -/
theorem c6_amended_witness :
    (("Service", "Services/Interfaces", "I" ++ "Employee" ++ "Service.cs") ∈
      fileTypeMapping "Employee") ∧
    hasNonWs "svc body" = true ∧
    lookupFile (okOr (parseCSharpStructure (.obj [("Service", .str "svc body")])
        .undef .undef (fun _ => "G"))).files
      (fullPathOf "Company.Project"
        (stripTrailingSlash (stripLeadingDotSlash "Services/Interfaces"))
        (.str ("I" ++ "Employee" ++ "Service.cs"))) = some "svc body" ∧
    (keysOf (okOr (parseCSharpStructure (.obj [("Service", .str "svc body")])
        .undef .undef (fun _ => "G"))).files).Nodup := by
  have happ := c6_amended "Employee" "Company.Project"
    ("Service", "Services/Interfaces", "I" ++ "Employee" ++ "Service.cs")
    (.str "svc body") "svc body" (fun _ => "G") _ (by decide) (Or.inl rfl) (by decide)
    rfl rfl
  exact ⟨by decide, by decide, happ.1, happ.2⟩

/-! ## Claim C1: the well-formedness discipline under which the Normalizer
cannot throw.  Every throw site of the source is a property access on
`null`/`undefined` or a string method invoked on a truthy non-string; the
predicates below rule exactly those shapes out. -/

/-- The receiver of a property access does not throw. -/
def accessOk (v : JSVal) : Bool :=
  match v with
  | .undef => false
  | .null => false
  | _ => true

/-- Not the JavaScript `null` (whose `typeof` is `"object"`, so the identity
scan dereferences it). -/
def notNull (v : JSVal) : Bool :=
  match v with
  | .null => false
  | _ => true

def isStr (v : JSVal) : Bool :=
  match v with
  | .str _ => true
  | _ => false

/-- A value that string methods are (conditionally) invoked on: either a
string, or falsy — falsy content is dropped before any method call. -/
def contentOkB (c : JSVal) : Bool := isStr c || !(truthy c)

/-- A member of a plural section or of a `Services`/`Repositories` map: its
properties are read (no `null`/`undefined`) and its `content`, if truthy,
is a string. -/
def memberOk (m : JSVal) : Bool :=
  accessOk m && contentOkB (getFieldD m "content")

/-- The members a plural-section handler would iterate over are well-formed. -/
def membersOk (v : JSVal) : Bool :=
  match v with
  | .arr xs => xs.all memberOk
  | .obj fs => fs.all (fun kv => memberOk kv.2)
  | _ => true

/-- A top-level section value that never makes the Normalizer throw. -/
def valueOk (v : JSVal) : Bool :=
  notNull v && contentOkB (getFieldD v "Path") && contentOkB (sectContent v) &&
    membersOk v

/-- The object the sections are read from (`convertedCode` or the raw
response): an object all of whose values are well-formed, or a primitive
(whose property reads all yield `undefined`). -/
def goodBase (c : JSVal) : Bool :=
  match c with
  | .undef => false
  | .null => false
  | .arr _ => false
  | .obj fs => fs.all (fun kv => valueOk kv.2)
  | _ => true

/-- One unit-test blob source: its `content` is readable and the resulting
blob (`content || member`) is a string, which `.replace` is called on. -/
def testBlobOk (m : JSVal) : Bool :=
  accessOk m && isStr (jsOr (getFieldD m "content") m)

/-- A `unitTests` payload the test block survives: falsy, a string, a truthy
`unitTestCode` string, a member list/map of well-formed blobs, or a truthy
primitive (which contributes no blobs). -/
def testsOk (t : JSVal) : Bool :=
  if truthy t then
    match t with
    | .str _ => true
    | .arr xs => xs.all testBlobOk
    | .obj fs =>
      if truthy (getFieldD (.obj fs) "unitTestCode") then
        isStr (getFieldD (.obj fs) "unitTestCode")
      else fs.all (fun kv => testBlobOk kv.2)
    | _ => true
  else true

theorem isStr_exists {v : JSVal} (h : isStr v = true) : ∃ s, v = .str s := by
  cases v with
  | str s => exact ⟨s, rfl⟩
  | undef => exact absurd h (by decide)
  | null => exact absurd h (by decide)
  | bool b => exact absurd h (by simp [isStr])
  | num n => exact absurd h (by simp [isStr])
  | arr xs => exact absurd h (by simp [isStr])
  | obj fs => exact absurd h (by simp [isStr])

theorem andE_left {a b : Bool} (h : (a && b) = true) : a = true := by
  cases a with
  | true => rfl
  | false => simp at h

theorem andE_right {a b : Bool} (h : (a && b) = true) : b = true := by
  cases a with
  | true => exact h
  | false => simp at h

theorem contentOkB_strOrFalsy {c : JSVal} (h : contentOkB c = true) :
    (∃ s, c = .str s) ∨ truthy c = false := by
  by_cases h1 : isStr c = true
  · exact Or.inl (isStr_exists h1)
  · refine Or.inr ?_
    have h1f : isStr c = false := by
      cases hc : isStr c with
      | false => rfl
      | true => exact absurd hc h1
    unfold contentOkB at h
    rw [h1f] at h
    simpa using h

theorem getFieldE_accessOk {v : JSVal} (h : accessOk v = true) (k : String) :
    getFieldE v k = .ok (getFieldD v k) := by
  cases v with
  | undef => exact absurd h (by decide)
  | null => exact absurd h (by decide)
  | bool b => rfl
  | num n => rfl
  | str s => rfl
  | arr xs => rfl
  | obj fs => rfl

theorem truthy_accessOk {v : JSVal} (h : truthy v = true) : accessOk v = true := by
  cases v with
  | undef => exact absurd h (by decide)
  | null => exact absurd h (by decide)
  | bool b => rfl
  | num n => rfl
  | str s => rfl
  | arr xs => rfl
  | obj fs => rfl

theorem goodBase_accessOk {c : JSVal} (h : goodBase c = true) : accessOk c = true := by
  cases c with
  | undef => exact absurd h (by decide)
  | null => exact absurd h (by decide)
  | bool b => rfl
  | num n => rfl
  | str s => rfl
  | arr xs => exact absurd h (by simp [goodBase])
  | obj fs => rfl

theorem valueOk_parts {v : JSVal} (h : valueOk v = true) :
    notNull v = true ∧ contentOkB (getFieldD v "Path") = true ∧
      contentOkB (sectContent v) = true ∧ membersOk v = true := by
  unfold valueOk at h
  exact ⟨andE_left (andE_left (andE_left h)), andE_right (andE_left (andE_left h)),
    andE_right (andE_left h), andE_right h⟩

theorem memberOk_parts {m : JSVal} (h : memberOk m = true) :
    accessOk m = true ∧ contentOkB (getFieldD m "content") = true := by
  unfold memberOk at h
  exact ⟨andE_left h, andE_right h⟩

theorem testBlobOk_parts {m : JSVal} (h : testBlobOk m = true) :
    accessOk m = true ∧ isStr (jsOr (getFieldD m "content") m) = true := by
  unfold testBlobOk at h
  exact ⟨andE_left h, andE_right h⟩

/-- Every field of a good base object is absent (`undefined`) or well-formed. -/
theorem goodBase_field {c : JSVal} (h : goodBase c = true) (k : String) :
    getFieldD c k = .undef ∨ valueOk (getFieldD c k) = true := by
  cases c with
  | undef => exact Or.inl rfl
  | null => exact Or.inl rfl
  | bool b => exact Or.inl rfl
  | num n => exact Or.inl rfl
  | str s => exact Or.inl rfl
  | arr xs => exact Or.inl rfl
  | obj fs =>
    have hgd : getFieldD (.obj fs) k =
        ((fs.find? (fun p => p.1 == k)).map Prod.snd).getD .undef := rfl
    rw [hgd]
    have hall : ∀ kv ∈ fs, valueOk kv.2 = true := by
      have h' : fs.all (fun kv => valueOk kv.2) = true := h
      intro kv hkv
      exact List.all_eq_true.mp h' kv hkv
    cases hf : fs.find? (fun p => p.1 == k) with
    | none => exact Or.inl rfl
    | some pv =>
      refine Or.inr ?_
      exact hall pv (List.mem_of_find?_eq_some hf)

/-! ### Totality of the individual stages under the discipline -/

theorem bind_total {α β : Type} {e : Except String α} {f : α → Except String β}
    (he : ∃ a, e = .ok a) (hf : ∀ a, ∃ b, f a = .ok b) : ∃ b, (e >>= f) = .ok b := by
  rcases he with ⟨a, ha⟩
  rcases hf a with ⟨b, hb⟩
  exact ⟨b, by rw [ha, ok_bind, hb]⟩

theorem bind_total_val {α β : Type} {e : Except String α} {f : α → Except String β}
    {a : α} (he : e = .ok a) (hf : ∃ b, f a = .ok b) : ∃ b, (e >>= f) = .ok b := by
  rcases hf with ⟨b, hb⟩
  exact ⟨b, by rw [he, ok_bind, hb]⟩

theorem list_mapM_total_pred {α β : Type} {P : β → Prop} {f : α → Except String β} :
    ∀ {l : List α}, (∀ a ∈ l, ∃ b, f a = .ok b ∧ P b) →
      ∃ bs, l.mapM f = .ok bs ∧ ∀ b ∈ bs, P b := by
  intro l
  induction l with
  | nil => intro _; exact ⟨[], rfl, by intro b hb; cases hb⟩
  | cons x xs ih =>
    intro h
    rcases h x (List.mem_cons_self x xs) with ⟨b, hb, hPb⟩
    rcases ih (fun a ha => h a (List.mem_cons_of_mem x ha)) with ⟨bs, hbs, hPs⟩
    refine ⟨b :: bs, ?_, ?_⟩
    · rw [List.mapM_cons, hb, ok_bind, hbs, ok_bind]
      rfl
    · intro b' hb'
      rcases List.mem_cons.mp hb' with h1 | h1
      · rw [h1]; exact hPb
      · exact hPs b' h1

theorem snd_mem_of_mem_enumFrom {α : Type} :
    ∀ {l : List α} {n : Nat} {p : Nat × α}, p ∈ l.enumFrom n → p.2 ∈ l := by
  intro l
  induction l with
  | nil => intro n p h; cases h
  | cons x xs ih =>
    intro n p h
    rw [List.enumFrom] at h
    rcases List.mem_cons.mp h with h1 | h1
    · subst h1
      exact List.mem_cons_self _ _
    · exact List.mem_cons_of_mem _ (ih h1)

theorem snd_mem_of_mem_enum {α : Type} {l : List α} {p : Nat × α}
    (h : p ∈ l.enum) : p.2 ∈ l :=
  snd_mem_of_mem_enumFrom h

/-- A write whose content obeys the discipline always succeeds. -/
theorem addFile_contentOk_total (pn : String) (st : FileStruct) (k : String) {c : JSVal}
    (h : contentOkB c = true) : ∃ st', addFileToStructure pn st k c = .ok st' := by
  rcases contentOkB_strOrFalsy h with ⟨s, rfl⟩ | hf
  · unfold addFileToStructure
    by_cases ht : truthy (JSVal.str s) = true
    · rw [if_pos ht]
      rw [show asStringE (JSVal.str s) "content.trim" = .ok s from rfl, ok_bind]
      by_cases hn : hasNonWs s = true
      · rw [if_pos hn]
        exact ⟨_, rfl⟩
      · rw [if_neg hn]
        exact ⟨st, rfl⟩
    · rw [if_neg ht]
      exact ⟨st, rfl⟩
  · unfold addFileToStructure
    rw [hf, if_neg (by decide : ¬(false = true))]
    exact ⟨st, rfl⟩

theorem contentOrEmptyE_total {m : JSVal} (hnn : notNull m = true) :
    ∃ w, contentOrEmptyE m = .ok w := by
  cases m with
  | null => exact absurd hnn (by decide)
  | undef => exact ⟨.str "", rfl⟩
  | bool b => exact ⟨.str "", rfl⟩
  | num n => exact ⟨.str "", rfl⟩
  | str s => exact ⟨.str "", rfl⟩
  | arr xs => exact ⟨.str "", rfl⟩
  | obj fs => exact ⟨_, rfl⟩

/-- `codeObj.Entity && codeObj.Entity.content` evaluates without throwing, and
when both operands are truthy the content is a string. -/
theorem entContentE_total {ent : JSVal} (h : ent = .undef ∨ valueOk ent = true) :
    ∃ w, entContentE ent = .ok w ∧
      ((truthy ent && truthy w) = true → isStr w = true) := by
  rcases h with rfl | hok
  · exact ⟨.undef, rfl, fun hb => absurd hb (by decide)⟩
  · by_cases ht : truthy ent = true
    · have hacc := truthy_accessOk ht
      refine ⟨getFieldD ent "content", ?_, ?_⟩
      · unfold entContentE
        rw [if_pos ht]
        exact getFieldE_accessOk hacc _
      · intro hb
        have htw : truthy (getFieldD ent "content") = true := andE_right hb
        have hco := (valueOk_parts hok).2.2.1
        cases ent with
        | undef => exact absurd ht (by decide)
        | null => exact absurd ht (by decide)
        | str s => simp [getFieldD, truthy] at htw
        | bool b => simp [getFieldD, truthy] at htw
        | num n => simp [getFieldD, truthy] at htw
        | arr xs => simp [getFieldD, truthy] at htw
        | obj fs =>
          have hsc : sectContent (.obj fs) =
              jsOr (getFieldD (.obj fs) "content") (.str "") := rfl
          rw [hsc] at hco
          unfold jsOr at hco
          rw [if_pos htw] at hco
          rcases contentOkB_strOrFalsy hco with ⟨s, hse⟩ | hf
          · rw [hse]
            rfl
          · rw [hf] at htw
            exact Bool.noConfusion htw
    · refine ⟨.undef, ?_, ?_⟩
      · unfold entContentE
        rw [if_neg ht]
        rfl
      · intro hb
        exact absurd (andE_left hb) ht

theorem list_mapM_total {α β : Type} {f : α → Except String β} :
    ∀ {l : List α}, (∀ a ∈ l, ∃ b, f a = .ok b) → ∃ bs, l.mapM f = .ok bs := by
  intro l
  induction l with
  | nil => intro _; exact ⟨[], rfl⟩
  | cons x xs ih =>
    intro h
    rcases h x (List.mem_cons_self x xs) with ⟨b, hb⟩
    rcases ih (fun a ha => h a (List.mem_cons_of_mem x ha)) with ⟨bs, hbs⟩
    refine ⟨b :: bs, ?_⟩
    rw [List.mapM_cons, hb, ok_bind, hbs, ok_bind]
    rfl

theorem scanResultE_total {c ent w : JSVal} (hbase : goodBase c = true)
    (hw : (truthy ent && truthy w) = true → isStr w = true) :
    ∃ sc, scanResultE c ent w = .ok sc := by
  unfold scanResultE
  by_cases hb : (truthy ent && truthy w) = true
  · rw [if_pos hb]
    rcases isStr_exists (hw hb) with ⟨s, rfl⟩
    exact ⟨_, rfl⟩
  · rw [if_neg hb]
    have hvals : ∃ vs, jsValuesE c = .ok vs ∧
        ∀ m ∈ vs, ∃ w', contentOrEmptyE m = .ok w' := by
      cases c with
      | undef => exact absurd hbase (by decide)
      | null => exact absurd hbase (by decide)
      | arr xs => exact absurd hbase (by simp [goodBase])
      | bool b => exact ⟨[], rfl, by intro m hm; cases hm⟩
      | num n => exact ⟨[], rfl, by intro m hm; cases hm⟩
      | str s =>
        refine ⟨s.data.map (fun ch => .str (String.mk [ch])), rfl, ?_⟩
        intro m hm
        rcases List.mem_map.mp hm with ⟨ch, _, hch⟩
        exact ⟨.str "", by rw [← hch]; rfl⟩
      | obj fs =>
        refine ⟨fs.map Prod.snd, rfl, ?_⟩
        intro m hm
        rcases List.mem_map.mp hm with ⟨kv, hkv, hm2⟩
        have h' : fs.all (fun p => valueOk p.2) = true := hbase
        have hvok : valueOk kv.2 = true := List.all_eq_true.mp h' kv hkv
        subst hm2
        exact contentOrEmptyE_total (valueOk_parts hvok).1
    rcases hvals with ⟨vs, hvs, hall⟩
    rw [hvs, ok_bind]
    rcases list_mapM_total hall with ⟨items, hitems⟩
    rw [hitems, ok_bind]
    exact ⟨_, rfl⟩

theorem inferIdentityE_total (rfs : List (String × JSVal))
    (hbase : goodBase (jsOr (getFieldD (.obj rfs) "convertedCode") (.obj rfs)) = true) :
    ∃ p, inferIdentityE (.obj rfs) = .ok p := by
  unfold inferIdentityE
  refine bind_total_val rfl ?_
  have hacc := goodBase_accessOk hbase
  refine bind_total_val (getFieldE_accessOk hacc "Entity") ?_
  rcases entContentE_total (goodBase_field hbase "Entity") with ⟨w, hw, hwstr⟩
  refine bind_total_val hw ?_
  rcases scanResultE_total hbase hwstr with ⟨sc, hsc⟩
  refine bind_total_val hsc ?_
  refine bind_total_val rfl ?_
  exact ⟨_, rfl⟩

theorem processSection_total {c : JSVal} (pn : String) (st : FileStruct)
    (entry : String × String × String) (hbase : goodBase c = true) :
    ∃ st', processSection c pn st entry = .ok st' := by
  unfold processSection
  have hacc := goodBase_accessOk hbase
  refine bind_total_val (getFieldE_accessOk hacc entry.1) ?_
  dsimp only
  rcases goodBase_field hbase entry.1 with hv | hv
  · rw [hv]
    exact ⟨st, rfl⟩
  · by_cases ht : truthy (getFieldD c entry.1) = true
    · rw [if_pos ht]
      have hpath : ∃ ps, asStringE
          (jsOr (getFieldD (getFieldD c entry.1) "Path") (.str entry.2.1))
          "path.replace" = .ok ps := by
        rcases contentOkB_strOrFalsy (valueOk_parts hv).2.1 with ⟨s, hse⟩ | hf
        · rw [hse]
          unfold jsOr
          by_cases hts : truthy (JSVal.str s) = true
          · rw [if_pos hts]
            exact ⟨s, rfl⟩
          · rw [if_neg hts]
            exact ⟨entry.2.1, rfl⟩
        · unfold jsOr
          rw [hf, if_neg (by decide : ¬(false = true))]
          exact ⟨entry.2.1, rfl⟩
      rcases hpath with ⟨ps, hps⟩
      refine bind_total_val hps ?_
      dsimp only
      by_cases hc : truthy (sectContent (getFieldD c entry.1)) = true
      · rw [if_pos hc]
        exact addFile_contentOk_total _ _ _ (valueOk_parts hv).2.2.1
      · rw [if_neg hc]
        exact ⟨st, rfl⟩
    · rw [if_neg ht]
      exact ⟨st, rfl⟩

theorem processPluralCM_total {c : JSVal} (pn key defPath : String)
    (arrName : Nat → String) (keyName : String → String) (st : FileStruct)
    (hbase : goodBase c = true) :
    ∃ st', processPluralCM c pn key defPath arrName keyName st = .ok st' := by
  unfold processPluralCM
  have hacc := goodBase_accessOk hbase
  refine bind_total_val (getFieldE_accessOk hacc key) ?_
  dsimp only
  rcases goodBase_field hbase key with hv | hv
  · rw [hv]
    exact ⟨st, rfl⟩
  · by_cases hb : (truthy (getFieldD c key) &&
        (jsTypeof (getFieldD c key) == "object")) = true
    · rw [if_pos hb]
      have hmem := (valueOk_parts hv).2.2.2
      cases hcase : getFieldD c key with
      | undef => rw [hcase] at hb; exact absurd hb (by decide)
      | null => rw [hcase] at hb; exact absurd hb (by decide)
      | bool b => rw [hcase] at hb; simp [truthy, jsTypeof] at hb
      | num n => rw [hcase] at hb; simp [truthy, jsTypeof] at hb
      | str s => rw [hcase] at hb; simp [truthy, jsTypeof] at hb
      | arr xs =>
        rw [hcase] at hmem
        have hmem' : xs.all memberOk = true := hmem
        refine foldSt_total _ ?_ st
        intro st0 ia hia
        have hm : memberOk ia.2 = true :=
          List.all_eq_true.mp hmem' ia.2 (snd_mem_of_mem_enum hia)
        rcases memberOk_parts hm with ⟨hma, hmc⟩
        refine bind_total_val (getFieldE_accessOk hma "FileName") ?_
        refine bind_total_val (getFieldE_accessOk hma "Path") ?_
        refine bind_total_val (getFieldE_accessOk hma "content") ?_
        exact addFile_contentOk_total _ _ _ hmc
      | obj fs2 =>
        rw [hcase] at hmem
        have hmem' : fs2.all (fun kv => memberOk kv.2) = true := hmem
        refine foldSt_total _ ?_ st
        intro st0 kv hkv
        have hm : memberOk kv.2 = true := List.all_eq_true.mp hmem' kv hkv
        rcases memberOk_parts hm with ⟨hma, hmc⟩
        refine bind_total_val (getFieldE_accessOk hma "FileName") ?_
        refine bind_total_val (getFieldE_accessOk hma "Path") ?_
        refine bind_total_val (getFieldE_accessOk hma "content") ?_
        exact addFile_contentOk_total _ _ _ hmc
    · rw [if_neg hb]
      exact ⟨st, rfl⟩

theorem srPairs_memberOk {v : JSVal} {kv : String × JSVal}
    (hm : membersOk v = true) (hkv : kv ∈ srPairs v) : memberOk kv.2 = true := by
  cases v with
  | undef => cases hkv
  | null => cases hkv
  | bool b => cases hkv
  | num n => cases hkv
  | str s => cases hkv
  | arr xs =>
    rcases List.mem_map.mp hkv with ⟨p, hp, hpe⟩
    have hm' : xs.all memberOk = true := hm
    have hpm : memberOk p.2 = true :=
      List.all_eq_true.mp hm' p.2 (snd_mem_of_mem_enum hp)
    subst hpe
    exact hpm
  | obj fs =>
    have hm' : fs.all (fun kv => memberOk kv.2) = true := hm
    exact List.all_eq_true.mp hm' kv hkv

theorem processSR_total {c : JSVal} (pn key defPath suffix : String) (st : FileStruct)
    (hbase : goodBase c = true) :
    ∃ st', processSR c pn key defPath suffix st = .ok st' := by
  unfold processSR
  have hacc := goodBase_accessOk hbase
  refine bind_total_val (getFieldE_accessOk hacc key) ?_
  dsimp only
  rcases goodBase_field hbase key with hv | hv
  · rw [hv]
    exact ⟨st, rfl⟩
  · by_cases hb : (truthy (getFieldD c key) &&
        (jsTypeof (getFieldD c key) == "object")) = true
    · rw [if_pos hb]
      refine foldSt_total _ ?_ st
      intro st0 kv hkv
      dsimp only
      by_cases htm : truthy kv.2 = true
      · rw [if_pos htm]
        have hmok : memberOk kv.2 = true :=
          srPairs_memberOk (valueOk_parts hv).2.2.2 hkv
        refine bind_total_val (getFieldE_accessOk (truthy_accessOk htm) "content") ?_
        dsimp only
        by_cases htc : truthy (getFieldD kv.2 "content") = true
        · rw [if_pos htc]
          exact addFile_contentOk_total _ _ _ (memberOk_parts hmok).2
        · rw [if_neg htc]
          exact ⟨st0, rfl⟩
      · rw [if_neg htm]
        exact ⟨st0, rfl⟩
    · rw [if_neg hb]
      exact ⟨st, rfl⟩

theorem addScaffolding_total (cn pn : String) (st : FileStruct) :
    ∃ st', addScaffolding cn pn st = .ok st' := by
  have hstep : ∀ (k s : String) (st0 : FileStruct),
      ∃ st1, scafStep pn k (.str s) st0 = .ok st1 := by
    intro k s st0
    unfold scafStep
    by_cases hp : hasTruthyFile st0 k = true
    · rw [if_pos hp]
      exact ⟨st0, rfl⟩
    · rw [if_neg hp]
      exact addFile_contentOk_total _ _ _ rfl
  unfold addScaffolding
  refine bind_total (hstep _ _ st) (fun st1 => ?_)
  refine bind_total (hstep _ _ st1) (fun st2 => ?_)
  exact hstep _ _ st2

theorem processTestFile_total (cn pn tpn : String) (st : FileStruct) {b : JSVal}
    (hb : isStr b = true) : ∃ st', processTestFile cn pn tpn st b = .ok st' := by
  rcases isStr_exists hb with ⟨s, rfl⟩
  unfold processTestFile
  rw [show asStringE (JSVal.str s) "content.replace" = .ok s from rfl, ok_bind]
  by_cases hc : cleanTestContent s = ""
  · rw [if_pos hc]
    exact ⟨st, rfl⟩
  · rw [if_neg hc]
    exact addFile_contentOk_total _ _ _ rfl

theorem buildTestFiles_total {t : JSVal} (hok : testsOk t = true)
    (htr : truthy t = true) :
    ∃ bs, buildTestFiles t = .ok bs ∧ ∀ b ∈ bs, isStr b = true := by
  cases t with
  | undef => exact absurd htr (by decide)
  | null => exact absurd htr (by decide)
  | str s =>
    refine ⟨[.str s], rfl, ?_⟩
    intro b hb
    rw [List.mem_singleton.mp hb]
    rfl
  | bool b => exact ⟨[], rfl, by intro b hb; cases hb⟩
  | num n => exact ⟨[], rfl, by intro b hb; cases hb⟩
  | arr xs =>
    have hall : xs.all testBlobOk = true := hok
    have hred : buildTestFiles (.arr xs) = xs.mapM (fun t => do
        let c ← getFieldE t "content"
        Except.ok (jsOr c t)) := rfl
    rw [hred]
    refine list_mapM_total_pred ?_
    intro m hm
    have hbl := List.all_eq_true.mp hall m hm
    rcases testBlobOk_parts hbl with ⟨hma, hmi⟩
    refine ⟨jsOr (getFieldD m "content") m, ?_, hmi⟩
    rw [getFieldE_accessOk hma "content", ok_bind]
  | obj fs =>
    have hok' : (if truthy (getFieldD (.obj fs) "unitTestCode") = true
        then isStr (getFieldD (.obj fs) "unitTestCode")
        else fs.all (fun kv => testBlobOk kv.2)) = true := hok
    have hred : buildTestFiles (.obj fs) =
        (if truthy (getFieldD (.obj fs) "unitTestCode") = true
         then Except.ok [getFieldD (.obj fs) "unitTestCode"]
         else fs.mapM (fun kv => do
           let c ← getFieldE kv.2 "content"
           Except.ok (jsOr c kv.2))) := rfl
    by_cases hutc : truthy (getFieldD (.obj fs) "unitTestCode") = true
    · rw [if_pos hutc] at hok'
      rcases isStr_exists hok' with ⟨u, hu⟩
      refine ⟨[getFieldD (.obj fs) "unitTestCode"], ?_, ?_⟩
      · rw [hred, if_pos hutc]
      · intro b hb
        rw [List.mem_singleton.mp hb, hu]
        rfl
    · rw [if_neg hutc] at hok'
      rw [hred, if_neg hutc]
      refine list_mapM_total_pred ?_
      intro kv hkv
      have hbl := List.all_eq_true.mp hok' kv hkv
      rcases testBlobOk_parts hbl with ⟨hma, hmi⟩
      refine ⟨jsOr (getFieldD kv.2 "content") kv.2, ?_, hmi⟩
      rw [getFieldE_accessOk hma "content", ok_bind]

theorem processUnitTests_total (cn pn tpn : String) {t : JSVal}
    (hok : testsOk t = true) :
    ∀ st, ∃ st', processUnitTests cn pn tpn t st = .ok st' := by
  intro st
  unfold processUnitTests
  by_cases htr : truthy t = true
  · have hne : ¬(truthy t = false) := by
      rw [htr]
      decide
    rw [if_neg hne]
    rcases buildTestFiles_total hok htr with ⟨bs, hbs, hall⟩
    refine bind_total_val hbs ?_
    exact foldSt_total _ (fun st0 b hb0 => processTestFile_total cn pn tpn st0 (hall b hb0)) st
  · have hf : truthy t = false := by
      cases hcc : truthy t with
      | false => rfl
      | true => exact absurd hcc htr
    rw [if_pos hf]
    exact ⟨st, rfl⟩

theorem testCondE_total (rfs : List (String × JSVal)) (it ut : JSVal) :
    ∃ b, testCondE (.obj rfs) it ut = .ok b := by
  unfold testCondE
  by_cases h1 : truthy it = true
  · rw [if_pos h1]
    by_cases h2 : truthy ut = true
    · rw [if_pos h2]
      exact ⟨true, rfl⟩
    · rw [if_neg h2]
      exact ⟨_, rfl⟩
  · rw [if_neg h1]
    exact ⟨false, rfl⟩

theorem processTestsBlock_total (rfs : List (String × JSVal)) (it ut : JSVal)
    (cn pn : String) (hut : testsOk ut = true)
    (hrut : testsOk (getFieldD (.obj rfs) "unitTests") = true) :
    ∀ st, ∃ st', processTestsBlock (.obj rfs) it ut cn pn st = .ok st' := by
  intro st
  unfold processTestsBlock
  rcases testCondE_total rfs it ut with ⟨b, hbc⟩
  refine bind_total_val hbc ?_
  cases b with
  | false => exact ⟨st, rfl⟩
  | true =>
    rw [if_pos rfl]
    refine bind_total (addFile_contentOk_total _ _ _ rfl) (fun st1 => ?_)
    refine bind_total (processUnitTests_total cn pn _ hut st1) (fun st2 => ?_)
    refine bind_total_val rfl ?_
    refine bind_total (processUnitTests_total cn pn _ hrut st2) (fun st3 => ?_)
    refine bind_total (addFile_contentOk_total _ _ _ rfl) (fun st4 => ?_)
    exact addFile_contentOk_total _ _ _ rfl

theorem addSolution_total (rfs : List (String × JSVal)) (it ut : JSVal)
    (pn : String) (g : Nat → String) :
    ∀ st, ∃ st', addSolution (.obj rfs) it ut pn g st = .ok st' := by
  intro st
  unfold addSolution
  rcases testCondE_total rfs it ut with ⟨b, hbc⟩
  refine bind_total_val hbc ?_
  exact addFile_contentOk_total _ _ _ rfl

theorem normalizeCore_total (rfs : List (String × JSVal)) (it ut : JSVal)
    (hbase : goodBase (jsOr (getFieldD (.obj rfs) "convertedCode") (.obj rfs)) = true)
    (hut : testsOk ut = true)
    (hrut : testsOk (getFieldD (.obj rfs) "unitTests") = true) :
    ∃ t, normalizeCore (.obj rfs) it ut = .ok t := by
  unfold normalizeCore
  refine bind_total_val rfl ?_
  rcases inferIdentityE_total rfs hbase with ⟨⟨cn, pn⟩, hid⟩
  refine bind_total_val hid ?_
  dsimp only
  refine bind_total
    (foldSt_total _ (fun st0 a _ => processSection_total pn st0 a hbase) _)
    (fun st1 => ?_)
  refine bind_total (processPluralCM_total pn "Controllers" "Controllers" _ _ st1 hbase)
    (fun st2 => ?_)
  refine bind_total (processPluralCM_total pn "Models" "Models" _ _ st2 hbase)
    (fun st3 => ?_)
  refine bind_total (processSR_total pn "Services" "Services" "Service.cs" st3 hbase)
    (fun st4 => ?_)
  refine bind_total (processSR_total pn "Repositories" "Repositories" "Repository.cs"
    st4 hbase) (fun st5 => ?_)
  refine bind_total (addScaffolding_total cn pn st5) (fun st6 => ?_)
  refine bind_total (processTestsBlock_total rfs it ut cn pn hut hrut st6)
    (fun st7 => ?_)
  exact ⟨_, rfl⟩

/-- C1 (amended): under the well-formedness discipline — section values whose
truthy `Path` and extracted content are strings, no `null` section values,
plural-section members and test blobs that are readable with string content —
the Normalizer never throws: it returns a FileTree for every such response,
and a malformed section (e.g. falsy or objectless content) merely produces no
entry.  Outside the discipline it does throw; see the counterexample. -/
theorem c1_amended_no_throw (rfs : List (String × JSVal)) (it ut : JSVal)
    (g : Nat → String)
    (hbase : goodBase (jsOr (getFieldD (.obj rfs) "convertedCode") (.obj rfs)) = true)
    (hut : testsOk ut = true)
    (hrut : testsOk (getFieldD (.obj rfs) "unitTests") = true) :
    ∃ st, parseCSharpStructure (.obj rfs) it ut g = .ok st := by
  unfold parseCSharpStructure
  refine bind_total (normalizeCore_total rfs it ut hbase hut hrut) (fun t => ?_)
  obtain ⟨cn, pn, st7⟩ := t
  dsimp only
  exact addSolution_total rfs it ut pn g st7

/-- Witness for the amended C1 theorem: a malformed (numeric) `Service`
section and a truthy numeric `unitTests` payload satisfy the discipline, and
the Normalizer returns a FileTree instead of throwing. -/
theorem c1_amended_witness :
    goodBase (jsOr (getFieldD (.obj [("Service", .num 5)]) "convertedCode")
      (.obj [("Service", .num 5)])) = true ∧
    testsOk (.num 3) = true ∧
    testsOk (getFieldD (.obj [("Service", .num 5)]) "unitTests") = true ∧
    ∃ st, parseCSharpStructure (.obj [("Service", .num 5)]) (.bool true) (.num 3)
      (fun _ => "G") = .ok st := by
  refine ⟨by decide, by decide, by decide, ?_⟩
  exact c1_amended_no_throw [("Service", .num 5)] (.bool true) (.num 3) (fun _ => "G")
    (by decide) (by decide) (by decide)

end CobolToJava
